import Mathlib

/-!
Verilog 32-bit AXIL SPI controller driver: a shallow embedding

Source: `src/modules/axil32-verilog-spi/spi-axil32-verilog.c`.

The driver talks to the hardware only through the two function pointers
`read_fn` / `write_fn` of `struct axil32v_spi`.  The embedding keeps them as
fields of the driver state, acting on an arbitrary device state `σ`, and
records every access in a trace (most recent access first), so that the
theorems can speak about which registers were touched, in which order and with
which values.

C integer types: `u32` values are naturals reduced modulo `2^32`; `int` values
are integers, and arithmetic that can leave the `int` range wraps modulo
`2^32` (`wrap32`); `u8 bytes_per_word` is a natural.  The driver is a Linux
kernel module (`linux/module.h`, `module_platform_driver`), and kernel code is
compiled with `-fno-strict-overflow`, under which signed arithmetic wraps.
-/

namespace A32V

/-! ## Register map (the `#define`s of the driver) -/

abbrev AXIL32_VERILOG_SPI_MAX_CS : Int := 32

abbrev A32V_SPI_ID : Nat := 0x294EC100
abbrev A32V_SPI_REV : Nat := 0x00000100

abbrev A32V_SPI_ID_OFFSET : Nat := 0x00
abbrev A32V_SPI_REV_OFFSET : Nat := 0x04
abbrev A32V_SPI_PNT_OFFSET : Nat := 0x08

abbrev A32V_SPI_RESETR_OFFSET : Nat := 0x10
abbrev A32V_SPI_RESET_VECTOR : Nat := 0x0A

abbrev A32V_SPI_CTR_OFFSET : Nat := 0x20
abbrev A32V_SPI_CTR_LOOP : Nat := 0x01
abbrev A32V_SPI_CTR_ENABLE : Nat := 0x02
abbrev A32V_SPI_CTR_CPHA : Nat := 0x04
abbrev A32V_SPI_CTR_CPOL : Nat := 0x08
abbrev A32V_SPI_CTR_LSB_FIRST : Nat := 0x10
abbrev A32V_SPI_CTR_MANUAL_SSELECT : Nat := 0x20
abbrev A32V_SPI_CTR_MODE_MASK : Nat :=
  A32V_SPI_CTR_CPHA ||| A32V_SPI_CTR_CPOL ||| A32V_SPI_CTR_LSB_FIRST ||| A32V_SPI_CTR_LOOP

abbrev A32V_SPI_CTR_WORD_WIDTH_OFFSET : Nat := 8
abbrev A32V_SPI_CTR_WORD_WIDTH_MASK : Nat := 0xff <<< A32V_SPI_CTR_WORD_WIDTH_OFFSET

abbrev A32V_SPI_CTR_CLKPRSCL_OFFSET : Nat := 16
abbrev A32V_SPI_CTR_CLKPRSCL_MASK : Nat := 0xffff <<< A32V_SPI_CTR_CLKPRSCL_OFFSET

abbrev A32V_SPI_SR_OFFSET : Nat := 0x28
abbrev A32V_SPI_SR_RX_EMPTY_MASK : Nat := 0x01
abbrev A32V_SPI_SR_RX_FULL_MASK : Nat := 0x02
abbrev A32V_SPI_SR_TX_EMPTY_MASK : Nat := 0x04
abbrev A32V_SPI_SR_TX_FULL_MASK : Nat := 0x08

abbrev A32V_SPI_SSR_OFFSET : Nat := 0x2C

abbrev A32V_SPI_TXD_OFFSET : Nat := 0x30
abbrev A32V_SPI_RXD_OFFSET : Nat := 0x34

/-! ## Constants of the Linux SPI core used by the driver -/

/-- Mode flag `SPI_CPHA` of `linux/spi/spi.h`. -/
abbrev SPI_CPHA : Nat := 0x01
/-- Mode flag `SPI_CPOL` of `linux/spi/spi.h`. -/
abbrev SPI_CPOL : Nat := 0x02
/-- Mode flag `SPI_LSB_FIRST` of `linux/spi/spi.h`. -/
abbrev SPI_LSB_FIRST : Nat := 0x08
/-- Mode flag `SPI_LOOP` of `linux/spi/spi.h`. -/
abbrev SPI_LOOP : Nat := 0x20

/-- Chip-select request `BITBANG_CS_INACTIVE` of `linux/spi/spi_bitbang.h`. -/
abbrev BITBANG_CS_INACTIVE : Int := 0
/-- Chip-select request `BITBANG_CS_ACTIVE` of `linux/spi/spi_bitbang.h`. -/
abbrev BITBANG_CS_ACTIVE : Int := 1

/-- Error number `EIO` of `errno.h`. -/
abbrev EIO : Int := 5
/-- Error number `EINVAL` of `errno.h`. -/
abbrev EINVAL : Int := 22

/-! ## Machine integers -/

/-- Truncation of a natural to a `u32`. -/
def u32 (x : Nat) : Nat := x % 4294967296

/-- Bitwise complement of a `u32` (the C operator `~` at 32 bits). -/
def not32 (x : Nat) : Nat := 4294967295 ^^^ u32 x

/-- Two's-complement wrap of an integer into the range of a C `int`: the value
of `int` arithmetic in kernel code, which is compiled with wrapping signed
overflow. -/
def wrap32 (x : Int) : Int := (x + 2147483648) % 4294967296 - 2147483648

/-- Conversion of an `int` to `u32` (reduction modulo `2^32`). -/
def int_to_u32 (x : Int) : Nat := (x % 4294967296).toNat

/-- The kernel helper `BIT(n)`, i.e. `1UL << n`. -/
def BIT (n : Nat) : Nat := 1 <<< n

/-! ## Driver state and register access -/

/-- One register access of the driver: offset and the 32-bit value moved. -/
inductive Access where
  | rd (off val : Nat)
  | wr (off val : Nat)
deriving DecidableEq

/-- The driver's `struct axil32v_spi`.  `regs` is the state of the device
behind the register window, `trace` the accesses made so far (most recent
first), `txmem` / `rxmem` the caller's buffers that `tx_ptr` / `rx_ptr` walk
(`none` is the NULL pointer, `some i` points at byte `i` of the buffer). -/
structure axil32v_spi (σ : Type) where
  regs : σ
  trace : List Access
  txmem : List Nat
  rxmem : List Nat
  rx_ptr : Option Nat
  tx_ptr : Option Nat
  bytes_per_word : Nat
  sclk_prescale : Int
  buffer_size : Int
  cs_inactive : Nat
  read_fn : Nat → σ → Nat × σ
  write_fn : Nat → Nat → σ → σ

variable {σ : Type}

/-- The call `a32v_spi->read_fn(a32v_spi->regs + off)`: a `u32` comes back. -/
def reg_read (s : axil32v_spi σ) (off : Nat) : Nat × axil32v_spi σ :=
  let r := s.read_fn off s.regs
  (u32 r.1, { s with regs := r.2, trace := Access.rd off (u32 r.1) :: s.trace })

/-- The call `a32v_spi->write_fn(val, a32v_spi->regs + off)`. -/
def reg_write (s : axil32v_spi σ) (val off : Nat) : axil32v_spi σ :=
  { s with regs := s.write_fn (u32 val) off s.regs,
           trace := Access.wr off (u32 val) :: s.trace }

/-! ## Buffer access (little-endian CPU) -/

/-- Load of an `n`-byte little-endian integer at byte `off` of `mem`
(`*(u8 *)p`, `*(u16 *)p`, `*(u32 *)p` for `n = 1, 2, 4`). -/
def load_le : Nat → List Nat → Nat → Nat
  | 0, _, _ => 0
  | n + 1, mem, off => (mem.getD off 0) % 256 + 256 * load_le n mem (off + 1)

/-- Store of the low `n` bytes of `data`, little-endian, at byte `off` of `mem`. -/
def store_le : Nat → Nat → List Nat → Nat → List Nat
  | 0, _, mem, _ => mem
  | n + 1, data, mem, off => store_le n (data / 256) (mem.set off (data % 256)) (off + 1)

/-! ## The driver functions -/

/-- `a32v_spi_tx`: move one word from the transmit buffer to the device. -/
def a32v_spi_tx (s : axil32v_spi σ) : axil32v_spi σ :=
  match s.tx_ptr with
  | none => reg_write s 0 A32V_SPI_TXD_OFFSET
  | some p =>
    let data : Nat :=
      if s.bytes_per_word = 1 then load_le 1 s.txmem p
      else if s.bytes_per_word = 2 then load_le 2 s.txmem p
      else if s.bytes_per_word = 4 then load_le 4 s.txmem p
      else 0
    let s1 := reg_write s data A32V_SPI_TXD_OFFSET
    { s1 with tx_ptr := some (p + s1.bytes_per_word) }

/-- `a32v_spi_rx`: move one word from the device to the receive buffer. -/
def a32v_spi_rx (s : axil32v_spi σ) : axil32v_spi σ :=
  let r := reg_read s A32V_SPI_RXD_OFFSET
  let data := r.1
  let s1 := r.2
  match s1.rx_ptr with
  | none => s1
  | some p =>
    let mem :=
      if s1.bytes_per_word = 1 then store_le 1 data s1.rxmem p
      else if s1.bytes_per_word = 2 then store_le 2 data s1.rxmem p
      else if s1.bytes_per_word = 4 then store_le 4 data s1.rxmem p
      else s1.rxmem
    { s1 with rxmem := mem, rx_ptr := some (p + s1.bytes_per_word) }

/-- `a32v_spi_init_hw`: reset, deselect, write the initial control register. -/
def a32v_spi_init_hw (s : axil32v_spi σ) : axil32v_spi σ :=
  let s1 := reg_write s A32V_SPI_RESET_VECTOR A32V_SPI_RESETR_OFFSET
  let s2 := reg_write s1 0xffff A32V_SPI_SSR_OFFSET
  let cr : Nat := 0
  let cr := cr ||| int_to_u32 (wrap32 (s2.sclk_prescale * 2 ^ A32V_SPI_CTR_CLKPRSCL_OFFSET))
  let cr := cr ||| (s2.bytes_per_word <<< (A32V_SPI_CTR_WORD_WIDTH_OFFSET + 3))
  let cr := cr ||| A32V_SPI_CTR_MANUAL_SSELECT
  let cr := cr ||| A32V_SPI_CTR_ENABLE
  reg_write s2 cr A32V_SPI_CTR_OFFSET

/-- `a32v_spi_chipselect`, for a device with mode flags `mode` on chip-select
line `chip_select`. -/
def a32v_spi_chipselect (s : axil32v_spi σ) (mode chip_select : Nat) (is_on : Int) :
    axil32v_spi σ :=
  if is_on = BITBANG_CS_INACTIVE then
    reg_write s s.cs_inactive A32V_SPI_SSR_OFFSET
  else
    let r := reg_read s A32V_SPI_CTR_OFFSET
    let s1 := r.2
    let control_reg := r.1 &&& not32 A32V_SPI_CTR_MODE_MASK
    let control_reg :=
      if mode &&& SPI_CPHA ≠ 0 then control_reg ||| A32V_SPI_CTR_CPHA else control_reg
    let control_reg :=
      if mode &&& SPI_CPOL ≠ 0 then control_reg ||| A32V_SPI_CTR_CPOL else control_reg
    let control_reg :=
      if mode &&& SPI_LSB_FIRST ≠ 0 then control_reg ||| SPI_LSB_FIRST else control_reg
    let control_reg :=
      if mode &&& SPI_LOOP ≠ 0 then control_reg ||| A32V_SPI_CTR_LOOP else control_reg
    let s2 := reg_write s1 control_reg A32V_SPI_CTR_OFFSET
    let cs := s2.cs_inactive
    let cs := u32 (cs ^^^ BIT chip_select)
    reg_write s2 cs A32V_SPI_SSR_OFFSET

/-- `a32v_spi_bytes_per_word`. -/
def a32v_spi_bytes_per_word (bits_per_word : Int) : Int :=
  if bits_per_word ≤ 8 then 1
  else if bits_per_word ≤ 16 then 2
  else 4

/-- The fields of `struct spi_transfer` the driver reads: the two buffers
(`none` for a NULL buffer), the length in bytes and the word size. -/
structure spi_transfer where
  tx_buf : Option (List Nat)
  rx_buf : Option (List Nat)
  len : Nat
  bits_per_word : Nat

/-- `a32v_spi_setup_transfer`; `t = none` is the NULL transfer.  The result is
the return value and the new state. -/
def a32v_spi_setup_transfer (s : axil32v_spi σ) (t : Option spi_transfer) :
    Int × axil32v_spi σ :=
  match t with
  | none => (0, s)
  | some t =>
    let s1 := { s with bytes_per_word := (a32v_spi_bytes_per_word t.bits_per_word).toNat % 256 }
    let r := reg_read s1 A32V_SPI_CTR_OFFSET
    let control_reg := r.1 &&& not32 A32V_SPI_CTR_WORD_WIDTH_MASK
    let control_reg := control_reg ||| (t.bits_per_word <<< A32V_SPI_CTR_WORD_WIDTH_OFFSET)
    (0, reg_write r.2 control_reg A32V_SPI_CTR_OFFSET)

/-- Outcome of running a function that contains loops under a step budget:
it returned, it was still looping when the budget ran out, or it executed a
division by zero. -/
inductive Exec (α : Type) where
  | ret (a : α)
  | fuel
  | trap

/-- The fill loop `while (tx_words--) a32v_spi_tx(a32v_spi);`. -/
def tx_loop : Nat → Int → axil32v_spi σ → Exec (axil32v_spi σ)
  | 0, _, _ => Exec.fuel
  | fuel + 1, tx_words, s =>
    if tx_words ≠ 0 then tx_loop fuel (wrap32 (tx_words - 1)) (a32v_spi_tx s)
    else Exec.ret s

/-- The drain loop `while (rx_words) { ... }` of `a32v_spi_txrx_bufs`.  The
result carries `some e` when the function returned `e` from inside the loop
(the stall exit) and `none` when the loop ran to its end. -/
def drain_loop (n_words : Int) :
    Nat → Int → Int → Nat → axil32v_spi σ → Exec (Option Int × axil32v_spi σ)
  | 0, _, _, _, _ => Exec.fuel
  | fuel + 1, rx_words, stalled, sr, s =>
    if rx_words = 0 then Exec.ret (none, s)
    else
      -- `stalled--` is evaluated only when `rx_words == n_words` holds
      let stalled1 := if rx_words = n_words then wrap32 (stalled - 1) else stalled
      if rx_words = n_words ∧ stalled = 0 ∧
          sr &&& A32V_SPI_SR_TX_EMPTY_MASK = 0 ∧ sr &&& A32V_SPI_SR_RX_EMPTY_MASK ≠ 0 then
        Exec.ret (some (- EIO), a32v_spi_init_hw s)
      else if sr &&& A32V_SPI_SR_TX_EMPTY_MASK ≠ 0 ∧ rx_words > 1 then
        drain_loop n_words fuel (wrap32 (rx_words - 1)) stalled1 sr (a32v_spi_rx s)
      else
        let r := reg_read s A32V_SPI_SR_OFFSET
        if r.1 &&& A32V_SPI_SR_RX_EMPTY_MASK = 0 then
          drain_loop n_words fuel (wrap32 (rx_words - 1)) stalled1 r.1 (a32v_spi_rx r.2)
        else
          drain_loop n_words fuel rx_words stalled1 r.1 r.2

/-- The outer loop `while (remaining_words) { ... }` of `a32v_spi_txrx_bufs`
followed by `return t->len`.  `budget` is the step budget given to each inner
loop. -/
def batch_loop (len budget : Nat) :
    Nat → Int → axil32v_spi σ → Exec (Int × axil32v_spi σ)
  | 0, _, _ => Exec.fuel
  | fuel + 1, remaining_words, s =>
    if remaining_words = 0 then Exec.ret (wrap32 (u32 len), s)
    else
      let n_words := min remaining_words s.buffer_size
      match tx_loop budget n_words s with
      | Exec.fuel => Exec.fuel
      | Exec.trap => Exec.trap
      | Exec.ret s1 =>
        let r := reg_read s1 A32V_SPI_SR_OFFSET
        match drain_loop n_words budget n_words (wrap32 (10 * r.2.sclk_prescale)) r.1 r.2 with
        | Exec.fuel => Exec.fuel
        | Exec.trap => Exec.trap
        | Exec.ret (some e, s2) => Exec.ret (e, s2)
        | Exec.ret (none, s2) => batch_loop len budget fuel (wrap32 (remaining_words - n_words)) s2

/-- `a32v_spi_txrx_bufs`: the duplex pump.  The result is the return value and
the final state. -/
def a32v_spi_txrx_bufs (fuel : Nat) (s : axil32v_spi σ) (t : spi_transfer) :
    Exec (Int × axil32v_spi σ) :=
  let s1 := { s with tx_ptr := t.tx_buf.map (fun _ => 0), txmem := t.tx_buf.getD [],
                     rx_ptr := t.rx_buf.map (fun _ => 0), rxmem := t.rx_buf.getD [] }
  if s1.bytes_per_word = 0 then Exec.trap
  else
    let remaining_words : Int := wrap32 ((u32 t.len / s1.bytes_per_word : Nat) : Int)
    batch_loop t.len fuel fuel remaining_words s1

/-- The loop `do { ... } while (!(sr & A32V_SPI_SR_TX_FULL_MASK));` of
`a32v_spi_find_buffer_size` followed by `return n_words`. -/
def find_loop : Nat → Int → axil32v_spi σ → Exec (Int × axil32v_spi σ)
  | 0, _, _ => Exec.fuel
  | fuel + 1, n_words, s =>
    let s1 := reg_write s 0 A32V_SPI_TXD_OFFSET
    let r := reg_read s1 A32V_SPI_SR_OFFSET
    let sr := (r.1 &&& 0xff) % 256
    let n_words := wrap32 (n_words + 1)
    if sr &&& A32V_SPI_SR_TX_FULL_MASK = 0 then find_loop fuel n_words r.2
    else Exec.ret (n_words, r.2)

/-- `a32v_spi_find_buffer_size`. -/
def a32v_spi_find_buffer_size (fuel : Nat) (s : axil32v_spi σ) : Exec (Int × axil32v_spi σ) :=
  find_loop fuel 0 (reg_write s A32V_SPI_RESET_VECTOR A32V_SPI_RESETR_OFFSET)

/-! ## Observations on the access trace -/

/-- Is the access a write to register `off`? -/
def Access.is_wr (off : Nat) : Access → Bool
  | Access.wr o _ => o == off
  | Access.rd _ _ => false

/-- Is the access a read of register `off`? -/
def Access.is_rd (off : Nat) : Access → Bool
  | Access.rd o _ => o == off
  | Access.wr _ _ => false

/-- Number of writes to register `off` in a trace. -/
def count_wr (off : Nat) (tr : List Access) : Nat := tr.countP (Access.is_wr off)

/-- Number of reads of register `off` in a trace. -/
def count_rd (off : Nat) (tr : List Access) : Nat := tr.countP (Access.is_rd off)

/-- The value of the most recent write to register `off` in a trace. -/
def last_wr (off : Nat) : List Access → Option Nat
  | [] => none
  | Access.wr o v :: tr => if o = off then some v else last_wr off tr
  | Access.rd _ _ :: tr => last_wr off tr

/-! ## A simulated loopback controller

Two FIFOs of `depth` words.  A write to the transmit-data register enqueues the
word in the transmit FIFO (dropped when the FIFO is full); every read of the
status register first lets the shift engine move `sched k` words (for the
`k`-th poll) from the transmit FIFO to the receive FIFO, in order, and then
reports the four flags; a read of the receive-data register dequeues. -/

/-- State of the simulated controller. -/
structure loop_dev where
  txq : List Nat
  rxq : List Nat
  ctr : Nat
  ssr : Nat
  polls : Nat

/-- Status flags of the simulated controller. -/
def loop_status (depth : Nat) (d : loop_dev) : Nat :=
  (if d.rxq.length = 0 then A32V_SPI_SR_RX_EMPTY_MASK else 0) +
  (if depth ≤ d.rxq.length then A32V_SPI_SR_RX_FULL_MASK else 0) +
  (if d.txq.length = 0 then A32V_SPI_SR_TX_EMPTY_MASK else 0) +
  (if depth ≤ d.txq.length then A32V_SPI_SR_TX_FULL_MASK else 0)

/-- The shift engine moves `k` words from the transmit FIFO to the receive
FIFO, in order; one more poll is counted. -/
def loop_shift (k : Nat) (d : loop_dev) : loop_dev :=
  { d with txq := d.txq.drop k, rxq := d.rxq ++ d.txq.take k, polls := d.polls + 1 }

/-- Register reads of the simulated controller. -/
def loop_read (depth : Nat) (sched : Nat → Nat) (off : Nat) (d : loop_dev) : Nat × loop_dev :=
  if off = A32V_SPI_SR_OFFSET then
    let d1 := loop_shift (sched d.polls) d
    (loop_status depth d1, d1)
  else if off = A32V_SPI_RXD_OFFSET then (d.rxq.headD 0, { d with rxq := d.rxq.tail })
  else if off = A32V_SPI_CTR_OFFSET then (d.ctr, d)
  else if off = A32V_SPI_SSR_OFFSET then (d.ssr, d)
  else if off = A32V_SPI_ID_OFFSET then (A32V_SPI_ID, d)
  else if off = A32V_SPI_REV_OFFSET then (A32V_SPI_REV, d)
  else (0, d)

/-- Register writes of the simulated controller. -/
def loop_write (depth : Nat) (val off : Nat) (d : loop_dev) : loop_dev :=
  if off = A32V_SPI_TXD_OFFSET then
    if d.txq.length < depth then { d with txq := d.txq ++ [val] } else d
  else if off = A32V_SPI_RESETR_OFFSET then
    if val = A32V_SPI_RESET_VECTOR then { d with txq := [], rxq := [] } else d
  else if off = A32V_SPI_CTR_OFFSET then { d with ctr := val }
  else if off = A32V_SPI_SSR_OFFSET then { d with ssr := val }
  else d

/-- A driver instance attached to a freshly reset simulated controller, as
left by the attach sequence: `cs_inactive = 0xffffffff`, no transfer set up. -/
def loop_attach (depth : Nat) (sched : Nat → Nat) (sclk_prescale : Int) : axil32v_spi loop_dev :=
  { regs := { txq := [], rxq := [], ctr := 0, ssr := 0, polls := 0 },
    trace := [], txmem := [], rxmem := [], rx_ptr := none, tx_ptr := none,
    bytes_per_word := 0, sclk_prescale := sclk_prescale, buffer_size := depth,
    cs_inactive := 0xffffffff,
    read_fn := loop_read depth sched, write_fn := loop_write depth }

/-- Projection of an outcome to its return value. -/
def Exec.value {α β : Type} : Exec (α × β) → Option α
  | Exec.ret a => some a.1
  | _ => none

/-- Projection of an outcome to the receive buffer of the final state. -/
def Exec.rxmem : Exec (Int × axil32v_spi σ) → Option (List Nat)
  | Exec.ret a => some a.2.rxmem
  | _ => none

/-- Projection of an outcome to the access trace of the final state, oldest access first. -/
def Exec.accesses : Exec (Int × axil32v_spi σ) → Option (List Access)
  | Exec.ret a => some a.2.trace.reverse
  | _ => none


/-! ## Pure helpers naming the values the driver writes -/

/-- The control value computed by the read-modify-write of `a32v_spi_chipselect`. -/
def chipselect_ctr (prior mode : Nat) : Nat :=
  let control_reg := prior &&& not32 A32V_SPI_CTR_MODE_MASK
  let control_reg :=
    if mode &&& SPI_CPHA ≠ 0 then control_reg ||| A32V_SPI_CTR_CPHA else control_reg
  let control_reg :=
    if mode &&& SPI_CPOL ≠ 0 then control_reg ||| A32V_SPI_CTR_CPOL else control_reg
  let control_reg :=
    if mode &&& SPI_LSB_FIRST ≠ 0 then control_reg ||| SPI_LSB_FIRST else control_reg
  let control_reg :=
    if mode &&& SPI_LOOP ≠ 0 then control_reg ||| A32V_SPI_CTR_LOOP else control_reg
  u32 control_reg

/-- The control value computed by the read-modify-write of `a32v_spi_setup_transfer`. -/
def setup_ctr (prior bits_per_word : Nat) : Nat :=
  u32 ((prior &&& not32 A32V_SPI_CTR_WORD_WIDTH_MASK) |||
    (bits_per_word <<< A32V_SPI_CTR_WORD_WIDTH_OFFSET))

/-- The control value computed by `a32v_spi_init_hw`. -/
def init_ctr (sclk_prescale : Int) (bytes_per_word : Nat) : Nat :=
  u32 (0 ||| int_to_u32 (wrap32 (sclk_prescale * 2 ^ A32V_SPI_CTR_CLKPRSCL_OFFSET)) |||
    (bytes_per_word <<< (A32V_SPI_CTR_WORD_WIDTH_OFFSET + 3)) |||
    A32V_SPI_CTR_MANUAL_SSELECT ||| A32V_SPI_CTR_ENABLE)


/-- The accesses of the probe loop: zero words to the transmit-data register
and reads of the status register. -/
def probe_access (a : Access) : Prop :=
  a = Access.wr A32V_SPI_TXD_OFFSET 0 ∨ ∃ v, a = Access.rd A32V_SPI_SR_OFFSET v

/-- The fields of the driver state that the pump never changes agree in two
states: the access functions, the packing width, the prescale, the FIFO depth
and the inactive chip-select mask. -/
def same_cfg (s s1 : axil32v_spi σ) : Prop :=
  s1.read_fn = s.read_fn ∧ s1.write_fn = s.write_fn ∧
  s1.bytes_per_word = s.bytes_per_word ∧ s1.sclk_prescale = s.sclk_prescale ∧
  s1.buffer_size = s.buffer_size ∧ s1.cs_inactive = s.cs_inactive

/-- The driver state after the two pointer assignments at the head of
`a32v_spi_txrx_bufs`. -/
def txrx_entry (s : axil32v_spi σ) (t : spi_transfer) : axil32v_spi σ :=
  { s with tx_ptr := t.tx_buf.map (fun _ => 0), txmem := t.tx_buf.getD [],
           rx_ptr := t.rx_buf.map (fun _ => 0), rxmem := t.rx_buf.getD [] }

/-- The final state of a run that returned (`dflt` otherwise). -/
def Exec.state (e : Exec (Int × axil32v_spi σ)) (dflt : axil32v_spi σ) : axil32v_spi σ :=
  match e with
  | Exec.ret a => a.2
  | _ => dflt

/-! ## Two simulated controllers that never deliver a receive word -/

/-- Register reads of a controller that has shifted out everything it was given
and received nothing: the status register always reads TX empty and RX empty. -/
def mute_read (off : Nat) (r : Unit) : Nat × Unit :=
  (if off = A32V_SPI_SR_OFFSET then
      A32V_SPI_SR_TX_EMPTY_MASK ||| A32V_SPI_SR_RX_EMPTY_MASK
    else 0, r)

/-- Register reads of a controller whose shift engine is wedged: the status
register always reads TX not empty and RX empty. -/
def wedged_read (off : Nat) (r : Unit) : Nat × Unit :=
  (if off = A32V_SPI_SR_OFFSET then A32V_SPI_SR_RX_EMPTY_MASK else 0, r)

/-- Register writes of the two controllers above: accepted and forgotten. -/
def sink_write (_val _off : Nat) (r : Unit) : Unit := r

/-- A driver instance attached to a controller given by its read function,
with FIFO depth 4, configured for one byte per word. -/
def unit_attach (read_fn : Nat → Unit → Nat × Unit) (sclk_prescale : Int) : axil32v_spi Unit :=
  { regs := (), trace := [], txmem := [], rxmem := [], rx_ptr := none, tx_ptr := none,
    bytes_per_word := 1, sclk_prescale := sclk_prescale, buffer_size := 4,
    cs_inactive := 0xffffffff, read_fn := read_fn, write_fn := sink_write }

/-! ## Bookkeeping for the loopback round trip -/

/-- The `n` words of `w` bytes that `a32v_spi_tx` loads from `X` starting at
byte `off`. -/
def words_of (w : Nat) (X : List Nat) : Nat → Nat → List Nat
  | _, 0 => []
  | off, n + 1 => load_le w X off :: words_of w X (off + w) n

/-- The receive buffer after `a32v_spi_rx` has stored the words `P`, `w` bytes
each, starting at byte `off`. -/
def store_all (w : Nat) : List Nat → List Nat → Nat → List Nat
  | [], mem, _ => mem
  | x :: P, mem, off => store_all w P (store_le w x mem off) (off + w)

/-- The driver is attached to the simulated loopback controller and is in the
middle of a transfer: packing width `w`, transmit buffer `X`, cursors at bytes
`txoff` and `rxoff`, receive buffer `mem`, FIFO contents `rxq` and `txq`. -/
def loop_state (depth : Nat) (sched : Nat → Nat) (s : axil32v_spi loop_dev) (w : Nat)
    (X : List Nat) (txoff rxoff : Nat) (mem rxq txq : List Nat) : Prop :=
  s.read_fn = loop_read depth sched ∧ s.write_fn = loop_write depth ∧
  s.buffer_size = (depth : Int) ∧ s.bytes_per_word = w ∧ s.txmem = X ∧
  s.tx_ptr = some txoff ∧ s.rx_ptr = some rxoff ∧ s.rxmem = mem ∧
  s.regs.rxq = rxq ∧ s.regs.txq = txq

/-! ## Concrete inputs used to exercise the theorems -/

/-- The transfer of the end-to-end scenario: four bytes, 8 bits per word. -/
def xfer8 : spi_transfer :=
  { tx_buf := some [0x01, 0x02, 0x03, 0x04], rx_buf := some [0, 0, 0, 0], len := 4,
    bits_per_word := 8 }

/-- A transfer of two 12-bit words, packed in two bytes each. -/
def xfer12 : spi_transfer :=
  { tx_buf := some [0x34, 0x02, 0xcd, 0x0a], rx_buf := some [0, 0, 0, 0], len := 4,
    bits_per_word := 12 }

/-- The loopback controller of depth 2 (one word shifted per status poll,
prescale 4) after `a32v_spi_setup_transfer` for the end-to-end transfer. -/
def loop_ready8 : axil32v_spi loop_dev :=
  (a32v_spi_setup_transfer (loop_attach 2 (fun _ => 1) 4) (some xfer8)).2

/-! ## Attach: byte order, identity, configuration

`ioread32` / `iowrite32` are the kernel's native-order accessors of the mapped
register window; they are parameters of the model.  The big-endian accessors
`ioread32be` / `iowrite32be` move the same 32 bits with the bytes reversed. -/

/-- Error number `ENODEV` of `errno.h`. -/
abbrev ENODEV : Int := 19

/-- Byte reversal of a `u32`. -/
def swab32 (x : Nat) : Nat :=
  (x % 256) * 16777216 + (x / 256 % 256) * 65536 + (x / 65536 % 256) * 256 +
    (x / 16777216 % 256)

/-- `a32v_spi_write32`: `iowrite32(val, addr)`. -/
def a32v_spi_write32 (iowrite32 : Nat → Nat → σ → σ) (val off : Nat) (r : σ) : σ :=
  iowrite32 val off r

/-- `a32v_spi_read32`: `ioread32(addr)`. -/
def a32v_spi_read32 (ioread32 : Nat → σ → Nat × σ) (off : Nat) (r : σ) : Nat × σ :=
  ioread32 off r

/-- `a32v_spi_write32_be`: `iowrite32be(val, addr)`. -/
def a32v_spi_write32_be (iowrite32 : Nat → Nat → σ → σ) (val off : Nat) (r : σ) : σ :=
  iowrite32 (swab32 (u32 val)) off r

/-- `a32v_spi_read32_be`: `ioread32be(addr)`. -/
def a32v_spi_read32_be (ioread32 : Nat → σ → Nat × σ) (off : Nat) (r : σ) : Nat × σ :=
  ((swab32 (u32 (ioread32 off r).1)), (ioread32 off r).2)

/-- `a32v_spi_verify_idrev`: the result is the return value and the new state.
The revision comparison only selects a log message. -/
def a32v_spi_verify_idrev (s : axil32v_spi σ) : Int × axil32v_spi σ :=
  let r := reg_read s A32V_SPI_ID_OFFSET
  let idr := r.1
  if idr ≠ A32V_SPI_ID then (1, r.2)
  else
    let r2 := reg_read r.2 A32V_SPI_REV_OFFSET
    (0, r2.2)

/-- The configuration check of `a32v_spi_probe` on the two `int` variables
`sclk_prescale` and `num_cs`, as filled from the platform data or the device
tree: `some e` when the probe returns `e`, `none` when it goes on.  C's `%`
truncates towards zero. -/
def probe_check (sclk_prescale num_cs : Int) : Option Int :=
  if sclk_prescale = 0 then some (- EINVAL)
  else if Int.tmod sclk_prescale 4 ≠ 0 then some (- EINVAL)
  else if num_cs = 0 then some (- EINVAL)
  else if num_cs > AXIL32_VERILOG_SPI_MAX_CS then some (- EINVAL)
  else none

/-- The endianness detection of `a32v_spi_probe`: select the native accessors,
write the loopback bit to the control register, read it back, and switch to the
big-endian accessors when the bit does not come back.  The Boolean is the
decision (`true`: big endian), in the source the choice of log message. -/
def probe_endianness (ioread32 : Nat → σ → Nat × σ) (iowrite32 : Nat → Nat → σ → σ)
    (s : axil32v_spi σ) : Bool × axil32v_spi σ :=
  let s0 := { s with read_fn := a32v_spi_read32 ioread32,
                     write_fn := a32v_spi_write32 iowrite32 }
  let s1 := reg_write s0 A32V_SPI_CTR_LOOP A32V_SPI_CTR_OFFSET
  let r := reg_read s1 A32V_SPI_CTR_OFFSET
  let tmp := r.1 &&& A32V_SPI_CTR_LOOP
  if tmp ≠ A32V_SPI_CTR_LOOP then
    (true, { r.2 with read_fn := a32v_spi_read32_be ioread32,
                      write_fn := a32v_spi_write32_be iowrite32 })
  else (false, r.2)

/-- What the platform layer hands to `a32v_spi_probe`: the two configuration
values as they reach the check, the outcome of the kernel calls the probe makes
(`devm_clk_get`, `spi_alloc_master`, `devm_ioremap_resource`,
`spi_bitbang_start`), and the mapped register window. -/
structure platform (σ : Type) where
  num_cs : Int
  sclk_prescale : Int
  clk_err : Option Int
  master_ok : Bool
  map_err : Option Int
  start_ret : Int
  regs : σ
  ioread32 : Nat → σ → Nat × σ
  iowrite32 : Nat → Nat → σ → σ

/-- The controller instance before `a32v_spi_probe` has filled it in (zeroed
memory); no access is made before the accessors are assigned. -/
def probe_blank (pd : platform σ) : axil32v_spi σ :=
  { regs := pd.regs, trace := [], txmem := [], rxmem := [], rx_ptr := none, tx_ptr := none,
    bytes_per_word := 0, sclk_prescale := 0, buffer_size := 0, cs_inactive := 0,
    read_fn := a32v_spi_read32 pd.ioread32, write_fn := a32v_spi_write32 pd.iowrite32 }

/-- `a32v_spi_probe`: the result is the return value and the controller
instance as far as it was set up (it holds the device state and the accesses
made). -/
def a32v_spi_probe (fuel : Nat) (pd : platform σ) : Exec (Int × axil32v_spi σ) :=
  let s0 := probe_blank pd
  match probe_check pd.sclk_prescale pd.num_cs with
  | some e => Exec.ret (e, s0)
  | none =>
    match pd.clk_err with
    | some e => Exec.ret (e, s0)
    | none =>
      if pd.master_ok = false then Exec.ret (- ENODEV, s0)
      else
        let s1 := { s0 with cs_inactive := 0xffffffff, sclk_prescale := pd.sclk_prescale }
        match pd.map_err with
        | some e => Exec.ret (e, s1)
        | none =>
          let s2 := (probe_endianness pd.ioread32 pd.iowrite32 s1).2
          match a32v_spi_find_buffer_size fuel s2 with
          | Exec.fuel => Exec.fuel
          | Exec.trap => Exec.trap
          | Exec.ret (n, s3) =>
            let s4 := { s3 with buffer_size := n }
            let v := a32v_spi_verify_idrev s4
            if v.1 ≠ 0 then Exec.ret (v.1, v.2)
            else
              let s5 := a32v_spi_init_hw v.2
              if pd.start_ret ≠ 0 then Exec.ret (pd.start_ret, s5)
              else Exec.ret (0, s5)

/-- A platform with the simulated loopback controller (transmit FIFO not
draining) behind the register window and every kernel call succeeding. -/
def loop_platform (depth : Nat) (sclk_prescale num_cs : Int) : platform loop_dev :=
  { num_cs := num_cs, sclk_prescale := sclk_prescale, clk_err := none, master_ok := true,
    map_err := none, start_ret := 0,
    regs := { txq := [], rxq := [], ctr := 0, ssr := 0, polls := 0 },
    ioread32 := loop_read depth (fun _ => 0), iowrite32 := loop_write depth }

/-- A deterministic device whose control register reads back the parity of the
number of writes made to it. -/
def parity_read (off : Nat) (r : Nat) : Nat × Nat :=
  (if off = A32V_SPI_CTR_OFFSET then r % 2 else 0, r)

/-- Register writes of the parity device: a write to the control register is
counted. -/
def parity_write (_val off : Nat) (r : Nat) : Nat :=
  if off = A32V_SPI_CTR_OFFSET then r + 1 else r

/-- A driver instance on the parity device. -/
def parity_attach : axil32v_spi Nat :=
  { regs := 0, trace := [], txmem := [], rxmem := [], rx_ptr := none, tx_ptr := none,
    bytes_per_word := 0, sclk_prescale := 4, buffer_size := 0, cs_inactive := 0xffffffff,
    read_fn := a32v_spi_read32 parity_read, write_fn := a32v_spi_write32 parity_write }

/-- A transfer of three words with neither a transmit nor a receive buffer. -/
def xfer_null : spi_transfer :=
  { tx_buf := none, rx_buf := none, len := 3, bits_per_word := 8 }

/-! ## Shapes of access traces (most recent access first) -/

/-- A write to the transmit-data register. -/
def is_fill_access (a : Access) : Prop := ∃ v, a = Access.wr A32V_SPI_TXD_OFFSET v

/-- A read of the status register or of the receive-data register. -/
def is_drain_access (a : Access) : Prop :=
  (∃ v, a = Access.rd A32V_SPI_SR_OFFSET v) ∨ (∃ v, a = Access.rd A32V_SPI_RXD_OFFSET v)

/-- A read of the status register that reported RX empty. -/
def is_poll_empty (a : Access) : Prop :=
  ∃ v, a = Access.rd A32V_SPI_SR_OFFSET v ∧ v &&& A32V_SPI_SR_RX_EMPTY_MASK ≠ 0

/-- The status value held in `sr` after the polls of a trace: the value of the
most recent one, or the initial value when there was none. -/
def last_status (sr : Nat) : List Access → Nat
  | Access.rd _ v :: _ => v
  | _ => sr

/-- The three register writes of `a32v_spi_init_hw`. -/
def init_writes (sclk_prescale : Int) (bytes_per_word : Nat) : List Access :=
  [Access.wr A32V_SPI_CTR_OFFSET (init_ctr sclk_prescale bytes_per_word),
   Access.wr A32V_SPI_SSR_OFFSET 0xffff,
   Access.wr A32V_SPI_RESETR_OFFSET A32V_SPI_RESET_VECTOR]

/-! ## FIFO occupancy seen from the access trace -/

/-- The words written to the transmit-data register and not yet matched by a
read of the receive-data register number between 0 and `B`. -/
def occupancy_ok (B : Nat) (tr : List Access) : Prop :=
  count_rd A32V_SPI_RXD_OFFSET tr ≤ count_wr A32V_SPI_TXD_OFFSET tr ∧
  count_wr A32V_SPI_TXD_OFFSET tr ≤ count_rd A32V_SPI_RXD_OFFSET tr + B

/-- The occupancy bound holds at every point of a trace: the accesses made up
to any point form a suffix of the trace (most recent access first). -/
def balanced (B : Nat) (tr : List Access) : Prop :=
  ∀ suf, List.IsSuffix suf tr → occupancy_ok B suf

/-- The accesses of a pump call with `m` words to move on a FIFO of depth `B`,
as a sequence of batches (most recent access first, so the first batch stands
last).  A batch that completes is `min m B` writes to the transmit-data
register, then one status read, then status and receive-data reads of which
exactly `min m B` are receive-data reads.  The call ends when no word remains
(flag `true`), or inside the drain of a batch by the stall exit (flag `false`):
then the batch has retired no word, all its polls reported RX empty, the
countdown started from `10 * p` has come down to 0 (decrements wrap), the
status value in hand reports TX not empty and RX empty, and the three writes of
`a32v_spi_init_hw` follow. -/
inductive pump_shape (B : Nat) (p : Int) (w : Nat) : Nat → List Access → Bool → Prop
  | done : pump_shape B p w 0 [] true
  | batch (m : Nat) (fill drain rest : List Access) (v0 : Nat) (ok : Bool) :
      0 < m →
      (∀ a ∈ fill, is_fill_access a) → fill.length = min m B →
      (∀ a ∈ drain, is_drain_access a) →
      count_rd A32V_SPI_RXD_OFFSET drain = min m B →
      pump_shape B p w (m - min m B) rest ok →
      pump_shape B p w m (rest ++ drain ++ Access.rd A32V_SPI_SR_OFFSET v0 :: fill) ok
  | stall (m : Nat) (fill polls : List Access) (v0 : Nat) :
      0 < m →
      (∀ a ∈ fill, is_fill_access a) → fill.length = min m B →
      (∀ a ∈ polls, is_poll_empty a) →
      wrap32 (wrap32 (10 * p) - (polls.length : Int)) = 0 →
      last_status v0 polls &&& A32V_SPI_SR_TX_EMPTY_MASK = 0 →
      last_status v0 polls &&& A32V_SPI_SR_RX_EMPTY_MASK ≠ 0 →
      pump_shape B p w m
        (init_writes p w ++ polls ++ Access.rd A32V_SPI_SR_OFFSET v0 :: fill) false

/-! ## A simulated controller that starts to hold its transmit word late -/

/-- Register reads of a controller whose status register reads TX empty and RX
empty the first `hold` times it is read, and TX not empty and RX empty every
time after.  The device state counts the status reads made so far. -/
def late_read (hold : Nat) (off : Nat) (r : Nat) : Nat × Nat :=
  if off = A32V_SPI_SR_OFFSET then
    (if r < hold then A32V_SPI_SR_TX_EMPTY_MASK ||| A32V_SPI_SR_RX_EMPTY_MASK
      else A32V_SPI_SR_RX_EMPTY_MASK, r + 1)
  else (0, r)

/-- Register writes of the controller above: accepted and forgotten. -/
def late_write (_val _off : Nat) (r : Nat) : Nat := r

/-- A driver instance attached to the controller above, with FIFO depth 4,
configured for one byte per word. -/
def late_attach (hold : Nat) (sclk_prescale : Int) : axil32v_spi Nat :=
  { regs := 0, trace := [], txmem := [], rxmem := [], rx_ptr := none, tx_ptr := none,
    bytes_per_word := 1, sclk_prescale := sclk_prescale, buffer_size := 4,
    cs_inactive := 0xffffffff, read_fn := late_read hold, write_fn := late_write }

/-- A transfer of one 8-bit word. -/
def xfer1 : spi_transfer :=
  { tx_buf := some [0xa5], rx_buf := some [0], len := 1, bits_per_word := 8 }

/-! ## Comparing runs on two transmit buffers -/

/-- The driver state with the bytes behind the transmit pointer replaced. -/
def with_txmem (M : List Nat) (x : axil32v_spi σ) : axil32v_spi σ :=
  { x with txmem := M }

/-- The transfer with the bytes of its transmit buffer replaced. -/
def with_tx_buf (M : List Nat) (t : spi_transfer) : spi_transfer :=
  { t with tx_buf := some M }

/-- Image of an outcome under a function of the returned value. -/
def Exec.map {α β : Type} (f : α → β) : Exec α → Exec β
  | Exec.ret a => Exec.ret (f a)
  | Exec.fuel => Exec.fuel
  | Exec.trap => Exec.trap

/-- A transfer of two 12-bit words followed by one odd byte: five bytes. -/
def xfer_odd : spi_transfer :=
  { tx_buf := some [0x34, 0x02, 0xcd, 0x0a, 0x77], rx_buf := some [0xe1, 0xe2, 0xe3, 0xe4, 0xe5],
    len := 5, bits_per_word := 12 }

/-- The loopback controller of depth 2 (one word shifted per status poll,
prescale 4) after `a32v_spi_setup_transfer` for the five-byte transfer. -/
def loop_ready12 : axil32v_spi loop_dev :=
  (a32v_spi_setup_transfer (loop_attach 2 (fun _ => 1) 4) (some xfer_odd)).2

/-- The buffer cursors follow the register accesses: since the trace stood at
`base`, the transmit cursor (initially `tx0`) has advanced by `w` bytes per
write to the transmit-data register and the receive cursor (initially `rx0`) by
`w` bytes per read of the receive-data register, and the receive buffer,
initially `Y`, has kept its length and its bytes from the receive cursor on. -/
def cursors_follow (base : List Access) (w : Nat) (Y : List Nat) (tx0 rx0 : Option Nat)
    (x : axil32v_spi σ) : Prop :=
  x.bytes_per_word = w ∧ ∃ tr, x.trace = tr ++ base ∧
    x.tx_ptr = tx0.map (fun p => p + count_wr A32V_SPI_TXD_OFFSET tr * w) ∧
    x.rx_ptr = rx0.map (fun p => p + count_rd A32V_SPI_RXD_OFFSET tr * w) ∧
    x.rxmem.length = Y.length ∧
    ∀ i, (∀ p, rx0 = some p → p + count_rd A32V_SPI_RXD_OFFSET tr * w ≤ i) →
      x.rxmem.getD i 0 = Y.getD i 0
/-! ## Bit-level lemmas -/

theorem u32_lt (x : Nat) : u32 x < 4294967296 := Nat.mod_lt _ (by decide)

theorem u32_of_lt {x : Nat} (h : x < 4294967296) : u32 x = x := Nat.mod_eq_of_lt h

theorem u32_u32 (x : Nat) : u32 (u32 x) = u32 x := u32_of_lt (u32_lt x)

theorem testBit_u32 (x j : Nat) : (u32 x).testBit j = (decide (j < 32) && x.testBit j) := by
  unfold u32
  rw [show (4294967296 : Nat) = 2 ^ 32 by norm_num, Nat.testBit_mod_two_pow]

theorem testBit_not32 (x j : Nat) : (not32 x).testBit j = (decide (j < 32) && !x.testBit j) := by
  unfold not32
  rw [Nat.testBit_xor, testBit_u32, show (4294967295 : Nat) = 2 ^ 32 - 1 by norm_num,
    Nat.testBit_two_pow_sub_one]
  cases decide (j < 32) <;> cases x.testBit j <;> rfl

theorem testBit_of_u32_ge {x j : Nat} (hx : x < 4294967296) (hj : 32 ≤ j) : x.testBit j = false := by
  apply Nat.testBit_lt_two_pow
  calc x < 2 ^ 32 := by norm_num; exact hx
    _ ≤ 2 ^ j := Nat.pow_le_pow_right (by norm_num) hj

theorem chipselect_trace (s : axil32v_spi σ) (mode cs : Nat) (is_on : Int)
    (hon : is_on ≠ BITBANG_CS_INACTIVE) :
    (a32v_spi_chipselect s mode cs is_on).trace =
        Access.wr A32V_SPI_SSR_OFFSET (u32 (s.cs_inactive ^^^ BIT cs)) ::
        Access.wr A32V_SPI_CTR_OFFSET
          (chipselect_ctr (u32 (s.read_fn A32V_SPI_CTR_OFFSET s.regs).1) mode) ::
        Access.rd A32V_SPI_CTR_OFFSET (u32 (s.read_fn A32V_SPI_CTR_OFFSET s.regs).1) :: s.trace := by
  unfold a32v_spi_chipselect
  rw [if_neg hon]
  simp [reg_write, reg_read, u32_u32, chipselect_ctr]

theorem testBit_chipselect_ctr (prior mode j : Nat) :
    (chipselect_ctr prior mode).testBit j = (decide (j < 32) &&
        ((prior.testBit j &&
            !(decide (j = 0) || decide (j = 2) || decide (j = 3) || decide (j = 4))) ||
          (decide (j = 2) && decide (mode &&& SPI_CPHA ≠ 0)) ||
          (decide (j = 3) && (decide (mode &&& SPI_CPOL ≠ 0) || decide (mode &&& SPI_LSB_FIRST ≠ 0))) ||
          (decide (j = 0) && decide (mode &&& SPI_LOOP ≠ 0)))) := by
  have h29 : A32V_SPI_CTR_MODE_MASK = 2 ^ 2 ||| 2 ^ 3 ||| 2 ^ 4 ||| 2 ^ 0 := by decide
  have h4 : A32V_SPI_CTR_CPHA = 2 ^ 2 := by decide
  have h8 : A32V_SPI_CTR_CPOL = 2 ^ 3 := by decide
  have h8' : SPI_LSB_FIRST = 2 ^ 3 := by decide
  have h1 : A32V_SPI_CTR_LOOP = 2 ^ 0 := by decide
  unfold chipselect_ctr
  rw [h29, h4, h8, h8', h1]
  have hmode : ∀ P [Decidable P] (x y : Nat), (if P then x ||| y else x).testBit j =
      (x.testBit j || (decide P && y.testBit j)) := by
    intro P _ x y
    by_cases hP : P <;> simp [hP, Nat.testBit_or]
  simp only [hmode, testBit_u32, testBit_not32, Nat.testBit_or, Nat.testBit_and,
    Nat.testBit_two_pow]
  by_cases hj : j < 32
  · by_cases e0 : j = 0
    · subst e0; simp
    by_cases e2 : j = 2
    · subst e2; simp
    by_cases e3 : j = 3
    · subst e3; simp
    by_cases e4 : j = 4
    · subst e4; simp
    have e0' : ¬ 0 = j := fun h => e0 h.symm
    have e2' : ¬ 2 = j := fun h => e2 h.symm
    have e3' : ¬ 3 = j := fun h => e3 h.symm
    have e4' : ¬ 4 = j := fun h => e4 h.symm
    simp [hj, e0, e2, e3, e4, e0', e2', e3', e4']
  · simp [hj]

theorem setup_transfer_trace (s : axil32v_spi σ) (t : spi_transfer) :
    (a32v_spi_setup_transfer s (some t)).2.trace =
      Access.wr A32V_SPI_CTR_OFFSET
        (setup_ctr (u32 (s.read_fn A32V_SPI_CTR_OFFSET s.regs).1) t.bits_per_word) ::
      Access.rd A32V_SPI_CTR_OFFSET (u32 (s.read_fn A32V_SPI_CTR_OFFSET s.regs).1) :: s.trace := by
  simp [a32v_spi_setup_transfer, reg_write, reg_read, setup_ctr]

theorem testBit_setup_ctr (prior b j : Nat) :
    (setup_ctr prior b).testBit j = (decide (j < 32) &&
      ((prior.testBit j && !(decide (8 ≤ j) && decide (j < 16))) ||
        (decide (8 ≤ j) && b.testBit (j - 8)))) := by
  unfold setup_ctr
  rw [show A32V_SPI_CTR_WORD_WIDTH_MASK = (2 ^ 8 - 1) <<< 8 by decide]
  simp only [testBit_u32, testBit_not32, Nat.testBit_or, Nat.testBit_and, Nat.testBit_shiftLeft,
    Nat.testBit_two_pow_sub_one]
  simp only [show A32V_SPI_CTR_WORD_WIDTH_OFFSET = 8 from rfl]
  by_cases h8 : 8 ≤ j <;> by_cases h16 : j < 16 <;> by_cases h32 : j < 32 <;>
    first
    | omega
    | (have h88 : j - 8 < 8 := by omega
       simp [h8, h16, h32, h88])
    | (have h88 : ¬ j - 8 < 8 := by omega
       simp [h8, h16, h32, h88])

theorem init_hw_trace (s : axil32v_spi σ) :
    (a32v_spi_init_hw s).trace =
      Access.wr A32V_SPI_CTR_OFFSET (init_ctr s.sclk_prescale s.bytes_per_word) ::
      Access.wr A32V_SPI_SSR_OFFSET 0xffff ::
      Access.wr A32V_SPI_RESETR_OFFSET A32V_SPI_RESET_VECTOR :: s.trace := by
  simp [a32v_spi_init_hw, reg_write, init_ctr, u32_u32]
  exact ⟨rfl, rfl⟩

theorem int_to_u32_wrap32 (x : Int) : int_to_u32 (wrap32 x) = int_to_u32 x := by
  unfold int_to_u32 wrap32
  congr 1
  omega

theorem testBit_init_ctr (n w j : Nat) (hn : n < 65536) (hw : w = 0 ∨ w = 1 ∨ w = 2 ∨ w = 4) :
    (init_ctr (n : Int) w).testBit j =
      ((decide (16 ≤ j) && n.testBit (j - 16)) || (decide (11 ≤ j) && w.testBit (j - 11)) ||
        decide (j = 5) || decide (j = 1)) := by
  unfold init_ctr
  have h1 : int_to_u32 (wrap32 ((n : Int) * 2 ^ A32V_SPI_CTR_CLKPRSCL_OFFSET)) = n <<< 16 := by
    rw [int_to_u32_wrap32, Nat.shiftLeft_eq]
    unfold int_to_u32
    have : ((n : Int) * 2 ^ A32V_SPI_CTR_CLKPRSCL_OFFSET) = ((n * 65536 : Nat) : Int) := by
      push_cast; norm_num
    rw [this]
    omega
  rw [h1, show A32V_SPI_CTR_MANUAL_SSELECT = 2 ^ 5 by decide,
    show A32V_SPI_CTR_ENABLE = 2 ^ 1 by decide]
  simp only [testBit_u32, Nat.testBit_or, Nat.testBit_shiftLeft, Nat.testBit_two_pow,
    Nat.zero_testBit, Bool.false_or]
  by_cases h32 : j < 32
  · simp [h32, eq_comm]
  · have hn' : n.testBit (j - 16) = false := by
      apply Nat.testBit_lt_two_pow
      calc n < 2 ^ 16 := by norm_num; exact hn
        _ ≤ 2 ^ (j - 16) := Nat.pow_le_pow_right (by norm_num) (by omega)
    have hw' : w.testBit (j - 11) = false := by
      apply Nat.testBit_lt_two_pow
      calc w < 2 ^ 3 := by omega
        _ ≤ 2 ^ (j - 11) := Nat.pow_le_pow_right (by norm_num) (by omega)
    simp [h32, hn', hw']
    omega

/-! ## Chip select, mode and word-width configuration, reset -/

theorem xor_bit_differs (cs i j : Nat) :
    ((cs ^^^ (1 <<< i)).testBit j ≠ cs.testBit j) ↔ j = i := by
  rw [Nat.testBit_xor, Nat.one_shiftLeft, Nat.testBit_two_pow]
  by_cases h : i = j
  · subst h; cases cs.testBit i <;> simp
  · have h' : ¬ j = i := fun e => h e.symm
    cases cs.testBit j <;> simp [h, h']

theorem xor_bit_lt {cs i : Nat} (hcs : cs < 4294967296) (hi : i < 32) :
    cs ^^^ (1 <<< i) < 4294967296 := by
  rw [show (4294967296 : Nat) = 2 ^ 32 by norm_num] at *
  apply Nat.xor_lt_two_pow hcs
  rw [Nat.one_shiftLeft]
  exact Nat.pow_lt_pow_right (by norm_num) hi

/-- C3. Chip-select exclusivity: activating chip-select `i < 32` reads and
rewrites the control register and then writes `cs_inactive XOR (1 << i)` to the
slave-select register, a value that differs from the inactive baseline in bit
`i` and in no other bit; a call with `BITBANG_CS_INACTIVE` performs a single
register access, the write of the inactive baseline to the slave-select
register. -/
theorem chipselect_exclusivity (s : axil32v_spi σ) (mode i : Nat) (is_on : Int)
    (hcs : s.cs_inactive < 4294967296) (hi : i < 32) :
    (is_on ≠ BITBANG_CS_INACTIVE →
      ∃ prior w, (a32v_spi_chipselect s mode i is_on).trace =
        Access.wr A32V_SPI_SSR_OFFSET (s.cs_inactive ^^^ (1 <<< i)) ::
        Access.wr A32V_SPI_CTR_OFFSET w :: Access.rd A32V_SPI_CTR_OFFSET prior :: s.trace) ∧
    (∀ j, ((s.cs_inactive ^^^ (1 <<< i)).testBit j ≠ s.cs_inactive.testBit j) ↔ j = i) ∧
    (a32v_spi_chipselect s mode i BITBANG_CS_INACTIVE).trace =
      Access.wr A32V_SPI_SSR_OFFSET s.cs_inactive :: s.trace := by
  refine ⟨fun hon => ?_, fun j => xor_bit_differs _ i j, ?_⟩
  · refine ⟨u32 (s.read_fn A32V_SPI_CTR_OFFSET s.regs).1,
      chipselect_ctr (u32 (s.read_fn A32V_SPI_CTR_OFFSET s.regs).1) mode, ?_⟩
    rw [chipselect_trace s mode i is_on hon, BIT, u32_of_lt (xor_bit_lt hcs hi)]
  · simp [a32v_spi_chipselect, reg_write, u32_of_lt hcs]

theorem chipselect_exclusivity_witness :
    (loop_attach 2 (fun _ => 1) 4).cs_inactive < 4294967296 ∧ 3 < 32 ∧
    (a32v_spi_chipselect (loop_attach 2 (fun _ => 1) 4) 0 3 BITBANG_CS_INACTIVE).trace =
      [Access.wr A32V_SPI_SSR_OFFSET 0xffffffff] ∧
    ∃ prior w, (a32v_spi_chipselect (loop_attach 2 (fun _ => 1) 4) 0 3 BITBANG_CS_ACTIVE).trace =
      [Access.wr A32V_SPI_SSR_OFFSET 0xfffffff7, Access.wr A32V_SPI_CTR_OFFSET w,
        Access.rd A32V_SPI_CTR_OFFSET prior] :=
  ⟨by decide, by decide,
    (chipselect_exclusivity (loop_attach 2 (fun _ => 1) 4) 0 3 BITBANG_CS_ACTIVE
      (by decide) (by decide)).2.2,
    (chipselect_exclusivity (loop_attach 2 (fun _ => 1) 4) 0 3 BITBANG_CS_ACTIVE
      (by decide) (by decide)).1 (by decide)⟩

theorem shiftRight16_eq_of_testBit {w prior : Nat}
    (h : ∀ j, 16 ≤ j → w.testBit j = prior.testBit j) : w >>> 16 = prior >>> 16 := by
  apply Nat.eq_of_testBit_eq
  intro i
  rw [Nat.testBit_shiftRight, Nat.testBit_shiftRight]
  exact h _ (by omega)

/-- C4. Control-register preservation: the control value written back by
`a32v_spi_chipselect` (activate) agrees with the value it read in every bit
outside the mode field (bits 0, 2, 3, 4), and the value written back by
`a32v_spi_setup_transfer` agrees with the value it read in every bit outside
the word-width field (bits 8-15); in both cases the enable bit (1), the
manual-select bit (5) and the clock-prescale field (bits 16-31) are unchanged. -/
theorem control_register_preservation (s : axil32v_spi σ) (mode cs : Nat) (is_on : Int)
    (t : spi_transfer) (hon : is_on ≠ BITBANG_CS_INACTIVE)
    (hb : 1 ≤ t.bits_per_word ∧ t.bits_per_word ≤ 32) :
    (∃ prior w ssr, prior = (reg_read s A32V_SPI_CTR_OFFSET).1 ∧
      (a32v_spi_chipselect s mode cs is_on).trace =
        Access.wr A32V_SPI_SSR_OFFSET ssr :: Access.wr A32V_SPI_CTR_OFFSET w ::
        Access.rd A32V_SPI_CTR_OFFSET prior :: s.trace ∧
      (∀ j, j ≠ 0 → j ≠ 2 → j ≠ 3 → j ≠ 4 → w.testBit j = prior.testBit j) ∧
      w.testBit 1 = prior.testBit 1 ∧ w.testBit 5 = prior.testBit 5 ∧
      w >>> 16 = prior >>> 16) ∧
    (∃ prior w, prior = (reg_read s A32V_SPI_CTR_OFFSET).1 ∧
      (a32v_spi_setup_transfer s (some t)).2.trace =
        Access.wr A32V_SPI_CTR_OFFSET w :: Access.rd A32V_SPI_CTR_OFFSET prior :: s.trace ∧
      (∀ j, (j < 8 ∨ 15 < j) → w.testBit j = prior.testBit j) ∧
      w.testBit 1 = prior.testBit 1 ∧ w.testBit 5 = prior.testBit 5 ∧
      w >>> 16 = prior >>> 16) := by
  have hprior : (reg_read s A32V_SPI_CTR_OFFSET).1 =
      u32 (s.read_fn A32V_SPI_CTR_OFFSET s.regs).1 := rfl
  have hlt := u32_lt (s.read_fn A32V_SPI_CTR_OFFSET s.regs).1
  have hbit : ∀ j, 32 ≤ j → (u32 (s.read_fn A32V_SPI_CTR_OFFSET s.regs).1).testBit j = false :=
    fun j hj => testBit_of_u32_ge hlt hj
  have hA : ∀ j, j ≠ 0 → j ≠ 2 → j ≠ 3 → j ≠ 4 →
      (chipselect_ctr (u32 (s.read_fn A32V_SPI_CTR_OFFSET s.regs).1) mode).testBit j =
        (u32 (s.read_fn A32V_SPI_CTR_OFFSET s.regs).1).testBit j := by
    intro j h0 h2 h3 h4
    rw [testBit_chipselect_ctr]
    by_cases h32 : j < 32
    · simp [h0, h2, h3, h4, h32]
    · simp [h32, hbit j (by omega)]
  have hbw : t.bits_per_word < 2 ^ 8 := by have := hb.2; omega
  have hB : ∀ j, (j < 8 ∨ 15 < j) →
      (setup_ctr (u32 (s.read_fn A32V_SPI_CTR_OFFSET s.regs).1) t.bits_per_word).testBit j =
        (u32 (s.read_fn A32V_SPI_CTR_OFFSET s.regs).1).testBit j := by
    intro j hj
    rw [testBit_setup_ctr]
    by_cases h32 : j < 32
    · rcases hj with hj | hj
      · have h8 : ¬ 8 ≤ j := by omega
        simp [h32, h8]
      · have h8 : 8 ≤ j := by omega
        have h16 : ¬ j < 16 := by omega
        have hz : t.bits_per_word.testBit (j - 8) = false := by
          apply Nat.testBit_lt_two_pow
          exact lt_of_lt_of_le hbw (Nat.pow_le_pow_right (by norm_num) (by omega))
        simp [h32, h8, h16, hz]
    · simp [h32, hbit j (by omega)]
  refine ⟨⟨_, _, _, hprior, chipselect_trace s mode cs is_on hon, hA, ?_, ?_, ?_⟩,
    ⟨_, _, hprior, setup_transfer_trace s t, hB, ?_, ?_, ?_⟩⟩
  · exact hA 1 (by decide) (by decide) (by decide) (by decide)
  · exact hA 5 (by decide) (by decide) (by decide) (by decide)
  · exact shiftRight16_eq_of_testBit
      (fun j hj => hA j (by omega) (by omega) (by omega) (by omega))
  · exact hB 1 (by decide)
  · exact hB 5 (by decide)
  · exact shiftRight16_eq_of_testBit (fun j hj => hB j (Or.inr (by omega)))

theorem control_register_preservation_witness :
    BITBANG_CS_ACTIVE ≠ BITBANG_CS_INACTIVE ∧ (1 ≤ xfer12.bits_per_word ∧ xfer12.bits_per_word ≤ 32) ∧
    (∃ prior w, prior = (reg_read (loop_attach 2 (fun _ => 1) 4) A32V_SPI_CTR_OFFSET).1 ∧
      (a32v_spi_setup_transfer (loop_attach 2 (fun _ => 1) 4) (some xfer12)).2.trace =
        Access.wr A32V_SPI_CTR_OFFSET w :: Access.rd A32V_SPI_CTR_OFFSET prior ::
          (loop_attach 2 (fun _ => 1) 4).trace ∧
      (∀ j, (j < 8 ∨ 15 < j) → w.testBit j = prior.testBit j) ∧
      w.testBit 1 = prior.testBit 1 ∧ w.testBit 5 = prior.testBit 5 ∧
      w >>> 16 = prior >>> 16) :=
  ⟨by decide, by decide,
    (control_register_preservation (loop_attach 2 (fun _ => 1) 4) (SPI_CPOL ||| SPI_LOOP) 0
      BITBANG_CS_ACTIVE xfer12 (by decide) (by decide)).2⟩

/-- C5, evaluated at the failing input: for a device whose mode requests
LSB-first only (`mode = SPI_LSB_FIRST`, prior control value 0),
`a32v_spi_chipselect` writes `0x08` to the control register, so bit 3
(polarity) is set although CPOL is not requested and bit 4 (bit order) is clear
although LSB-first is requested. -/
theorem chipselect_lsb_first_writes_polarity_bit :
    (a32v_spi_chipselect (loop_attach 2 (fun _ => 1) 4) SPI_LSB_FIRST 0 BITBANG_CS_ACTIVE).trace =
      [Access.wr A32V_SPI_SSR_OFFSET 0xfffffffe, Access.wr A32V_SPI_CTR_OFFSET 0x08,
        Access.rd A32V_SPI_CTR_OFFSET 0] ∧
    Nat.testBit 0x08 3 = true ∧ Nat.testBit 0x08 4 = false ∧
    SPI_LSB_FIRST &&& SPI_CPOL = 0 ∧ SPI_LSB_FIRST &&& SPI_LSB_FIRST ≠ 0 := by
  decide

/-- C6. Word-width configuration: for bits-per-word `b` in 1..32,
`a32v_spi_setup_transfer` returns 0, writes a control value whose word-width
field (bits 8-15) is `b`, and stores the packing width 1 for `b ≤ 8`, 2 for
`9 ≤ b ≤ 16` and 4 for `17 ≤ b`; the packing width is 1, 2 or 4 and holds at
least `b` bits. -/
theorem word_width_configuration (s : axil32v_spi σ) (t : spi_transfer)
    (hb : 1 ≤ t.bits_per_word ∧ t.bits_per_word ≤ 32) :
    (a32v_spi_setup_transfer s (some t)).1 = 0 ∧
    (∃ w, (a32v_spi_setup_transfer s (some t)).2.trace =
        Access.wr A32V_SPI_CTR_OFFSET w ::
        Access.rd A32V_SPI_CTR_OFFSET (reg_read s A32V_SPI_CTR_OFFSET).1 :: s.trace ∧
      (w >>> 8) &&& 0xff = t.bits_per_word) ∧
    (t.bits_per_word ≤ 8 → (a32v_spi_setup_transfer s (some t)).2.bytes_per_word = 1) ∧
    (9 ≤ t.bits_per_word ∧ t.bits_per_word ≤ 16 →
      (a32v_spi_setup_transfer s (some t)).2.bytes_per_word = 2) ∧
    (17 ≤ t.bits_per_word → (a32v_spi_setup_transfer s (some t)).2.bytes_per_word = 4) ∧
    ((a32v_spi_setup_transfer s (some t)).2.bytes_per_word = 1 ∨
      (a32v_spi_setup_transfer s (some t)).2.bytes_per_word = 2 ∨
      (a32v_spi_setup_transfer s (some t)).2.bytes_per_word = 4) ∧
    t.bits_per_word ≤ 8 * (a32v_spi_setup_transfer s (some t)).2.bytes_per_word := by
  have hbw : t.bits_per_word < 2 ^ 8 := by have := hb.2; omega
  have hfield : (setup_ctr (u32 (s.read_fn A32V_SPI_CTR_OFFSET s.regs).1) t.bits_per_word >>> 8)
      &&& 0xff = t.bits_per_word := by
    apply Nat.eq_of_testBit_eq
    intro i
    rw [Nat.testBit_and, Nat.testBit_shiftRight, testBit_setup_ctr,
      show (0xff : Nat) = 2 ^ 8 - 1 by norm_num, Nat.testBit_two_pow_sub_one]
    by_cases hi : i < 8
    · have h1 : 8 + i < 32 := by omega
      have h2 : 8 ≤ 8 + i := by omega
      have h3 : 8 + i < 16 := by omega
      simp [hi, h1, h2, h3]
    · have hz : t.bits_per_word.testBit i = false := by
        apply Nat.testBit_lt_two_pow
        exact lt_of_lt_of_le hbw (Nat.pow_le_pow_right (by norm_num) (by omega))
      simp [hi, hz]
  have hbpw : (a32v_spi_setup_transfer s (some t)).2.bytes_per_word =
      (a32v_spi_bytes_per_word t.bits_per_word).toNat % 256 := rfl
  rw [hbpw]
  refine ⟨rfl, ⟨_, setup_transfer_trace s t, hfield⟩, ?_, ?_, ?_, ?_, ?_⟩ <;>
    unfold a32v_spi_bytes_per_word <;> split_ifs <;> simp <;> omega

theorem word_width_configuration_witness :
    (1 ≤ xfer12.bits_per_word ∧ xfer12.bits_per_word ≤ 32) ∧
    (a32v_spi_setup_transfer (loop_attach 2 (fun _ => 1) 4) (some xfer12)).2.bytes_per_word = 2 :=
  ⟨by decide,
    (word_width_configuration (loop_attach 2 (fun _ => 1) 4) xfer12 (by decide)).2.2.2.1
      (by decide)⟩

/-- C8, evaluated at the failing input: on a freshly attached controller
(`cs_inactive = 0xffffffff`) `a32v_spi_init_hw` writes the reset vector, then
`0x0000ffff` to the slave-select register, whereas a deselect through
`a32v_spi_chipselect` writes `0xffffffff`. -/
theorem init_hw_writes_16_bit_deselect :
    (loop_attach 2 (fun _ => 1) 4).cs_inactive = 0xffffffff ∧
    (a32v_spi_init_hw (loop_attach 2 (fun _ => 1) 4)).trace.reverse =
      [Access.wr A32V_SPI_RESETR_OFFSET 0x0A, Access.wr A32V_SPI_SSR_OFFSET 0x0000ffff,
        Access.wr A32V_SPI_CTR_OFFSET 0x00040022] ∧
    (a32v_spi_chipselect (loop_attach 2 (fun _ => 1) 4) 0 0 BITBANG_CS_INACTIVE).trace =
      [Access.wr A32V_SPI_SSR_OFFSET 0xffffffff] := by
  decide

/-- C9. Reset control value: with configured prescale `0 < p < 65536` and
packing width `w` in {0, 1, 2, 4}, `a32v_spi_init_hw` performs exactly three
register writes, in the order reset command, slave select, control, and the
control value has clock-prescale field (bits 16-31) `p`, word-width field
(bits 8-15) `8 * w`, the enable bit (1) and the manual-select bit (5) set, and
the four mode bits (0, 2, 3, 4) clear. -/
theorem init_hw_control_value (s : axil32v_spi σ) (p : Int) (w : Nat)
    (hp : 0 < p ∧ p < 65536) (hw : w = 0 ∨ w = 1 ∨ w = 2 ∨ w = 4)
    (hps : s.sclk_prescale = p) (hws : s.bytes_per_word = w) :
    ∃ cr ssr, (a32v_spi_init_hw s).trace =
        Access.wr A32V_SPI_CTR_OFFSET cr :: Access.wr A32V_SPI_SSR_OFFSET ssr ::
        Access.wr A32V_SPI_RESETR_OFFSET A32V_SPI_RESET_VECTOR :: s.trace ∧
      cr < 4294967296 ∧
      ((cr >>> 16 : Nat) : Int) = p ∧ (cr >>> 8) &&& 0xff = 8 * w ∧
      cr.testBit 1 = true ∧ cr.testBit 5 = true ∧
      cr.testBit 0 = false ∧ cr.testBit 2 = false ∧ cr.testBit 3 = false ∧
      cr.testBit 4 = false := by
  obtain ⟨n, rfl⟩ : ∃ n : Nat, p = (n : Int) := ⟨p.toNat, by omega⟩
  have hn : n < 65536 := by omega
  have hn16 : ∀ i, 16 ≤ i → n.testBit i = false := fun i hi =>
    Nat.testBit_lt_two_pow (lt_of_lt_of_le (by norm_num; exact hn)
      (Nat.pow_le_pow_right (by norm_num) hi))
  refine ⟨init_ctr (n : Int) w, 0xffff, ?_, ?_, ?_, ?_, ?_, ?_, ?_, ?_, ?_, ?_⟩
  · rw [init_hw_trace, hps, hws]
  · exact u32_lt _
  · congr 1
    apply Nat.eq_of_testBit_eq
    intro i
    rw [Nat.testBit_shiftRight, testBit_init_ctr n w _ hn hw]
    have hwz : w.testBit (16 + i - 11) = false :=
      Nat.testBit_lt_two_pow (lt_of_lt_of_le (show w < 2 ^ 3 by omega)
        (Nat.pow_le_pow_right (by norm_num) (by omega)))
    have h5 : ¬ 16 + i = 5 := by omega
    have h1 : ¬ 16 + i = 1 := by omega
    simp [hwz, h5, h1]
  · apply Nat.eq_of_testBit_eq
    intro i
    rw [Nat.testBit_and, Nat.testBit_shiftRight, testBit_init_ctr n w _ hn hw,
      show (0xff : Nat) = 2 ^ 8 - 1 by norm_num, Nat.testBit_two_pow_sub_one]
    rw [show 8 * w = w <<< 3 by rw [Nat.shiftLeft_eq]; omega, Nat.testBit_shiftLeft]
    by_cases hi : i < 8
    · have h16 : ¬ 16 ≤ 8 + i := by omega
      have h5 : ¬ 8 + i = 5 := by omega
      have h1 : ¬ 8 + i = 1 := by omega
      by_cases h3 : 3 ≤ i
      · have h11 : 11 ≤ 8 + i := by omega
        have he : 8 + i - 11 = i - 3 := by omega
        simp [hi, h16, h5, h1, h3, h11, he]
      · have h11 : ¬ 11 ≤ 8 + i := by omega
        simp [hi, h16, h5, h1, h3, h11]
    · have hwz : w.testBit (i - 3) = false :=
        Nat.testBit_lt_two_pow (lt_of_lt_of_le (show w < 2 ^ 3 by omega)
          (Nat.pow_le_pow_right (by norm_num) (by omega)))
      simp [hi, hwz]
  all_goals rw [testBit_init_ctr n w _ hn hw]; simp

theorem init_hw_control_value_witness :
    ((0 : Int) < 4 ∧ (4 : Int) < 65536) ∧
    ∃ cr ssr, (a32v_spi_init_hw (loop_attach 2 (fun _ => 1) 4)).trace =
        Access.wr A32V_SPI_CTR_OFFSET cr :: Access.wr A32V_SPI_SSR_OFFSET ssr ::
        Access.wr A32V_SPI_RESETR_OFFSET A32V_SPI_RESET_VECTOR ::
          (loop_attach 2 (fun _ => 1) 4).trace ∧
      cr < 4294967296 ∧
      ((cr >>> 16 : Nat) : Int) = 4 ∧ (cr >>> 8) &&& 0xff = 8 * 0 ∧
      cr.testBit 1 = true ∧ cr.testBit 5 = true ∧
      cr.testBit 0 = false ∧ cr.testBit 2 = false ∧ cr.testBit 3 = false ∧
      cr.testBit 4 = false :=
  ⟨by decide,
    init_hw_control_value (loop_attach 2 (fun _ => 1) 4) 4 0 (by decide) (by decide) rfl rfl⟩
/-! ## Machine-integer and flag lemmas -/

theorem wrap32_of_range {x : Int} (h1 : -2147483648 ≤ x) (h2 : x < 2147483648) :
    wrap32 x = x := by
  unfold wrap32
  omega

theorem and_u32_mask (v m : Nat) (hm : 4294967295 &&& m = m) : u32 v &&& m = v &&& m := by
  unfold u32
  rw [show (4294967296 : Nat) = 2 ^ 32 by norm_num, ← Nat.and_pow_two_sub_one_eq_mod,
    Nat.and_assoc]
  norm_num
  rw [hm]

theorem and_255_mask (v m : Nat) (hm : 255 &&& m = m) : ((v &&& 0xff) % 256) &&& m = v &&& m := by
  have h : (v &&& 0xff) % 256 = v &&& 0xff := by
    apply Nat.mod_eq_of_lt
    exact lt_of_le_of_lt Nat.and_le_right (by norm_num)
  rw [h, Nat.and_assoc, hm]

/-! ## FIFO depth discovery -/

theorem find_loop_spec (rf : Nat → σ → Nat × σ) (wf : Nat → Nat → σ → σ) (occ : σ → Nat)
    (d : Nat) (hd31 : d < 2147483648)
    (hpush : ∀ r, occ r < d → occ (wf 0 A32V_SPI_TXD_OFFSET r) = occ r + 1)
    (hkeep : ∀ r, occ (rf A32V_SPI_SR_OFFSET r).2 = occ r)
    (hflag : ∀ r, occ r ≤ d →
      ((rf A32V_SPI_SR_OFFSET r).1 &&& A32V_SPI_SR_TX_FULL_MASK ≠ 0 ↔ occ r = d)) :
    ∀ (fuel : Nat) (s : axil32v_spi σ), s.read_fn = rf → s.write_fn = wf →
      occ s.regs < d → d - occ s.regs ≤ fuel →
      ∃ s1 tr v, find_loop fuel (occ s.regs : Int) s = Exec.ret ((d : Int), s1) ∧
        s1.trace = Access.rd A32V_SPI_SR_OFFSET v :: tr ++ s.trace ∧
        v &&& A32V_SPI_SR_TX_FULL_MASK ≠ 0 ∧
        count_wr A32V_SPI_TXD_OFFSET (Access.rd A32V_SPI_SR_OFFSET v :: tr) = d - occ s.regs ∧
        (∀ a ∈ tr, probe_access a) ∧
        occ s1.regs = d ∧ s1.read_fn = rf ∧ s1.write_fn = wf := by
  intro fuel
  induction fuel with
  | zero => intro s _ _ h1 h2; omega
  | succ fuel ih =>
    intro s hr hw hlt hfuel
    have hocc1 : occ (reg_read (reg_write s 0 A32V_SPI_TXD_OFFSET) A32V_SPI_SR_OFFSET).2.regs =
        occ s.regs + 1 := by
      simp only [reg_read, reg_write, hr, hw]
      rw [hkeep, show u32 0 = 0 from rfl, hpush _ hlt]
    have hv : (reg_read (reg_write s 0 A32V_SPI_TXD_OFFSET) A32V_SPI_SR_OFFSET).1 =
        u32 (rf A32V_SPI_SR_OFFSET (wf 0 A32V_SPI_TXD_OFFSET s.regs)).1 := by
      simp only [reg_read, reg_write, hr, hw]
      rfl
    have hbit : (((reg_read (reg_write s 0 A32V_SPI_TXD_OFFSET) A32V_SPI_SR_OFFSET).1 &&& 0xff) % 256)
        &&& A32V_SPI_SR_TX_FULL_MASK =
        (rf A32V_SPI_SR_OFFSET (wf 0 A32V_SPI_TXD_OFFSET s.regs)).1 &&& A32V_SPI_SR_TX_FULL_MASK := by
      rw [and_255_mask _ _ (by decide), hv, and_u32_mask _ _ (by decide)]
    have hfull := hflag (wf 0 A32V_SPI_TXD_OFFSET s.regs) (by rw [hpush _ hlt]; omega)
    rw [hpush _ hlt] at hfull
    have hwrap : wrap32 ((occ s.regs : Int) + 1) = ((occ s.regs + 1 : Nat) : Int) := by
      rw [wrap32_of_range (by omega) (by omega)]
      push_cast
      rfl
    unfold find_loop
    simp only [hbit, hwrap]
    by_cases hlast : occ s.regs + 1 = d
    · rw [if_neg (hfull.mpr hlast)]
      refine ⟨(reg_read (reg_write s 0 A32V_SPI_TXD_OFFSET) A32V_SPI_SR_OFFSET).2,
        [Access.wr A32V_SPI_TXD_OFFSET 0],
        u32 (rf A32V_SPI_SR_OFFSET (wf 0 A32V_SPI_TXD_OFFSET s.regs)).1,
        ?_, ?_, ?_, ?_, ?_, ?_, ?_, ?_⟩
      · rw [hlast]
      · simp only [reg_read, reg_write, hr, hw]
        rfl
      · rw [and_u32_mask _ _ (by decide)]
        exact hfull.mpr hlast
      · simp [count_wr, Access.is_wr]
        omega
      · intro a ha
        simp only [List.mem_singleton] at ha
        exact Or.inl ha
      · rw [hocc1, hlast]
      · simp only [reg_read, reg_write, hr]
      · simp only [reg_read, reg_write, hw]
    · have hz : (rf A32V_SPI_SR_OFFSET (wf 0 A32V_SPI_TXD_OFFSET s.regs)).1 &&&
          A32V_SPI_SR_TX_FULL_MASK = 0 := by
        by_contra h
        exact hlast (hfull.mp h)
      rw [if_pos hz]
      obtain ⟨s1, tr, v, h1, h2, h3, h4, h5, h6, h7, h8⟩ :=
        ih (reg_read (reg_write s 0 A32V_SPI_TXD_OFFSET) A32V_SPI_SR_OFFSET).2
          (by simp only [reg_read, reg_write, hr]) (by simp only [reg_read, reg_write, hw])
          (by rw [hocc1]; omega) (by rw [hocc1]; omega)
      rw [hocc1] at h1 h4
      refine ⟨s1, tr ++ [Access.rd A32V_SPI_SR_OFFSET
          (u32 (rf A32V_SPI_SR_OFFSET (wf 0 A32V_SPI_TXD_OFFSET s.regs)).1),
          Access.wr A32V_SPI_TXD_OFFSET 0], v, h1, ?_, h3, ?_, ?_, h6, h7, h8⟩
      · rw [h2]
        simp only [reg_read, reg_write, hr, hw]
        simp [u32]
      · simp only [count_wr, List.countP_cons, List.countP_append, Access.is_wr] at h4 ⊢
        simp at h4 ⊢
        omega
      · intro a ha
        simp only [List.mem_append, List.mem_cons, List.mem_singleton, List.not_mem_nil,
          or_false] at ha
        rcases ha with ha | ha | ha
        · exact h5 a ha
        · exact Or.inr ⟨_, ha⟩
        · exact Or.inl ha

theorem flags_bits (A B C D : Prop) [Decidable A] [Decidable B] [Decidable C] [Decidable D] :
    ((((if A then 1 else 0) + (if B then 2 else 0) + (if C then 4 else 0) +
        (if D then 8 else 0) : Nat) &&& 1 ≠ 0) ↔ A) ∧
    ((((if A then 1 else 0) + (if B then 2 else 0) + (if C then 4 else 0) +
        (if D then 8 else 0) : Nat) &&& 4 ≠ 0) ↔ C) ∧
    ((((if A then 1 else 0) + (if B then 2 else 0) + (if C then 4 else 0) +
        (if D then 8 else 0) : Nat) &&& 8 ≠ 0) ↔ D) := by
  by_cases hA : A <;> by_cases hB : B <;> by_cases hC : C <;> by_cases hD : D <;>
    simp only [hA, hB, hC, hD, if_true, if_false] <;> decide

theorem loop_status_rx_empty (depth : Nat) (r : loop_dev) :
    loop_status depth r &&& A32V_SPI_SR_RX_EMPTY_MASK ≠ 0 ↔ r.rxq.length = 0 :=
  (flags_bits _ _ _ _).1

theorem loop_status_tx_empty (depth : Nat) (r : loop_dev) :
    loop_status depth r &&& A32V_SPI_SR_TX_EMPTY_MASK ≠ 0 ↔ r.txq.length = 0 :=
  (flags_bits _ _ _ _).2.1

theorem loop_status_tx_full (depth : Nat) (r : loop_dev) :
    loop_status depth r &&& A32V_SPI_SR_TX_FULL_MASK ≠ 0 ↔ depth ≤ r.txq.length :=
  (flags_bits _ _ _ _).2.2

theorem loop_status_lt (depth : Nat) (r : loop_dev) : loop_status depth r < 16 := by
  unfold loop_status
  split_ifs <;> decide

/-- C10. FIFO depth discovery: against every device whose transmit FIFO
occupancy `occ` is cleared by the reset command, grows by one with every word
written while it holds fewer than `d` words, is not changed by a status read
(no draining during the probe), and whose status register reports TX full
exactly when `d` words are held, `a32v_spi_find_buffer_size` terminates (any
step budget of at least `d` suffices) and returns `d`, which is at least 1;
after the reset command it made `d` writes to the transmit-data register, all
of them zero words, the last status value it read reports TX full, and so does
the next status read. -/
theorem fifo_depth_discovery (s : axil32v_spi σ) (occ : σ → Nat) (d fuel : Nat)
    (hd : 1 ≤ d) (hd31 : d < 2147483648)
    (hreset : ∀ r, occ (s.write_fn A32V_SPI_RESET_VECTOR A32V_SPI_RESETR_OFFSET r) = 0)
    (hpush : ∀ r, occ r < d → occ (s.write_fn 0 A32V_SPI_TXD_OFFSET r) = occ r + 1)
    (hkeep : ∀ r, occ (s.read_fn A32V_SPI_SR_OFFSET r).2 = occ r)
    (hflag : ∀ r, occ r ≤ d →
      ((s.read_fn A32V_SPI_SR_OFFSET r).1 &&& A32V_SPI_SR_TX_FULL_MASK ≠ 0 ↔ occ r = d))
    (hfuel : d ≤ fuel) :
    ∃ s1 tr v, a32v_spi_find_buffer_size fuel s = Exec.ret ((d : Int), s1) ∧
      (1 : Int) ≤ (d : Int) ∧
      s1.trace = Access.rd A32V_SPI_SR_OFFSET v :: tr ++
        Access.wr A32V_SPI_RESETR_OFFSET A32V_SPI_RESET_VECTOR :: s.trace ∧
      v &&& A32V_SPI_SR_TX_FULL_MASK ≠ 0 ∧
      count_wr A32V_SPI_TXD_OFFSET (Access.rd A32V_SPI_SR_OFFSET v :: tr) = d ∧
      (∀ a ∈ tr, probe_access a) ∧
      occ s1.regs = d ∧
      (s1.read_fn A32V_SPI_SR_OFFSET s1.regs).1 &&& A32V_SPI_SR_TX_FULL_MASK ≠ 0 := by
  have h0 : occ (reg_write s A32V_SPI_RESET_VECTOR A32V_SPI_RESETR_OFFSET).regs = 0 := by
    simp only [reg_write]
    exact hreset _
  obtain ⟨s1, tr, v, h1, h2, h3, h4, h5, h6, h7, _⟩ :=
    find_loop_spec s.read_fn s.write_fn occ d hd31 hpush hkeep hflag fuel
      (reg_write s A32V_SPI_RESET_VECTOR A32V_SPI_RESETR_OFFSET) rfl rfl
      (by rw [h0]; omega) (by rw [h0]; omega)
  rw [h0] at h1 h4
  refine ⟨s1, tr, v, ?_, by omega, ?_, h3, by simpa using h4, h5, h6, ?_⟩
  · unfold a32v_spi_find_buffer_size
    exact h1
  · rw [h2]
    rfl
  · rw [h7]
    exact (hflag _ (le_of_eq h6)).mpr h6

theorem fifo_depth_discovery_witness :
    (1 ≤ 3 ∧ 3 < 2147483648 ∧ 3 ≤ 5) ∧
    ∃ s1 tr v, a32v_spi_find_buffer_size 5 (loop_attach 3 (fun _ => 0) 4) =
        Exec.ret (((3 : Nat) : Int), s1) ∧
      (1 : Int) ≤ ((3 : Nat) : Int) ∧
      s1.trace = Access.rd A32V_SPI_SR_OFFSET v :: tr ++
        Access.wr A32V_SPI_RESETR_OFFSET A32V_SPI_RESET_VECTOR ::
          (loop_attach 3 (fun _ => 0) 4).trace ∧
      v &&& A32V_SPI_SR_TX_FULL_MASK ≠ 0 ∧
      count_wr A32V_SPI_TXD_OFFSET (Access.rd A32V_SPI_SR_OFFSET v :: tr) = 3 ∧
      (∀ a ∈ tr, probe_access a) ∧
      s1.regs.txq.length = 3 ∧
      (s1.read_fn A32V_SPI_SR_OFFSET s1.regs).1 &&& A32V_SPI_SR_TX_FULL_MASK ≠ 0 :=
  ⟨by decide,
    fifo_depth_discovery (loop_attach 3 (fun _ => 0) 4) (fun r => r.txq.length) 3 5
      (by decide) (by decide)
      (fun r => by simp [loop_attach, loop_write])
      (fun r h => by simp [loop_attach, loop_write, h])
      (fun r => by simp [loop_attach, loop_read, loop_shift])
      (fun r h => by
        simp only [loop_attach, loop_read, if_true]
        rw [loop_status_tx_full]
        simp only [loop_shift, List.drop_zero]
        constructor
        · intro h1
          exact le_antisymm h h1
        · intro h1
          exact le_of_eq h1.symm)
      (by decide)⟩
/-! ## Frame properties of the transfer loops -/

theorem same_cfg_refl (s : axil32v_spi σ) : same_cfg s s :=
  ⟨rfl, rfl, rfl, rfl, rfl, rfl⟩

theorem same_cfg_trans {s s1 s2 : axil32v_spi σ} (h1 : same_cfg s s1) (h2 : same_cfg s1 s2) :
    same_cfg s s2 :=
  ⟨h2.1.trans h1.1, h2.2.1.trans h1.2.1, h2.2.2.1.trans h1.2.2.1,
    h2.2.2.2.1.trans h1.2.2.2.1, h2.2.2.2.2.1.trans h1.2.2.2.2.1,
    h2.2.2.2.2.2.trans h1.2.2.2.2.2⟩

theorem same_cfg_reg_read (s : axil32v_spi σ) (off : Nat) : same_cfg s (reg_read s off).2 :=
  ⟨rfl, rfl, rfl, rfl, rfl, rfl⟩

theorem same_cfg_reg_write (s : axil32v_spi σ) (val off : Nat) :
    same_cfg s (reg_write s val off) :=
  ⟨rfl, rfl, rfl, rfl, rfl, rfl⟩

theorem same_cfg_tx (s : axil32v_spi σ) : same_cfg s (a32v_spi_tx s) := by
  unfold a32v_spi_tx
  cases s.tx_ptr <;> exact ⟨rfl, rfl, rfl, rfl, rfl, rfl⟩

theorem same_cfg_rx (s : axil32v_spi σ) : same_cfg s (a32v_spi_rx s) := by
  unfold a32v_spi_rx
  simp only [reg_read]
  cases s.rx_ptr <;> exact ⟨rfl, rfl, rfl, rfl, rfl, rfl⟩

theorem same_cfg_init_hw (s : axil32v_spi σ) : same_cfg s (a32v_spi_init_hw s) :=
  ⟨rfl, rfl, rfl, rfl, rfl, rfl⟩

theorem tx_trace (s : axil32v_spi σ) :
    ∃ v, (a32v_spi_tx s).trace = Access.wr A32V_SPI_TXD_OFFSET v :: s.trace := by
  unfold a32v_spi_tx
  cases s.tx_ptr <;> exact ⟨_, rfl⟩

theorem rx_trace (s : axil32v_spi σ) :
    ∃ v, (a32v_spi_rx s).trace = Access.rd A32V_SPI_RXD_OFFSET v :: s.trace := by
  unfold a32v_spi_rx
  simp only [reg_read]
  cases s.rx_ptr <;> exact ⟨_, rfl⟩

theorem same_cfg_tx_iter (k : Nat) (s : axil32v_spi σ) : same_cfg s (a32v_spi_tx^[k] s) := by
  induction k generalizing s with
  | zero => exact same_cfg_refl s
  | succ k ih =>
    rw [Function.iterate_succ_apply]
    exact same_cfg_trans (same_cfg_tx s) (ih _)

theorem tx_iter_trace (k : Nat) (s : axil32v_spi σ) :
    ∃ tr, (a32v_spi_tx^[k] s).trace = tr ++ s.trace ∧ tr.length = k ∧
      ∀ a ∈ tr, ∃ v, a = Access.wr A32V_SPI_TXD_OFFSET v := by
  induction k generalizing s with
  | zero => exact ⟨[], rfl, rfl, fun a ha => absurd ha (List.not_mem_nil a)⟩
  | succ k ih =>
    rw [Function.iterate_succ_apply]
    obtain ⟨tr, h1, h2, h3⟩ := ih (a32v_spi_tx s)
    obtain ⟨v, hv⟩ := tx_trace s
    refine ⟨tr ++ [Access.wr A32V_SPI_TXD_OFFSET v], ?_, ?_, ?_⟩
    · rw [h1, hv]
      simp
    · simp [h2]
    · intro a ha
      rcases List.mem_append.mp ha with h | h
      · exact h3 a h
      · exact ⟨v, List.mem_singleton.mp h⟩

/-- The fill loop started with `k` words to send (`0 ≤ k < 2^31`) performs
`k` calls of `a32v_spi_tx` when the step budget allows, and is still running
otherwise. -/
theorem tx_loop_eq (k : Nat) (hk : k < 2147483648) :
    ∀ (F : Nat) (s : axil32v_spi σ),
      tx_loop F (k : Int) s = if k < F then Exec.ret (a32v_spi_tx^[k] s) else Exec.fuel := by
  induction k with
  | zero =>
    intro F s
    cases F with
    | zero => rfl
    | succ F => simp [tx_loop]
  | succ k ih =>
    intro F s
    cases F with
    | zero => rfl
    | succ F =>
      have hne : ((k + 1 : Nat) : Int) ≠ 0 := by omega
      have hw : wrap32 (((k + 1 : Nat) : Int) - 1) = (k : Int) := by
        rw [wrap32_of_range (by omega) (by omega)]
        omega
      rw [tx_loop, if_pos hne, hw, ih (by omega) F (a32v_spi_tx s), Function.iterate_succ_apply]
      by_cases h : k < F
      · rw [if_pos h, if_pos (by omega)]
      · rw [if_neg h, if_neg (by omega)]

theorem count_wr_append (off : Nat) (a b : List Access) :
    count_wr off (a ++ b) = count_wr off a + count_wr off b := by
  simp [count_wr, List.countP_append]

theorem count_rd_append (off : Nat) (a b : List Access) :
    count_rd off (a ++ b) = count_rd off a + count_rd off b := by
  simp [count_rd, List.countP_append]

theorem count_of_all_wr (off : Nat) (tr : List Access)
    (h : ∀ a ∈ tr, ∃ v, a = Access.wr off v) :
    count_wr off tr = tr.length ∧ ∀ o, count_rd o tr = 0 := by
  induction tr with
  | nil => exact ⟨rfl, fun _ => rfl⟩
  | cons a tr ih =>
    obtain ⟨v, rfl⟩ := h a (List.mem_cons_self _ _)
    obtain ⟨h1, h2⟩ := ih (fun b hb => h b (List.mem_cons_of_mem _ hb))
    constructor
    · simp only [count_wr, List.countP_cons, Access.is_wr, List.length_cons] at h1 ⊢
      simp [h1]
    · intro o
      have := h2 o
      simp only [count_rd, List.countP_cons, Access.is_rd] at this ⊢
      simp [this]

/-- What the drain loop has done whenever it hands control back: either it ran
to its end, having read the receive-data register once per awaited word, or it
took the stall exit, returning `-EIO` right after the three writes of
`a32v_spi_init_hw`.  It never writes to the transmit-data register. -/
theorem drain_loop_ret (n : Int) :
    ∀ (F k : Nat) (stalled : Int) (sr : Nat) (s s1 : axil32v_spi σ) (o : Option Int),
      k < 2147483648 →
      drain_loop n F (k : Int) stalled sr s = Exec.ret (o, s1) →
      same_cfg s s1 ∧ ∃ tr, s1.trace = tr ++ s.trace ∧ count_wr A32V_SPI_TXD_OFFSET tr = 0 ∧
        ((o = none ∧ count_rd A32V_SPI_RXD_OFFSET tr = k) ∨
         (o = some (- EIO) ∧ ∃ tr1, tr =
            Access.wr A32V_SPI_CTR_OFFSET (init_ctr s.sclk_prescale s.bytes_per_word) ::
            Access.wr A32V_SPI_SSR_OFFSET 0xffff ::
            Access.wr A32V_SPI_RESETR_OFFSET A32V_SPI_RESET_VECTOR :: tr1)) := by
  intro F
  induction F with
  | zero =>
    intro k stalled sr s s1 o _ h
    simp [drain_loop] at h
  | succ F ih =>
    intro k stalled sr s s1 o hk h
    rw [drain_loop] at h
    by_cases hk0 : (k : Int) = 0
    · rw [if_pos hk0] at h
      injection h with h
      injection h with h1 h2
      subst h1 h2
      have : k = 0 := by omega
      subst this
      exact ⟨same_cfg_refl s, [], rfl, rfl, Or.inl ⟨rfl, rfl⟩⟩
    · rw [if_neg hk0] at h
      have hw : wrap32 ((k : Int) - 1) = ((k - 1 : Nat) : Int) := by
        rw [wrap32_of_range (by omega) (by omega)]
        omega
      simp only [hw] at h
      split at h
      · -- stall exit
        injection h with h
        injection h with h1 h2
        subst h1 h2
        refine ⟨same_cfg_init_hw s, _, ?_, ?_, Or.inr ⟨rfl, [], rfl⟩⟩
        · rw [init_hw_trace]
          rfl
        · rfl
      · split at h
        · -- transmit FIFO empty: retire without polling
          obtain ⟨hc, tr, h1, h2, h3⟩ := ih (k - 1) _ sr (a32v_spi_rx s) s1 o (by omega) h
          obtain ⟨v, hv⟩ := rx_trace s
          have hcfg := same_cfg_rx s
          refine ⟨same_cfg_trans hcfg hc, tr ++ [Access.rd A32V_SPI_RXD_OFFSET v], ?_, ?_, ?_⟩
          · rw [h1, hv]; simp
          · rw [count_wr_append, h2]; rfl
          · rcases h3 with ⟨ho, hcnt⟩ | ⟨ho, tr1, htr⟩
            · left
              refine ⟨ho, ?_⟩
              rw [count_rd_append, hcnt]
              simp [count_rd, Access.is_rd]
              omega
            · right
              refine ⟨ho, tr1 ++ [Access.rd A32V_SPI_RXD_OFFSET v], ?_⟩
              rw [htr, hcfg.2.2.1, hcfg.2.2.2.1]
              simp
        · split at h
          · -- poll, a word is available
            obtain ⟨hc, tr, h1, h2, h3⟩ :=
              ih (k - 1) _ _ (a32v_spi_rx (reg_read s A32V_SPI_SR_OFFSET).2) s1 o (by omega) h
            obtain ⟨v, hv⟩ := rx_trace (reg_read s A32V_SPI_SR_OFFSET).2
            have hcfg := same_cfg_trans (same_cfg_reg_read s A32V_SPI_SR_OFFSET)
              (same_cfg_rx (reg_read s A32V_SPI_SR_OFFSET).2)
            refine ⟨same_cfg_trans hcfg hc,
              tr ++ [Access.rd A32V_SPI_RXD_OFFSET v,
                Access.rd A32V_SPI_SR_OFFSET (reg_read s A32V_SPI_SR_OFFSET).1], ?_, ?_, ?_⟩
            · rw [h1, hv]; simp [reg_read]
            · rw [count_wr_append, h2]; rfl
            · rcases h3 with ⟨ho, hcnt⟩ | ⟨ho, tr1, htr⟩
              · left
                refine ⟨ho, ?_⟩
                rw [count_rd_append, hcnt]
                simp [count_rd, Access.is_rd]
                omega
              · right
                refine ⟨ho, tr1 ++ [Access.rd A32V_SPI_RXD_OFFSET v,
                  Access.rd A32V_SPI_SR_OFFSET (reg_read s A32V_SPI_SR_OFFSET).1], ?_⟩
                rw [htr, hcfg.2.2.1, hcfg.2.2.2.1]
                simp
          · -- poll, nothing available
            obtain ⟨hc, tr, h1, h2, h3⟩ :=
              ih k _ _ (reg_read s A32V_SPI_SR_OFFSET).2 s1 o hk h
            have hcfg := same_cfg_reg_read s A32V_SPI_SR_OFFSET
            refine ⟨same_cfg_trans hcfg hc,
              tr ++ [Access.rd A32V_SPI_SR_OFFSET (reg_read s A32V_SPI_SR_OFFSET).1], ?_, ?_, ?_⟩
            · rw [h1]; simp [reg_read]
            · rw [count_wr_append, h2]; rfl
            · rcases h3 with ⟨ho, hcnt⟩ | ⟨ho, tr1, htr⟩
              · left
                refine ⟨ho, ?_⟩
                rw [count_rd_append, hcnt]
                simp [count_rd, Access.is_rd]
              · right
                refine ⟨ho, tr1 ++ [Access.rd A32V_SPI_SR_OFFSET (reg_read s A32V_SPI_SR_OFFSET).1], ?_⟩
                rw [htr, hcfg.2.2.1, hcfg.2.2.2.1]
                simp
/-! ## Result of the pump -/

theorem min_words_cast (m : Nat) (b : Int) (hb : 0 ≤ b) :
    min (m : Int) b = ((min m b.toNat : Nat) : Int) := by
  omega

theorem batch_loop_ret (len budget : Nat) :
    ∀ (fuel m : Nat) (s s1 : axil32v_spi σ) (r : Int),
      m < 2147483648 → 0 ≤ s.buffer_size →
      batch_loop len budget fuel (m : Int) s = Exec.ret (r, s1) →
      same_cfg s s1 ∧ ∃ tr, s1.trace = tr ++ s.trace ∧
        ((r = wrap32 (u32 len) ∧ count_wr A32V_SPI_TXD_OFFSET tr = m ∧
            count_rd A32V_SPI_RXD_OFFSET tr = m) ∨
         (r = - EIO ∧ ∃ tr1, tr =
            Access.wr A32V_SPI_CTR_OFFSET (init_ctr s.sclk_prescale s.bytes_per_word) ::
            Access.wr A32V_SPI_SSR_OFFSET 0xffff ::
            Access.wr A32V_SPI_RESETR_OFFSET A32V_SPI_RESET_VECTOR :: tr1)) := by
  intro fuel
  induction fuel with
  | zero =>
    intro m s s1 r _ _ h
    simp [batch_loop] at h
  | succ fuel ih =>
    intro m s s1 r hm hbs h
    rw [batch_loop] at h
    by_cases hm0 : (m : Int) = 0
    · rw [if_pos hm0] at h
      injection h with h
      injection h with h1 h2
      subst h1 h2
      have : m = 0 := by omega
      subst this
      exact ⟨same_cfg_refl s, [], rfl, Or.inl ⟨rfl, rfl, rfl⟩⟩
    · rw [if_neg hm0] at h
      have hj : min m s.buffer_size.toNat < 2147483648 := by omega
      have hjm : min m s.buffer_size.toNat ≤ m := by omega
      simp only [min_words_cast m _ hbs, tx_loop_eq _ hj] at h
      by_cases hB : min m s.buffer_size.toNat < budget
      · simp only [if_pos hB] at h
        have hcfg1 := same_cfg_tx_iter (min m s.buffer_size.toNat) s
        obtain ⟨trx, htx1, htx2, htx3⟩ := tx_iter_trace (min m s.buffer_size.toNat) s
        obtain ⟨hcw, hcr⟩ := count_of_all_wr _ _ htx3
        have hcfg2 := same_cfg_reg_read (a32v_spi_tx^[min m s.buffer_size.toNat] s)
          A32V_SPI_SR_OFFSET
        have hcfg12 := same_cfg_trans hcfg1 hcfg2
        split at h
        · exact absurd h (by simp)
        · exact absurd h (by simp)
        · rename_i e s2 hd
          injection h with h
          injection h with h1 h2
          subst h1 h2
          obtain ⟨hc, tr, h1, h2, h3⟩ := drain_loop_ret _ _ _ _ _ _ _ _ hj hd
          refine ⟨same_cfg_trans hcfg12 hc, tr ++
            Access.rd A32V_SPI_SR_OFFSET
              (reg_read (a32v_spi_tx^[min m s.buffer_size.toNat] s) A32V_SPI_SR_OFFSET).1 :: trx,
            ?_, Or.inr ?_⟩
          · rw [h1]
            simp [reg_read, htx1]
          · rcases h3 with ⟨ho, _⟩ | ⟨ho, tr1, htr⟩
            · exact absurd ho (by simp)
            · injection ho with ho
              refine ⟨ho, tr1 ++ Access.rd A32V_SPI_SR_OFFSET
                (reg_read (a32v_spi_tx^[min m s.buffer_size.toNat] s) A32V_SPI_SR_OFFSET).1 :: trx,
                ?_⟩
              rw [htr, hcfg12.2.2.1, hcfg12.2.2.2.1]
              simp
        · rename_i s2 hd
          obtain ⟨hc, tr, h1, h2, h3⟩ := drain_loop_ret _ _ _ _ _ _ _ _ hj hd
          have hw : wrap32 ((m : Int) - ((min m s.buffer_size.toNat : Nat) : Int)) =
              ((m - min m s.buffer_size.toNat : Nat) : Int) := by
            rw [wrap32_of_range (by omega) (by omega)]
            omega
          rw [hw] at h
          have hc2 := same_cfg_trans hcfg12 hc
          obtain ⟨hc3, tr2, k1, k2⟩ := ih _ s2 s1 r (by omega) (by rw [hc2.2.2.2.2.1]; exact hbs) h
          refine ⟨same_cfg_trans hc2 hc3, tr2 ++ tr ++
            Access.rd A32V_SPI_SR_OFFSET
              (reg_read (a32v_spi_tx^[min m s.buffer_size.toNat] s) A32V_SPI_SR_OFFSET).1 :: trx,
            ?_, ?_⟩
          · rw [k1, h1]
            simp [reg_read, htx1]
          · rcases h3 with ⟨_, hcnt⟩ | ⟨ho, _⟩
            · rcases k2 with ⟨hr, c1, c2⟩ | ⟨hr, tr1, htr⟩
              · left
                refine ⟨hr, ?_, ?_⟩
                · rw [count_wr_append, count_wr_append, c1, h2]
                  simp only [count_wr, List.countP_cons, Access.is_wr] at hcw ⊢
                  simp [hcw, htx2]
                · rw [count_rd_append, count_rd_append, c2, hcnt]
                  have := hcr A32V_SPI_RXD_OFFSET
                  simp only [count_rd, List.countP_cons, Access.is_rd] at this ⊢
                  simp [this]
              · right
                refine ⟨hr, tr1 ++ tr ++ Access.rd A32V_SPI_SR_OFFSET
                  (reg_read (a32v_spi_tx^[min m s.buffer_size.toNat] s) A32V_SPI_SR_OFFSET).1 ::
                    trx, ?_⟩
                rw [htr, hc2.2.2.1, hc2.2.2.2.1]
                simp
            · exact absurd ho (by simp)
      · simp only [if_neg hB] at h
        exact absurd h (by simp)

theorem txrx_bufs_eq (fuel : Nat) (s : axil32v_spi σ) (t : spi_transfer) :
    a32v_spi_txrx_bufs fuel s t =
      if s.bytes_per_word = 0 then Exec.trap
      else batch_loop t.len fuel fuel
        (wrap32 ((u32 t.len / s.bytes_per_word : Nat) : Int)) (txrx_entry s t) := rfl

/-- What the pump has done whenever it returns: the byte count with one
receive read per transmit write, or the stall exit. -/
theorem pump_counts (fuel : Nat) (s s1 : axil32v_spi σ) (t : spi_transfer) (r : Int)
    (hbs : 0 ≤ s.buffer_size) (hlen : t.len < 2147483648)
    (h : a32v_spi_txrx_bufs fuel s t = Exec.ret (r, s1)) :
    ∃ tr, s1.trace = tr ++ s.trace ∧
      ((r = (t.len : Int) ∧
          count_wr A32V_SPI_TXD_OFFSET tr = t.len / s.bytes_per_word ∧
          count_rd A32V_SPI_RXD_OFFSET tr = t.len / s.bytes_per_word) ∨
       (r = - EIO ∧ r < 0 ∧ ∃ tr1, tr =
          Access.wr A32V_SPI_CTR_OFFSET (init_ctr s.sclk_prescale s.bytes_per_word) ::
          Access.wr A32V_SPI_SSR_OFFSET 0xffff ::
          Access.wr A32V_SPI_RESETR_OFFSET A32V_SPI_RESET_VECTOR :: tr1)) := by
  rw [txrx_bufs_eq] at h
  split at h
  · exact absurd h (by simp)
  · have hu : u32 t.len = t.len := u32_of_lt (by omega)
    have hdiv : t.len / s.bytes_per_word < 2147483648 :=
      lt_of_le_of_lt (Nat.div_le_self _ _) hlen
    have hq0 : (0 : Int) ≤ ((t.len / s.bytes_per_word : Nat) : Int) := Int.natCast_nonneg _
    have hq1 : ((t.len / s.bytes_per_word : Nat) : Int) < 2147483648 := by exact_mod_cast hdiv
    rw [hu, wrap32_of_range (le_trans (by decide) hq0) hq1] at h
    obtain ⟨_, tr, h1, h2⟩ := batch_loop_ret _ _ _ _ (txrx_entry s t) _ _ hdiv hbs h
    refine ⟨tr, h1, ?_⟩
    rcases h2 with ⟨hr, c1, c2⟩ | ⟨hr, tr1, htr⟩
    · left
      rw [hu, wrap32_of_range (by omega) (by omega)] at hr
      exact ⟨hr, c1, c2⟩
    · right
      exact ⟨hr, by rw [hr]; decide, tr1, htr⟩


/-- C7. Successful pump result: on a controller whose FIFO depth is not
negative, for a request whose length fits an `int`, whenever
`a32v_spi_txrx_bufs` returns, either it returns exactly `len` and during the
call the number of writes to the transmit-data register and the number of reads
of the receive-data register both equal `len / bytes_per_word`, or it took the
stall exit: it returns `-EIO` (an error, not a byte count) right after the
three register writes of `a32v_spi_init_hw`. -/
theorem pump_result (fuel : Nat) (s s1 : axil32v_spi σ) (t : spi_transfer) (r : Int)
    (hbs : 0 ≤ s.buffer_size) (hlen : t.len < 2147483648)
    (h : a32v_spi_txrx_bufs fuel s t = Exec.ret (r, s1)) :
    ∃ tr, s1.trace = tr ++ s.trace ∧
      ((r = (t.len : Int) ∧
          count_wr A32V_SPI_TXD_OFFSET tr = t.len / s.bytes_per_word ∧
          count_rd A32V_SPI_RXD_OFFSET tr = t.len / s.bytes_per_word) ∨
       (r = - EIO ∧ r < 0 ∧ ∃ tr1, tr =
          Access.wr A32V_SPI_CTR_OFFSET (init_ctr s.sclk_prescale s.bytes_per_word) ::
          Access.wr A32V_SPI_SSR_OFFSET 0xffff ::
          Access.wr A32V_SPI_RESETR_OFFSET A32V_SPI_RESET_VECTOR :: tr1)) :=
  pump_counts fuel s s1 t r hbs hlen h

theorem pump_result_witness :
    (0 ≤ loop_ready8.buffer_size ∧ xfer8.len < 2147483648 ∧
      a32v_spi_txrx_bufs 10 loop_ready8 xfer8 =
        Exec.ret (4, (a32v_spi_txrx_bufs 10 loop_ready8 xfer8).state loop_ready8)) ∧
    ∃ tr, ((a32v_spi_txrx_bufs 10 loop_ready8 xfer8).state loop_ready8).trace =
        tr ++ loop_ready8.trace ∧
      (((4 : Int) = (xfer8.len : Int) ∧
          count_wr A32V_SPI_TXD_OFFSET tr = xfer8.len / loop_ready8.bytes_per_word ∧
          count_rd A32V_SPI_RXD_OFFSET tr = xfer8.len / loop_ready8.bytes_per_word) ∨
       ((4 : Int) = - EIO ∧ (4 : Int) < 0 ∧ ∃ tr1, tr =
          Access.wr A32V_SPI_CTR_OFFSET
            (init_ctr loop_ready8.sclk_prescale loop_ready8.bytes_per_word) ::
          Access.wr A32V_SPI_SSR_OFFSET 0xffff ::
          Access.wr A32V_SPI_RESETR_OFFSET A32V_SPI_RESET_VECTOR :: tr1)) :=
  ⟨⟨by decide, by decide, rfl⟩,
    pump_result 10 loop_ready8 ((a32v_spi_txrx_bufs 10 loop_ready8 xfer8).state loop_ready8)
      xfer8 4 (by decide) (by decide) rfl⟩
/-! ## Stall detection -/

theorem drain_loop_stall (n : Int) (hn : n ≠ 0) (rf : Nat → σ → Nat × σ)
    (hflag : ∀ r, (rf A32V_SPI_SR_OFFSET r).1 &&& A32V_SPI_SR_RX_EMPTY_MASK ≠ 0 ∧
      (rf A32V_SPI_SR_OFFSET r).1 &&& A32V_SPI_SR_TX_EMPTY_MASK = 0) :
    ∀ (c F sr : Nat) (s : axil32v_spi σ), c < 2147483648 → c < F → s.read_fn = rf →
      sr &&& A32V_SPI_SR_RX_EMPTY_MASK ≠ 0 → sr &&& A32V_SPI_SR_TX_EMPTY_MASK = 0 →
      ∃ s1 polls, drain_loop n F n (c : Int) sr s = Exec.ret (some (- EIO), s1) ∧
        s1.trace =
          Access.wr A32V_SPI_CTR_OFFSET (init_ctr s.sclk_prescale s.bytes_per_word) ::
          Access.wr A32V_SPI_SSR_OFFSET 0xffff ::
          Access.wr A32V_SPI_RESETR_OFFSET A32V_SPI_RESET_VECTOR :: polls ++ s.trace ∧
        polls.length = c ∧ ∀ a ∈ polls, ∃ v, a = Access.rd A32V_SPI_SR_OFFSET v := by
  intro c
  induction c with
  | zero =>
    intro F sr s _ hF _ h1 h4
    obtain ⟨F, rfl⟩ : ∃ F1, F = F1 + 1 := ⟨F - 1, by omega⟩
    refine ⟨a32v_spi_init_hw s, [], ?_, ?_, rfl, fun a ha => absurd ha (List.not_mem_nil a)⟩
    · rw [drain_loop, if_neg hn]
      simp only
      split
      · rfl
      · rename_i hno
        exact absurd ⟨trivial, rfl, h4, h1⟩ hno
    · rw [init_hw_trace]
      rfl
  | succ c ih =>
    intro F sr s hc hF hr h1 h4
    obtain ⟨F, rfl⟩ : ∃ F1, F = F1 + 1 := ⟨F - 1, by omega⟩
    have hne : ¬ (True ∧ ((c + 1 : Nat) : Int) = 0 ∧
        sr &&& A32V_SPI_SR_TX_EMPTY_MASK = 0 ∧ sr &&& A32V_SPI_SR_RX_EMPTY_MASK ≠ 0) := by
      intro h
      have := h.2.1
      omega
    have hfast : ¬ (sr &&& A32V_SPI_SR_TX_EMPTY_MASK ≠ 0 ∧ n > 1) := fun h => h.1 h4
    have hv : (reg_read s A32V_SPI_SR_OFFSET).1 = u32 (rf A32V_SPI_SR_OFFSET s.regs).1 := by
      simp only [reg_read, hr]
    have hv1 : (reg_read s A32V_SPI_SR_OFFSET).1 &&& A32V_SPI_SR_RX_EMPTY_MASK ≠ 0 := by
      rw [hv, and_u32_mask _ _ (by decide)]
      exact (hflag _).1
    have hv4 : (reg_read s A32V_SPI_SR_OFFSET).1 &&& A32V_SPI_SR_TX_EMPTY_MASK = 0 := by
      rw [hv, and_u32_mask _ _ (by decide)]
      exact (hflag _).2
    have hw : wrap32 (((c + 1 : Nat) : Int) - 1) = (c : Int) := by
      rw [wrap32_of_range (by omega) (by omega)]
      omega
    obtain ⟨s1, polls, k1, k2, k3, k4⟩ :=
      ih F _ (reg_read s A32V_SPI_SR_OFFSET).2 (by omega) (by omega)
        (by simp only [reg_read, hr]) hv1 hv4
    refine ⟨s1, polls ++ [Access.rd A32V_SPI_SR_OFFSET (reg_read s A32V_SPI_SR_OFFSET).1],
      ?_, ?_, ?_, ?_⟩
    · rw [drain_loop, if_neg hn]
      simp only
      rw [if_neg hne, if_neg hfast, if_neg hv1, if_pos trivial, hw]
      exact k1
    · rw [k2]
      simp [reg_read]
    · simp [k3]
    · intro a ha
      rcases List.mem_append.mp ha with h | h
      · exact k4 a h
      · exact ⟨_, List.mem_singleton.mp h⟩

theorem batch_loop_stall (len fuel budget m : Nat) (s0 : axil32v_spi σ)
    (hflag : ∀ r, (s0.read_fn A32V_SPI_SR_OFFSET r).1 &&& A32V_SPI_SR_RX_EMPTY_MASK ≠ 0 ∧
      (s0.read_fn A32V_SPI_SR_OFFSET r).1 &&& A32V_SPI_SR_TX_EMPTY_MASK = 0)
    (hm1 : 1 ≤ m) (hm : m < 2147483648) (hbs : 1 ≤ s0.buffer_size)
    (hp : 0 ≤ s0.sclk_prescale ∧ 10 * s0.sclk_prescale < 2147483648)
    (hfuel : (m : Int) < budget ∧ 10 * s0.sclk_prescale < budget) :
    ∃ s1 polls v0 fill, batch_loop len budget (fuel + 1) (m : Int) s0 = Exec.ret (- EIO, s1) ∧
      s1.trace =
        Access.wr A32V_SPI_CTR_OFFSET (init_ctr s0.sclk_prescale s0.bytes_per_word) ::
        Access.wr A32V_SPI_SSR_OFFSET 0xffff ::
        Access.wr A32V_SPI_RESETR_OFFSET A32V_SPI_RESET_VECTOR ::
        polls ++ Access.rd A32V_SPI_SR_OFFSET v0 :: fill ++ s0.trace ∧
      (polls.length : Int) = 10 * s0.sclk_prescale ∧
      (∀ a ∈ polls, ∃ v, a = Access.rd A32V_SPI_SR_OFFSET v) ∧
      (∀ a ∈ fill, ∃ v, a = Access.wr A32V_SPI_TXD_OFFSET v) ∧
      (fill.length : Int) = min (m : Int) s0.buffer_size := by
  obtain ⟨c, hc⟩ : ∃ c : Nat, 10 * s0.sclk_prescale = (c : Int) :=
    ⟨(10 * s0.sclk_prescale).toNat, by omega⟩
  have hj : min m s0.buffer_size.toNat < 2147483648 := by omega
  have hj1 : 1 ≤ min m s0.buffer_size.toNat := by omega
  have hjB : min m s0.buffer_size.toNat < budget := by omega
  rw [batch_loop, if_neg (by omega)]
  simp only [min_words_cast m _ (le_trans (by decide) hbs), tx_loop_eq _ hj, if_pos hjB]
  have hcfg1 := same_cfg_tx_iter (min m s0.buffer_size.toNat) s0
  obtain ⟨fill, f1, f2, f3⟩ := tx_iter_trace (min m s0.buffer_size.toNat) s0
  have hrd : (reg_read (a32v_spi_tx^[min m s0.buffer_size.toNat] s0) A32V_SPI_SR_OFFSET).1 =
      u32 (s0.read_fn A32V_SPI_SR_OFFSET
        (a32v_spi_tx^[min m s0.buffer_size.toNat] s0).regs).1 := by
    simp only [reg_read, hcfg1.1]
  obtain ⟨s1, polls, k1, k2, k3, k4⟩ :=
    drain_loop_stall ((min m s0.buffer_size.toNat : Nat) : Int) (by omega) s0.read_fn hflag c
      budget
      (reg_read (a32v_spi_tx^[min m s0.buffer_size.toNat] s0) A32V_SPI_SR_OFFSET).1
      (reg_read (a32v_spi_tx^[min m s0.buffer_size.toNat] s0) A32V_SPI_SR_OFFSET).2
      (by omega) (by omega) (by simp only [reg_read, hcfg1.1])
      (by rw [hrd, and_u32_mask _ _ (by decide)]; exact (hflag _).1)
      (by rw [hrd, and_u32_mask _ _ (by decide)]; exact (hflag _).2)
  have hpre : (reg_read (a32v_spi_tx^[min m s0.buffer_size.toNat] s0)
      A32V_SPI_SR_OFFSET).2.sclk_prescale = s0.sclk_prescale := hcfg1.2.2.2.1
  have hbw : (reg_read (a32v_spi_tx^[min m s0.buffer_size.toNat] s0)
      A32V_SPI_SR_OFFSET).2.bytes_per_word = s0.bytes_per_word := hcfg1.2.2.1
  rw [hpre, hc, wrap32_of_range (by omega) (by omega), k1]
  simp only
  rw [hpre, hbw] at k2
  refine ⟨s1, polls,
    (reg_read (a32v_spi_tx^[min m s0.buffer_size.toNat] s0) A32V_SPI_SR_OFFSET).1, fill, rfl,
    ?_, by omega, k4, f3, by omega⟩
  rw [k2]
  simp [reg_read, f1]

/-- C2, the claim as amended. Stall bound: for a request of at least one word
on a controller with FIFO depth at least 1 and a prescale `p ≥ 0` with
`10 * p` in the `int` range, against every device whose status register keeps
reporting TX not empty and RX empty, `a32v_spi_txrx_bufs` returns `-EIO` (any
step budget above `len + 1` and `10 * p + 1` suffices).  Its accesses are, in
order: the fill writes of the first batch, one status read, exactly `10 * p`
status polls in the drain loop, and the three writes of `a32v_spi_init_hw`, so
that the last value written to the control register is the reset-initialised
one. -/
theorem stall_bound (fuel : Nat) (s : axil32v_spi σ) (t : spi_transfer)
    (hflag : ∀ r, (s.read_fn A32V_SPI_SR_OFFSET r).1 &&& A32V_SPI_SR_RX_EMPTY_MASK ≠ 0 ∧
      (s.read_fn A32V_SPI_SR_OFFSET r).1 &&& A32V_SPI_SR_TX_EMPTY_MASK = 0)
    (hwords : 1 ≤ t.len / s.bytes_per_word) (hlen : t.len < 2147483648)
    (hbs : 1 ≤ s.buffer_size)
    (hp : 0 ≤ s.sclk_prescale ∧ 10 * s.sclk_prescale < 2147483648)
    (hfuel : (t.len : Int) + 2 ≤ fuel ∧ 10 * s.sclk_prescale + 2 ≤ fuel) :
    ∃ s1 polls v0 fill, a32v_spi_txrx_bufs fuel s t = Exec.ret (- EIO, s1) ∧
      s1.trace =
        Access.wr A32V_SPI_CTR_OFFSET (init_ctr s.sclk_prescale s.bytes_per_word) ::
        Access.wr A32V_SPI_SSR_OFFSET 0xffff ::
        Access.wr A32V_SPI_RESETR_OFFSET A32V_SPI_RESET_VECTOR ::
        polls ++ Access.rd A32V_SPI_SR_OFFSET v0 :: fill ++ s.trace ∧
      (polls.length : Int) = 10 * s.sclk_prescale ∧
      (∀ a ∈ polls, ∃ v, a = Access.rd A32V_SPI_SR_OFFSET v) ∧
      (∀ a ∈ fill, ∃ v, a = Access.wr A32V_SPI_TXD_OFFSET v) ∧
      (fill.length : Int) = min ((t.len / s.bytes_per_word : Nat) : Int) s.buffer_size ∧
      last_wr A32V_SPI_CTR_OFFSET s1.trace =
        some (init_ctr s.sclk_prescale s.bytes_per_word) := by
  have hbpw : s.bytes_per_word ≠ 0 := by
    intro h
    rw [h, Nat.div_zero] at hwords
    omega
  have hu : u32 t.len = t.len := u32_of_lt (by omega)
  have hdiv : t.len / s.bytes_per_word < 2147483648 :=
    lt_of_le_of_lt (Nat.div_le_self _ _) hlen
  have hdivle : t.len / s.bytes_per_word ≤ t.len := Nat.div_le_self _ _
  have hq0 : (0 : Int) ≤ ((t.len / s.bytes_per_word : Nat) : Int) := Int.natCast_nonneg _
  have hq1 : ((t.len / s.bytes_per_word : Nat) : Int) < 2147483648 := by exact_mod_cast hdiv
  obtain ⟨fuel, rfl⟩ : ∃ f1, fuel = f1 + 1 := ⟨fuel - 1, by omega⟩
  rw [txrx_bufs_eq, if_neg hbpw, hu, wrap32_of_range (le_trans (by decide) hq0) hq1]
  obtain ⟨s1, polls, v0, fill, k1, k2, k3, k4, k5, k6⟩ :=
    batch_loop_stall t.len fuel (fuel + 1) (t.len / s.bytes_per_word) (txrx_entry s t)
      hflag hwords hdiv hbs hp
      (by
        constructor
        · have : ((t.len / s.bytes_per_word : Nat) : Int) ≤ (t.len : Int) := by
            exact_mod_cast hdivle
          show ((t.len / s.bytes_per_word : Nat) : Int) < ((fuel + 1 : Nat) : Int)
          omega
        · show 10 * s.sclk_prescale < ((fuel + 1 : Nat) : Int)
          omega)
  refine ⟨s1, polls, v0, fill, k1, k2, k3, k4, k5, k6, ?_⟩
  rw [k2]
  simp only [last_wr, if_true]
  rfl

theorem stall_bound_witness :
    (1 ≤ xfer8.len / (unit_attach wedged_read 4).bytes_per_word ∧ xfer8.len < 2147483648 ∧
      1 ≤ (unit_attach wedged_read 4).buffer_size) ∧
    ∃ s1 polls v0 fill,
      a32v_spi_txrx_bufs 42 (unit_attach wedged_read 4) xfer8 = Exec.ret (- EIO, s1) ∧
      s1.trace =
        Access.wr A32V_SPI_CTR_OFFSET (init_ctr (unit_attach wedged_read 4).sclk_prescale
          (unit_attach wedged_read 4).bytes_per_word) ::
        Access.wr A32V_SPI_SSR_OFFSET 0xffff ::
        Access.wr A32V_SPI_RESETR_OFFSET A32V_SPI_RESET_VECTOR ::
        polls ++ Access.rd A32V_SPI_SR_OFFSET v0 :: fill ++ (unit_attach wedged_read 4).trace ∧
      (polls.length : Int) = 10 * (unit_attach wedged_read 4).sclk_prescale ∧
      (∀ a ∈ polls, ∃ v, a = Access.rd A32V_SPI_SR_OFFSET v) ∧
      (∀ a ∈ fill, ∃ v, a = Access.wr A32V_SPI_TXD_OFFSET v) ∧
      (fill.length : Int) =
        min ((xfer8.len / (unit_attach wedged_read 4).bytes_per_word : Nat) : Int)
          (unit_attach wedged_read 4).buffer_size ∧
      last_wr A32V_SPI_CTR_OFFSET s1.trace =
        some (init_ctr (unit_attach wedged_read 4).sclk_prescale
          (unit_attach wedged_read 4).bytes_per_word) :=
  ⟨by decide,
    stall_bound 42 (unit_attach wedged_read 4) xfer8 (fun r => by cases r; decide) (by decide) (by decide)
      (by decide) (by decide) (by decide)⟩

theorem mute_drain_never_returns (n : Int) :
    ∀ (F k : Nat) (stalled : Int) (s : axil32v_spi Unit), 1 ≤ k → k < 2147483648 →
      s.read_fn = mute_read →
      drain_loop n F (k : Int) stalled
        (A32V_SPI_SR_TX_EMPTY_MASK ||| A32V_SPI_SR_RX_EMPTY_MASK) s = Exec.fuel := by
  intro F
  induction F with
  | zero => intro k stalled s _ _ _; rfl
  | succ F ih =>
    intro k stalled s hk1 hk hr
    have hw : wrap32 ((k : Int) - 1) = ((k - 1 : Nat) : Int) := by
      rw [wrap32_of_range (by omega) (by omega)]
      omega
    have hsr : (reg_read s A32V_SPI_SR_OFFSET).1 =
        A32V_SPI_SR_TX_EMPTY_MASK ||| A32V_SPI_SR_RX_EMPTY_MASK := by
      simp only [reg_read, hr, mute_read]
      rfl
    rw [drain_loop, if_neg (by omega)]
    simp only
    split
    · rename_i h
      exact absurd h.2.2.1 (by decide)
    · split
      · rename_i h
        rw [hw]
        have h1 : 1 < k := by omega
        exact ih (k - 1) _ (a32v_spi_rx s) (by omega) (by omega) ((same_cfg_rx s).1.trans hr)
      · rw [if_neg (by rw [hsr]; decide), hsr]
        exact ih k _ _ hk1 hk (by simp only [reg_read, hr])

/-- C2, the claim as stated fails: a device that accepts the transmitted words
and whose status register keeps reporting RX empty, but TX empty as well, is
never declared stalled.  With prescale 4 (a bound of 40 polls) and the
four-byte request of the end-to-end scenario the pump has not returned after
any number of steps. -/
theorem stall_bound_counterexample :
    ((mute_read A32V_SPI_SR_OFFSET ()).1 &&& A32V_SPI_SR_RX_EMPTY_MASK ≠ 0) ∧
    (∀ fuel, a32v_spi_txrx_bufs fuel (unit_attach mute_read 4) xfer8 = Exec.fuel) := by
  refine ⟨by decide, fun fuel => ?_⟩
  rw [txrx_bufs_eq, if_neg (by decide)]
  have hm : wrap32 ((u32 xfer8.len / (unit_attach mute_read 4).bytes_per_word : Nat) : Int) =
      ((4 : Nat) : Int) := by decide
  rw [hm]
  cases fuel with
  | zero => rfl
  | succ fuel =>
    rw [batch_loop, if_neg (by decide)]
    have hmin : min (((4 : Nat) : Int)) (txrx_entry (unit_attach mute_read 4) xfer8).buffer_size =
        ((4 : Nat) : Int) := by decide
    simp only [hmin, tx_loop_eq 4 (by decide)]
    by_cases hB : 4 < fuel + 1
    · simp only [if_pos hB]
      have hsr : (reg_read (a32v_spi_tx^[4] (txrx_entry (unit_attach mute_read 4) xfer8))
          A32V_SPI_SR_OFFSET).1 = A32V_SPI_SR_TX_EMPTY_MASK ||| A32V_SPI_SR_RX_EMPTY_MASK := by
        decide
      rw [hsr, mute_drain_never_returns _ _ 4 _ _ (by decide) (by decide)
        ((same_cfg_trans (same_cfg_tx_iter 4 _) (same_cfg_reg_read _ _)).1.trans rfl)]
    · simp only [if_neg hB]
/-! ## Packing and unpacking -/

theorem load_le_lt (n : Nat) : ∀ (mem : List Nat) (off : Nat), load_le n mem off < 256 ^ n := by
  induction n with
  | zero => intro mem off; simp [load_le]
  | succ n ih =>
    intro mem off
    have h1 := ih mem (off + 1)
    have h2 : mem.getD off 0 % 256 < 256 := Nat.mod_lt _ (by decide)
    rw [load_le, pow_succ]
    omega

theorem set_take_drop (X : List Nat) :
    ∀ (Y : List Nat) (off : Nat), off < X.length → Y.length = X.length →
      (X.take off ++ Y.drop off).set off (X.getD off 0) =
        X.take (off + 1) ++ Y.drop (off + 1) := by
  induction X with
  | nil => intro Y off h; simp at h
  | cons x X ih =>
    intro Y off h hY
    cases Y with
    | nil => simp at hY
    | cons y Y =>
      cases off with
      | zero => simp
      | succ off =>
        simp only [List.length_cons, Nat.add_lt_add_iff_right, Nat.add_right_cancel_iff] at h hY
        simp only [List.take_succ_cons, List.drop_succ_cons, List.cons_append, List.set_cons_succ,
          List.getD_cons_succ]
        rw [ih Y off h hY]

theorem store_load (X : List Nat) (hX : ∀ x ∈ X, x < 256) (n : Nat) :
    ∀ (Y : List Nat) (off : Nat), off + n ≤ X.length → Y.length = X.length →
      store_le n (load_le n X off) (X.take off ++ Y.drop off) off =
        X.take (off + n) ++ Y.drop (off + n) := by
  induction n with
  | zero => intro Y off _ _; rfl
  | succ n ih =>
    intro Y off h hY
    have hlt : off < X.length := by omega
    have hb : X.getD off 0 < 256 := by
      rw [List.getD_eq_getElem _ _ hlt]
      exact hX _ (List.getElem_mem _)
    have hmod : (X.getD off 0 % 256 + 256 * load_le n X (off + 1)) % 256 = X.getD off 0 := by
      omega
    have hdiv : (X.getD off 0 % 256 + 256 * load_le n X (off + 1)) / 256 =
        load_le n X (off + 1) := by
      omega
    rw [load_le, store_le, hmod, hdiv, set_take_drop X Y off hlt hY,
      ih Y (off + 1) (by omega) hY]
    congr 2 <;> omega

theorem store_all_words (w : Nat) (X : List Nat) (hX : ∀ x ∈ X, x < 256) (n : Nat) :
    ∀ (Y : List Nat) (off : Nat), off + n * w ≤ X.length → Y.length = X.length →
      store_all w (words_of w X off n) (X.take off ++ Y.drop off) off =
        X.take (off + n * w) ++ Y.drop (off + n * w) := by
  induction n with
  | zero => intro Y off _ _; simp [words_of, store_all]
  | succ n ih =>
    intro Y off h hY
    have h1 : off + w + n * w = off + (n + 1) * w := by
      rw [Nat.add_mul]; omega
    rw [words_of, store_all, store_load X hX w Y off (by omega) hY,
      ih Y (off + w) (by omega) hY, h1]

theorem words_of_length (w : Nat) (X : List Nat) :
    ∀ (n off : Nat), (words_of w X off n).length = n := by
  intro n
  induction n with
  | zero => intro off; rfl
  | succ n ih => intro off; simp [words_of, ih]

theorem words_of_lt (w : Nat) (hw : w ≤ 4) (X : List Nat) :
    ∀ (n off : Nat), ∀ x ∈ words_of w X off n, x < 4294967296 := by
  intro n
  induction n with
  | zero => intro off x hx; simp [words_of] at hx
  | succ n ih =>
    intro off x hx
    simp only [words_of, List.mem_cons] at hx
    rcases hx with rfl | hx
    · calc load_le w X off < 256 ^ w := load_le_lt w X off
        _ ≤ 256 ^ 4 := Nat.pow_le_pow_right (by norm_num) hw
        _ = 4294967296 := by norm_num
    · exact ih _ x hx

/-! ## The driver against the simulated loopback controller -/

theorem loop_tx_step {depth : Nat} {sched : Nat → Nat} {s : axil32v_spi loop_dev} {w : Nat}
    {X : List Nat} {txoff rxoff : Nat} {mem rxq txq : List Nat}
    (h : loop_state depth sched s w X txoff rxoff mem rxq txq)
    (hw : w = 1 ∨ w = 2 ∨ w = 4) (hroom : txq.length < depth) :
    loop_state depth sched (a32v_spi_tx s) w X (txoff + w) rxoff mem rxq
      (txq ++ [load_le w X txoff]) := by
  obtain ⟨h1, h2, h3, h4, h5, h6, h7, h8, h9, h10⟩ := h
  have hlt : load_le w X txoff < 4294967296 := by
    calc load_le w X txoff < 256 ^ w := load_le_lt w X txoff
      _ ≤ 256 ^ 4 := Nat.pow_le_pow_right (by norm_num) (by omega)
      _ = 4294967296 := by norm_num
  have hdata : (if s.bytes_per_word = 1 then load_le 1 s.txmem txoff
      else if s.bytes_per_word = 2 then load_le 2 s.txmem txoff
      else if s.bytes_per_word = 4 then load_le 4 s.txmem txoff
      else 0) = load_le w X txoff := by
    rw [h4, h5]
    rcases hw with rfl | rfl | rfl <;> simp
  unfold a32v_spi_tx
  rw [h6]
  simp only [hdata]
  refine ⟨h1, h2, h3, h4, h5, ?_, h7, h8, ?_, ?_⟩
  · simp only [reg_write, h4]
  · simp only [reg_write, h2, loop_write, if_true]
    rw [h10, if_pos hroom]
    exact h9
  · simp only [reg_write, h2, loop_write, if_true]
    rw [h10, if_pos hroom, u32_of_lt hlt]

theorem loop_rx_step {depth : Nat} {sched : Nat → Nat} {s : axil32v_spi loop_dev} {w : Nat}
    {X : List Nat} {txoff rxoff x : Nat} {mem rxq txq : List Nat}
    (h : loop_state depth sched s w X txoff rxoff mem (x :: rxq) txq)
    (hw : w = 1 ∨ w = 2 ∨ w = 4) (hx : x < 4294967296) :
    loop_state depth sched (a32v_spi_rx s) w X txoff (rxoff + w)
      (store_le w x mem rxoff) rxq txq := by
  obtain ⟨h1, h2, h3, h4, h5, h6, h7, h8, h9, h10⟩ := h
  have hv : (reg_read s A32V_SPI_RXD_OFFSET).1 = x := by
    simp [reg_read, h1, loop_read, h9, u32_of_lt hx]
  have hptr : (reg_read s A32V_SPI_RXD_OFFSET).2.rx_ptr = some rxoff := h7
  have hbw : (reg_read s A32V_SPI_RXD_OFFSET).2.bytes_per_word = w := h4
  have hmem : (reg_read s A32V_SPI_RXD_OFFSET).2.rxmem = mem := h8
  have hregs : (reg_read s A32V_SPI_RXD_OFFSET).2.regs = { s.regs with rxq := rxq } := by
    simp [reg_read, h1, loop_read, h9]
  unfold a32v_spi_rx
  simp only [hptr, hv, hbw, hmem]
  have hstore : (if w = 1 then store_le 1 x mem rxoff
      else if w = 2 then store_le 2 x mem rxoff
      else if w = 4 then store_le 4 x mem rxoff
      else mem) = store_le w x mem rxoff := by
    rcases hw with rfl | rfl | rfl <;> simp
  rw [hstore]
  refine ⟨h1, h2, h3, rfl, h5, h6, rfl, rfl, ?_, ?_⟩
  · show (reg_read s A32V_SPI_RXD_OFFSET).2.regs.rxq = rxq
    rw [hregs]
  · show (reg_read s A32V_SPI_RXD_OFFSET).2.regs.txq = txq
    rw [hregs]
    exact h10

theorem loop_poll_step {depth : Nat} {sched : Nat → Nat} {s : axil32v_spi loop_dev} {w : Nat}
    {X : List Nat} {txoff rxoff : Nat} {mem rxq txq : List Nat}
    (h : loop_state depth sched s w X txoff rxoff mem rxq txq) :
    loop_state depth sched (reg_read s A32V_SPI_SR_OFFSET).2 w X txoff rxoff mem
        (rxq ++ txq.take (sched s.regs.polls)) (txq.drop (sched s.regs.polls)) ∧
      ((reg_read s A32V_SPI_SR_OFFSET).1 &&& A32V_SPI_SR_RX_EMPTY_MASK ≠ 0 ↔
        (rxq ++ txq.take (sched s.regs.polls)).length = 0) ∧
      ((reg_read s A32V_SPI_SR_OFFSET).1 &&& A32V_SPI_SR_TX_EMPTY_MASK ≠ 0 ↔
        (txq.drop (sched s.regs.polls)).length = 0) := by
  obtain ⟨h1, h2, h3, h4, h5, h6, h7, h8, h9, h10⟩ := h
  have hregs : (reg_read s A32V_SPI_SR_OFFSET).2.regs =
      loop_shift (sched s.regs.polls) s.regs := by
    simp only [reg_read, h1, loop_read, if_true]
  have hv : (reg_read s A32V_SPI_SR_OFFSET).1 =
      loop_status depth (loop_shift (sched s.regs.polls) s.regs) := by
    simp only [reg_read, h1, loop_read, if_true]
    exact u32_of_lt (lt_trans (loop_status_lt _ _) (by norm_num))
  have hq1 : (loop_shift (sched s.regs.polls) s.regs).rxq =
      rxq ++ txq.take (sched s.regs.polls) := by
    simp only [loop_shift, h9, h10]
  have hq2 : (loop_shift (sched s.regs.polls) s.regs).txq = txq.drop (sched s.regs.polls) := by
    simp only [loop_shift, h10]
  refine ⟨⟨h1, h2, h3, h4, h5, h6, h7, h8, ?_, ?_⟩, ?_, ?_⟩
  · rw [hregs, hq1]
  · rw [hregs, hq2]
  · rw [hv, loop_status_rx_empty, hq1]
  · rw [hv, loop_status_tx_empty, hq2]

theorem loop_fill {depth : Nat} {sched : Nat → Nat} {w : Nat} {X : List Nat} {rxoff : Nat}
    {mem rxq : List Nat} (hw : w = 1 ∨ w = 2 ∨ w = 4) :
    ∀ (n : Nat) (s : axil32v_spi loop_dev) (txoff : Nat) (txq : List Nat),
      loop_state depth sched s w X txoff rxoff mem rxq txq → txq.length + n ≤ depth →
      loop_state depth sched (a32v_spi_tx^[n] s) w X (txoff + n * w) rxoff mem rxq
        (txq ++ words_of w X txoff n) := by
  intro n
  induction n with
  | zero =>
    intro s txoff txq h _
    simpa [words_of] using h
  | succ n ih =>
    intro s txoff txq h hroom
    have h1 := loop_tx_step h hw (by omega)
    have h2 := ih (a32v_spi_tx s) (txoff + w) (txq ++ [load_le w X txoff]) h1
      (by simp only [List.length_append, List.length_singleton]; omega)
    rw [Function.iterate_succ_apply]
    have e1 : txoff + (n + 1) * w = txoff + w + n * w := by rw [Nat.add_mul]; omega
    have e2 : txq ++ words_of w X txoff (n + 1) =
        txq ++ [load_le w X txoff] ++ words_of w X (txoff + w) n := by
      simp [words_of]
    rw [e1, e2]
    exact h2

theorem loop_drain {depth : Nat} {sched : Nat → Nat} {w : Nat} {X : List Nat} {txoff : Nat}
    (hw : w = 1 ∨ w = 2 ∨ w = 4) (hsched : ∀ k, 1 ≤ sched k) (n : Int) :
    ∀ (P : List Nat) (F : Nat) (stalled : Int) (sr : Nat) (s : axil32v_spi loop_dev)
      (rxoff : Nat) (mem rxq txq : List Nat),
      loop_state depth sched s w X txoff rxoff mem rxq txq → rxq ++ txq = P →
      (∀ x ∈ P, x < 4294967296) → P.length < F → P.length < 2147483648 →
      (P.length : Int) ≤ n →
      (sr &&& A32V_SPI_SR_TX_EMPTY_MASK ≠ 0 → txq = []) →
      ((P.length : Int) = n → sr &&& A32V_SPI_SR_RX_EMPTY_MASK = 0) →
      ∃ s1, drain_loop n F (P.length : Int) stalled sr s = Exec.ret (none, s1) ∧
        loop_state depth sched s1 w X txoff (rxoff + P.length * w)
          (store_all w P mem rxoff) [] [] := by
  intro P
  induction P with
  | nil =>
    intro F stalled sr s rxoff mem rxq txq h hP _ hF _ _ _ _
    obtain ⟨F, rfl⟩ : ∃ F1, F = F1 + 1 := ⟨F - 1, by simp at hF; omega⟩
    obtain ⟨hr, ht⟩ := List.append_eq_nil.mp hP
    subst hr ht
    refine ⟨s, ?_, ?_⟩
    · simp [drain_loop]
    · simpa [store_all] using h
  | cons x P ih =>
    intro F stalled sr s rxoff mem rxq txq h hP hlt hF h31 hle h4 h1
    simp only [List.length_cons] at hF h31 hle h1 ⊢
    obtain ⟨F, rfl⟩ : ∃ F1, F = F1 + 1 := ⟨F - 1, by omega⟩
    have hx : x < 4294967296 := hlt x (List.mem_cons_self _ _)
    have hlt' : ∀ y ∈ P, y < 4294967296 := fun y hy => hlt y (List.mem_cons_of_mem _ hy)
    have hwrap : wrap32 (((P.length + 1 : Nat) : Int) - 1) = (P.length : Int) := by
      rw [wrap32_of_range (by omega) (by omega)]
      omega
    have hoff : rxoff + w + P.length * w = rxoff + (P.length + 1) * w := by
      rw [Nat.add_mul]; omega
    have hnostall : ¬ (((P.length + 1 : Nat) : Int) = n ∧ stalled = 0 ∧
        sr &&& A32V_SPI_SR_TX_EMPTY_MASK = 0 ∧ sr &&& A32V_SPI_SR_RX_EMPTY_MASK ≠ 0) :=
      fun hc => hc.2.2.2 (h1 hc.1)
    rw [drain_loop, if_neg (by omega)]
    simp only
    rw [if_neg hnostall, hwrap]
    by_cases hfast : sr &&& A32V_SPI_SR_TX_EMPTY_MASK ≠ 0 ∧ ((P.length + 1 : Nat) : Int) > 1
    · rw [if_pos hfast]
      have ht := h4 hfast.1
      subst ht
      rw [List.append_nil] at hP
      subst hP
      have hs := loop_rx_step h hw hx
      obtain ⟨s1, k1, k2⟩ := ih F _ sr (a32v_spi_rx s) (rxoff + w) _ P [] hs
        (List.append_nil P) hlt' (by omega) (by omega) (by omega) (fun _ => rfl)
        (fun hc => absurd hc (by omega))
      refine ⟨s1, k1, ?_⟩
      rw [store_all, ← hoff]
      exact k2
    · rw [if_neg hfast]
      obtain ⟨hp, hrx, htx⟩ := loop_poll_step h
      have hj := hsched s.regs.polls
      have hne : rxq ++ txq.take (sched s.regs.polls) ≠ [] := by
        intro hc
        obtain ⟨hr, ht⟩ := List.append_eq_nil.mp hc
        subst hr
        rw [List.nil_append] at hP
        subst hP
        obtain ⟨j, hj'⟩ : ∃ j, sched s.regs.polls = j + 1 := ⟨sched s.regs.polls - 1, by omega⟩
        rw [hj'] at ht
        simp at ht
      have hsplit : (rxq ++ txq.take (sched s.regs.polls)) ++ txq.drop (sched s.regs.polls) =
          x :: P := by
        rw [List.append_assoc, List.take_append_drop]
        exact hP
      obtain ⟨R, hR⟩ : ∃ R, rxq ++ txq.take (sched s.regs.polls) = x :: R := by
        cases hq : rxq ++ txq.take (sched s.regs.polls) with
        | nil => exact absurd hq hne
        | cons y R =>
          rw [hq] at hsplit
          simp only [List.cons_append, List.cons.injEq] at hsplit
          exact ⟨R, by rw [hsplit.1]⟩
      have hRP : R ++ txq.drop (sched s.regs.polls) = P := by
        rw [hR] at hsplit
        simp only [List.cons_append, List.cons.injEq] at hsplit
        exact hsplit.2
      have hrx0 : (reg_read s A32V_SPI_SR_OFFSET).1 &&& A32V_SPI_SR_RX_EMPTY_MASK = 0 := by
        by_contra hc
        exact hne (List.length_eq_zero.mp (hrx.mp hc))
      rw [if_pos hrx0]
      rw [hR] at hp
      have hs := loop_rx_step hp hw hx
      obtain ⟨s1, k1, k2⟩ := ih F _ (reg_read s A32V_SPI_SR_OFFSET).1
        (a32v_spi_rx (reg_read s A32V_SPI_SR_OFFSET).2) (rxoff + w) _ R _ hs
        hRP hlt' (by omega) (by omega) (by omega)
        (fun hc => List.length_eq_zero.mp (htx.mp hc))
        (fun hc => absurd hc (by omega))
      refine ⟨s1, k1, ?_⟩
      rw [store_all, ← hoff]
      exact k2

theorem loop_batches {depth : Nat} {sched : Nat → Nat} {w : Nat} (hw : w = 1 ∨ w = 2 ∨ w = 4)
    (hsched : ∀ k, 1 ≤ sched k) (hd : 1 ≤ depth) (hd31 : depth < 2147483648)
    (X Y : List Nat) (hX : ∀ x ∈ X, x < 256) (hY : Y.length = X.length) (len budget : Nat) :
    ∀ (fuel m : Nat) (s : axil32v_spi loop_dev) (off : Nat),
      loop_state depth sched s w X off off (X.take off ++ Y.drop off) [] [] →
      off + m * w = X.length → m < 2147483648 → m < fuel → m < budget →
      ∃ s1, batch_loop len budget fuel (m : Int) s = Exec.ret (wrap32 (u32 len), s1) ∧
        s1.rxmem = X := by
  intro fuel
  induction fuel with
  | zero => intro m s off _ _ _ hf _; omega
  | succ fuel ih =>
    intro m s off h hoff hm hf hB
    by_cases hm0 : m = 0
    · subst hm0
      refine ⟨s, by simp [batch_loop], ?_⟩
      have hoff' : off = X.length := by omega
      rw [h.2.2.2.2.2.2.2.1, hoff', List.take_length, List.drop_of_length_le (le_of_eq hY),
        List.append_nil]
    · have hn1 : 1 ≤ min m depth := by omega
      have hn31 : min m depth < 2147483648 := by omega
      have hmin : min (m : Int) s.buffer_size = ((min m depth : Nat) : Int) := by
        rw [h.2.2.1]
        omega
      have hfill := loop_fill hw (min m depth) s off [] h (by simp)
      rw [List.nil_append] at hfill
      obtain ⟨hp, hrx, htx⟩ := loop_poll_step hfill
      have hj := hsched (a32v_spi_tx^[min m depth] s).regs.polls
      have hWlen := words_of_length w X (min m depth) off
      have hbound : off + min m depth * w ≤ X.length := by
        rcases hw with rfl | rfl | rfl <;> omega
      have hne : ([] : List Nat) ++
          (words_of w X off (min m depth)).take
            (sched (a32v_spi_tx^[min m depth] s).regs.polls) ≠ [] := by
        intro hc
        have hl := congrArg List.length hc
        simp only [List.nil_append, List.length_take, hWlen, List.length_nil] at hl
        omega
      obtain ⟨s2, k1, k2⟩ := loop_drain hw hsched ((min m depth : Nat) : Int)
        (words_of w X off (min m depth)) budget
        (wrap32 (10 * (reg_read (a32v_spi_tx^[min m depth] s) A32V_SPI_SR_OFFSET).2.sclk_prescale))
        (reg_read (a32v_spi_tx^[min m depth] s) A32V_SPI_SR_OFFSET).1
        (reg_read (a32v_spi_tx^[min m depth] s) A32V_SPI_SR_OFFSET).2 off _ _ _ hp
        (by rw [List.append_assoc, List.take_append_drop, List.nil_append])
        (words_of_lt w (by omega) X _ _) (by omega) (by omega) (by omega)
        (fun hc => List.length_eq_zero.mp (htx.mp hc))
        (fun _ => by
          by_contra hc
          exact hne (List.length_eq_zero.mp (hrx.mp hc)))
      rw [hWlen] at k1 k2
      have hwrap : wrap32 ((m : Int) - ((min m depth : Nat) : Int)) =
          ((m - min m depth : Nat) : Int) := by
        rw [wrap32_of_range (by omega) (by omega)]
        omega
      rw [store_all_words w X hX (min m depth) Y off hbound hY] at k2
      obtain ⟨s3, k3, k4⟩ := ih (m - min m depth) s2 (off + min m depth * w) k2
        (by rcases hw with rfl | rfl | rfl <;> omega) (by omega) (by omega) (by omega)
      refine ⟨s3, ?_, k4⟩
      rw [batch_loop, if_neg (by omega)]
      simp only [hmin, tx_loop_eq _ hn31, if_pos (show min m depth < budget by omega), k1, hwrap]
      exact k3

theorem setup_transfer_loop_state (depth : Nat) (sched : Nat → Nat) (s : axil32v_spi loop_dev)
    (t : spi_transfer) (X Y : List Nat) (htx : t.tx_buf = some X) (hrx : t.rx_buf = some Y)
    (hdev : s.read_fn = loop_read depth sched ∧ s.write_fn = loop_write depth ∧
      s.buffer_size = (depth : Int) ∧ s.regs.txq = [] ∧ s.regs.rxq = []) :
    loop_state depth sched (txrx_entry (a32v_spi_setup_transfer s (some t)).2 t)
      ((a32v_spi_bytes_per_word t.bits_per_word).toNat % 256) X 0 0 Y [] [] := by
  obtain ⟨h1, h2, h3, h4, h5⟩ := hdev
  refine ⟨h1, h2, h3, rfl, ?_, ?_, ?_, ?_, ?_, ?_⟩
  · simp [txrx_entry, htx]
  · simp [txrx_entry, htx]
  · simp [txrx_entry, hrx]
  · simp [txrx_entry, hrx]
  · simp [txrx_entry, a32v_spi_setup_transfer, reg_read, reg_write, h1, h2, loop_read,
      loop_write, h5]
  · simp [txrx_entry, a32v_spi_setup_transfer, reg_read, reg_write, h1, h2, loop_read,
      loop_write, h4]

/-- C1. Packing round trip: for every bits-per-word `b` (the values 1, 7, 8,
9, 16, 17, 24 and 32 among them), every FIFO depth of at least 1, every
transmit buffer `X` of bytes whose length is a multiple of the derived packing
width and every receive buffer `Y` of the same length,
`a32v_spi_setup_transfer` followed by `a32v_spi_txrx_bufs` against the
simulated loopback controller (FIFOs empty at the start, at least one pending
word shifted per status poll) terminates (any step budget above `len + 1`
suffices), returns `len` and leaves `X` in the receive buffer. -/
theorem packing_round_trip (depth fuel b : Nat) (sched : Nat → Nat)
    (s : axil32v_spi loop_dev) (X Y : List Nat)
    (hdepth : 1 ≤ depth ∧ depth < 2147483648) (hsched : ∀ k, 1 ≤ sched k)
    (hdev : s.read_fn = loop_read depth sched ∧ s.write_fn = loop_write depth ∧
      s.buffer_size = (depth : Int) ∧ s.regs.txq = [] ∧ s.regs.rxq = [])
    (hX : ∀ x ∈ X, x < 256) (hY : Y.length = X.length)
    (hmul : (a32v_spi_bytes_per_word b).toNat ∣ X.length) (hlen : X.length < 2147483648)
    (hfuel : X.length + 2 ≤ fuel) :
    ∃ s1,
      a32v_spi_txrx_bufs fuel
        (a32v_spi_setup_transfer s
          (some { tx_buf := some X, rx_buf := some Y, len := X.length, bits_per_word := b })).2
        { tx_buf := some X, rx_buf := some Y, len := X.length, bits_per_word := b } =
        Exec.ret ((X.length : Int), s1) ∧
      s1.rxmem = X := by
  have hw : (a32v_spi_bytes_per_word b).toNat = 1 ∨ (a32v_spi_bytes_per_word b).toNat = 2 ∨
      (a32v_spi_bytes_per_word b).toNat = 4 := by
    unfold a32v_spi_bytes_per_word
    split_ifs <;> simp
  have hw256 : (a32v_spi_bytes_per_word b).toNat % 256 = (a32v_spi_bytes_per_word b).toNat := by
    rcases hw with h | h | h <;> rw [h]
  generalize hwdef : (a32v_spi_bytes_per_word b).toNat = w at *
  have hst := setup_transfer_loop_state depth sched s
    { tx_buf := some X, rx_buf := some Y, len := X.length, bits_per_word := b } X Y rfl rfl hdev
  simp only [hwdef, hw256] at hst
  obtain ⟨q, hq⟩ := hmul
  have hdivq : X.length / w = q := by
    rw [hq]
    exact Nat.mul_div_cancel_left q (by omega)
  have hqle : q ≤ X.length := by
    rw [← hdivq]
    exact Nat.div_le_self _ _
  have hu : u32 X.length = X.length := u32_of_lt (by omega)
  obtain ⟨s1, k1, k2⟩ := loop_batches hw hsched hdepth.1 hdepth.2 X Y hX hY X.length fuel fuel q
    _ 0 (by simpa using hst) (by rw [hq, Nat.mul_comm]; omega) (by omega) (by omega) (by omega)
  refine ⟨s1, ?_, k2⟩
  rw [txrx_bufs_eq]
  have hbw : (a32v_spi_setup_transfer s
      (some { tx_buf := some X, rx_buf := some Y, len := X.length, bits_per_word := b })).2.bytes_per_word
      = w := by
    show (a32v_spi_bytes_per_word b).toNat % 256 = w
    rw [hwdef, hw256]
  rw [hbw, if_neg (by omega)]
  simp only [hu, hdivq]
  rw [wrap32_of_range (by omega) (by omega)]
  rw [hu, wrap32_of_range (by omega) (by omega)] at k1
  exact k1

theorem packing_round_trip_witness :
    ((1 ≤ 2 ∧ 2 < 2147483648) ∧ (∀ x ∈ [0x01, 0x02, 0x03, 0x04], x < 256) ∧
      (a32v_spi_bytes_per_word 8).toNat ∣ [0x01, 0x02, 0x03, 0x04].length) ∧
    ∃ s1, a32v_spi_txrx_bufs 6 loop_ready8 xfer8 = Exec.ret (4, s1) ∧
      s1.rxmem = [0x01, 0x02, 0x03, 0x04] :=
  ⟨by decide,
    packing_round_trip 2 6 8 (fun _ => 1) (loop_attach 2 (fun _ => 1) 4)
      [0x01, 0x02, 0x03, 0x04] [0, 0, 0, 0] (by decide) (fun _ => le_refl 1)
      ⟨rfl, rfl, rfl, rfl, rfl⟩ (by decide) rfl (by decide) (by decide) (by decide)⟩
/-! ## Attach: configuration check, identity, byte order, prescale field -/

theorem probe_check_none_iff (p cs : Int) :
    probe_check p cs = none ↔ (p ≠ 0 ∧ (4 : Int) ∣ p ∧ cs ≠ 0 ∧ cs ≤ 32) := by
  have hdvd : Int.tmod p 4 ≠ 0 ↔ ¬ (4 : Int) ∣ p := by
    rw [Int.dvd_iff_tmod_eq_zero]
  have hmax : cs > AXIL32_VERILOG_SPI_MAX_CS ↔ ¬ cs ≤ 32 := by
    have : AXIL32_VERILOG_SPI_MAX_CS = 32 := rfl
    omega
  unfold probe_check
  simp only [hdvd, hmax]
  by_cases h1 : p = 0 <;> by_cases h2 : (4 : Int) ∣ p <;> by_cases h3 : cs = 0 <;>
    by_cases h4 : cs ≤ 32 <;> simp [h1, h2, h3, h4]

theorem probe_check_some (p cs : Int) (h : probe_check p cs ≠ none) :
    probe_check p cs = some (- EINVAL) := by
  unfold probe_check at h ⊢
  split_ifs at h ⊢ <;> first | rfl | exact absurd rfl h

/-- The configuration check characterised: the pair of `int` values
`(sclk_prescale, num_cs)` passes the check of `a32v_spi_probe` iff
`sclk_prescale` is a non-zero multiple of 4 and `num_cs` is non-zero and at
most 32; among non-negative values this is: `sclk_prescale` is a positive
multiple of 4 and `1 ≤ num_cs ≤ 32`.  Whenever the pair does not pass, the probe
returns `-EINVAL` having made no register access and with the device state
untouched. -/
theorem probe_check_spec (fuel : Nat) (pd : platform σ) :
    (probe_check pd.sclk_prescale pd.num_cs = none ↔
      (pd.sclk_prescale ≠ 0 ∧ (4 : Int) ∣ pd.sclk_prescale ∧
        pd.num_cs ≠ 0 ∧ pd.num_cs ≤ 32)) ∧
    ((0 ≤ pd.sclk_prescale ∧ 0 ≤ pd.num_cs) →
      (probe_check pd.sclk_prescale pd.num_cs = none ↔
        (0 < pd.sclk_prescale ∧ (4 : Int) ∣ pd.sclk_prescale ∧
          1 ≤ pd.num_cs ∧ pd.num_cs ≤ 32))) ∧
    (probe_check pd.sclk_prescale pd.num_cs ≠ none →
      ∃ s1, a32v_spi_probe fuel pd = Exec.ret (- EINVAL, s1) ∧
        s1.trace = [] ∧ s1.regs = pd.regs) := by
  refine ⟨probe_check_none_iff _ _, ?_, ?_⟩
  · intro hnn
    rw [probe_check_none_iff]
    constructor
    · intro h
      exact ⟨by omega, h.2.1, by omega, h.2.2.2⟩
    · intro h
      exact ⟨by omega, h.2.1, by omega, h.2.2.2⟩
  · intro h
    refine ⟨probe_blank pd, ?_, rfl, rfl⟩
    unfold a32v_spi_probe
    rw [probe_check_some _ _ h]

/-- C11, evaluated at the failing inputs: the device-tree values
`num-ss-bits = 0xFFFFFFFF`, `sclk-prescale = 4` reach the check as
`num_cs = -1`, `sclk_prescale = 4`; the check lets them pass although `num_cs`
is not in 1..32, and the probe goes on to access the device and returns 0.  The
same happens for `sclk-prescale = 0xFFFFFFFC`, which reaches the check as
`sclk_prescale = -4`. -/
theorem configuration_check_passes_negative :
    wrap32 0xFFFFFFFF = -1 ∧ probe_check 4 (-1) = none ∧ ¬ (1 ≤ (-1 : Int)) ∧
    (a32v_spi_probe 10 (loop_platform 3 4 (-1))).value = some 0 ∧
    (a32v_spi_probe 10 (loop_platform 3 4 (-1))).accesses ≠ some [] ∧
    wrap32 0xFFFFFFFC = -4 ∧ probe_check (-4) 1 = none ∧ ¬ (0 < (-4 : Int)) ∧
    (a32v_spi_probe 10 (loop_platform 3 (-4) 1)).value = some 0 := by
  decide

/-- C12. Identity verification: `a32v_spi_verify_idrev` returns non-zero iff
the value read from the identity register differs from `0x294EC100`; on a
mismatch it returns 1 having made that single read (the revision register is
not read), and on a match it returns 0 after reading the revision register,
whatever value that read delivers. -/
theorem identity_verification (s : axil32v_spi σ) :
    ((a32v_spi_verify_idrev s).1 ≠ 0 ↔ (reg_read s A32V_SPI_ID_OFFSET).1 ≠ A32V_SPI_ID) ∧
    ((reg_read s A32V_SPI_ID_OFFSET).1 ≠ A32V_SPI_ID →
      (a32v_spi_verify_idrev s).1 = 1 ∧
      (a32v_spi_verify_idrev s).2.trace =
        Access.rd A32V_SPI_ID_OFFSET (reg_read s A32V_SPI_ID_OFFSET).1 :: s.trace) ∧
    ((reg_read s A32V_SPI_ID_OFFSET).1 = A32V_SPI_ID →
      (a32v_spi_verify_idrev s).1 = 0 ∧
      (a32v_spi_verify_idrev s).2.trace =
        Access.rd A32V_SPI_REV_OFFSET
          (u32 (s.read_fn A32V_SPI_REV_OFFSET (s.read_fn A32V_SPI_ID_OFFSET s.regs).2).1) ::
        Access.rd A32V_SPI_ID_OFFSET A32V_SPI_ID :: s.trace) := by
  by_cases h : (reg_read s A32V_SPI_ID_OFFSET).1 = A32V_SPI_ID
  · have e : a32v_spi_verify_idrev s =
        (0, (reg_read (reg_read s A32V_SPI_ID_OFFSET).2 A32V_SPI_REV_OFFSET).2) := by
      unfold a32v_spi_verify_idrev
      simp only [h, ne_eq, not_true_eq_false, if_false]
    refine ⟨?_, fun h' => absurd h h', fun _ => ?_⟩
    · rw [e]
      simp [h]
    · rw [e]
      refine ⟨rfl, ?_⟩
      have ht : (reg_read s A32V_SPI_ID_OFFSET).2.trace =
          Access.rd A32V_SPI_ID_OFFSET (reg_read s A32V_SPI_ID_OFFSET).1 :: s.trace := rfl
      show Access.rd A32V_SPI_REV_OFFSET _ :: (reg_read s A32V_SPI_ID_OFFSET).2.trace = _
      rw [ht, h]
      rfl
  · have e : a32v_spi_verify_idrev s = (1, (reg_read s A32V_SPI_ID_OFFSET).2) := by
      unfold a32v_spi_verify_idrev
      simp only [ne_eq, h, not_false_eq_true, if_true]
    refine ⟨?_, fun _ => ?_, fun h' => absurd h' h⟩
    · rw [e]
      simp [h]
    · rw [e]
      exact ⟨rfl, rfl⟩

theorem and_one_ne_one_iff (v : Nat) :
    v &&& A32V_SPI_CTR_LOOP ≠ A32V_SPI_CTR_LOOP ↔ v &&& A32V_SPI_CTR_LOOP = 0 := by
  rw [show A32V_SPI_CTR_LOOP = 1 from rfl, Nat.and_one_is_mod]
  omega

theorem probe_endianness_decision (ioread32 : Nat → σ → Nat × σ)
    (iowrite32 : Nat → Nat → σ → σ) (s : axil32v_spi σ) :
    ((probe_endianness ioread32 iowrite32 s).1 = true ↔
      u32 (ioread32 A32V_SPI_CTR_OFFSET
        (iowrite32 A32V_SPI_CTR_LOOP A32V_SPI_CTR_OFFSET s.regs)).1 &&& A32V_SPI_CTR_LOOP = 0) := by
  rw [← and_one_ne_one_iff]
  unfold probe_endianness
  simp only [reg_read, reg_write, a32v_spi_read32, a32v_spi_write32]
  split
  · rename_i h
    simp only [true_iff]
    exact h
  · rename_i h
    simp only [Bool.false_eq_true, false_iff]
    exact h

theorem probe_endianness_regs (ioread32 : Nat → σ → Nat × σ)
    (iowrite32 : Nat → Nat → σ → σ) (s : axil32v_spi σ) :
    (probe_endianness ioread32 iowrite32 s).2.regs =
      (ioread32 A32V_SPI_CTR_OFFSET
        (iowrite32 A32V_SPI_CTR_LOOP A32V_SPI_CTR_OFFSET s.regs)).2 ∧
    (probe_endianness ioread32 iowrite32 s).2.trace =
      Access.rd A32V_SPI_CTR_OFFSET (u32 (ioread32 A32V_SPI_CTR_OFFSET
        (iowrite32 A32V_SPI_CTR_LOOP A32V_SPI_CTR_OFFSET s.regs)).1) ::
      Access.wr A32V_SPI_CTR_OFFSET A32V_SPI_CTR_LOOP :: s.trace := by
  unfold probe_endianness
  simp only [reg_read, reg_write, a32v_spi_read32, a32v_spi_write32]
  split <;> exact ⟨rfl, rfl⟩

theorem probe_endianness_accessors (ioread32 : Nat → σ → Nat × σ)
    (iowrite32 : Nat → Nat → σ → σ) (s : axil32v_spi σ) :
    ((probe_endianness ioread32 iowrite32 s).1 = true →
      (probe_endianness ioread32 iowrite32 s).2.read_fn = a32v_spi_read32_be ioread32 ∧
      (probe_endianness ioread32 iowrite32 s).2.write_fn = a32v_spi_write32_be iowrite32) ∧
    ((probe_endianness ioread32 iowrite32 s).1 = false →
      (probe_endianness ioread32 iowrite32 s).2.read_fn = a32v_spi_read32 ioread32 ∧
      (probe_endianness ioread32 iowrite32 s).2.write_fn = a32v_spi_write32 iowrite32) := by
  unfold probe_endianness
  simp only [reg_read, reg_write]
  split
  · exact ⟨fun _ => ⟨rfl, rfl⟩, fun h => absurd h (by simp)⟩
  · exact ⟨fun h => absurd h (by simp), fun _ => ⟨rfl, rfl⟩⟩

/-- C14, the claim as amended. Endianness probe: the detection in
`a32v_spi_probe` makes two accesses, both through the native accessors, a write
of the loopback bit (0x01) to the control register and a read of the control
register; it decides for big endian iff bit 0 is absent from the value read
back, and it installs the byte-swapping accessors exactly in that case.  For
every device whose control register, read right after 0x01 has been written to
it, delivers a value that does not depend on the device's earlier state,
running the detection twice in a row yields the same decision both times. -/
theorem endianness_probe (ioread32 : Nat → σ → Nat × σ) (iowrite32 : Nat → Nat → σ → σ)
    (s : axil32v_spi σ) :
    (probe_endianness ioread32 iowrite32 s).2.regs =
      (ioread32 A32V_SPI_CTR_OFFSET
        (iowrite32 A32V_SPI_CTR_LOOP A32V_SPI_CTR_OFFSET s.regs)).2 ∧
    (probe_endianness ioread32 iowrite32 s).2.trace =
      Access.rd A32V_SPI_CTR_OFFSET (u32 (ioread32 A32V_SPI_CTR_OFFSET
        (iowrite32 A32V_SPI_CTR_LOOP A32V_SPI_CTR_OFFSET s.regs)).1) ::
      Access.wr A32V_SPI_CTR_OFFSET A32V_SPI_CTR_LOOP :: s.trace ∧
    ((probe_endianness ioread32 iowrite32 s).1 = true ↔
      u32 (ioread32 A32V_SPI_CTR_OFFSET
        (iowrite32 A32V_SPI_CTR_LOOP A32V_SPI_CTR_OFFSET s.regs)).1 &&& A32V_SPI_CTR_LOOP = 0) ∧
    ((probe_endianness ioread32 iowrite32 s).1 = true →
      (probe_endianness ioread32 iowrite32 s).2.read_fn = a32v_spi_read32_be ioread32 ∧
      (probe_endianness ioread32 iowrite32 s).2.write_fn = a32v_spi_write32_be iowrite32) ∧
    ((probe_endianness ioread32 iowrite32 s).1 = false →
      (probe_endianness ioread32 iowrite32 s).2.read_fn = a32v_spi_read32 ioread32 ∧
      (probe_endianness ioread32 iowrite32 s).2.write_fn = a32v_spi_write32 iowrite32) ∧
    ((∀ r r1, (ioread32 A32V_SPI_CTR_OFFSET
          (iowrite32 A32V_SPI_CTR_LOOP A32V_SPI_CTR_OFFSET r)).1 =
        (ioread32 A32V_SPI_CTR_OFFSET
          (iowrite32 A32V_SPI_CTR_LOOP A32V_SPI_CTR_OFFSET r1)).1) →
      (probe_endianness ioread32 iowrite32 (probe_endianness ioread32 iowrite32 s).2).1 =
        (probe_endianness ioread32 iowrite32 s).1) := by
  refine ⟨(probe_endianness_regs _ _ s).1, (probe_endianness_regs _ _ s).2,
    probe_endianness_decision _ _ s, (probe_endianness_accessors _ _ s).1,
    (probe_endianness_accessors _ _ s).2, fun hreg => ?_⟩
  have h1 := probe_endianness_decision ioread32 iowrite32 s
  have h2 := probe_endianness_decision ioread32 iowrite32 (probe_endianness ioread32 iowrite32 s).2
  rw [hreg _ s.regs] at h2
  cases ha : (probe_endianness ioread32 iowrite32 s).1 <;>
    cases hb : (probe_endianness ioread32 iowrite32
      (probe_endianness ioread32 iowrite32 s).2).1 <;>
    simp_all

/-- C14, the claim as stated fails: the parity device is deterministic, yet
the detection decides for little endian on the first run and for big endian on
the run right after it. -/
theorem endianness_probe_counterexample :
    (probe_endianness parity_read parity_write parity_attach).1 = false ∧
    (probe_endianness parity_read parity_write
      (probe_endianness parity_read parity_write parity_attach).2).1 = true := by
  decide

theorem endianness_probe_witness :
    (∀ r r1 : loop_dev, (loop_read 2 (fun _ => 0) A32V_SPI_CTR_OFFSET
          (loop_write 2 A32V_SPI_CTR_LOOP A32V_SPI_CTR_OFFSET r)).1 =
        (loop_read 2 (fun _ => 0) A32V_SPI_CTR_OFFSET
          (loop_write 2 A32V_SPI_CTR_LOOP A32V_SPI_CTR_OFFSET r1)).1) ∧
    (probe_endianness (loop_read 2 (fun _ => 0)) (loop_write 2)
      (probe_endianness (loop_read 2 (fun _ => 0)) (loop_write 2)
        (loop_attach 2 (fun _ => 0) 4)).2).1 =
      (probe_endianness (loop_read 2 (fun _ => 0)) (loop_write 2)
        (loop_attach 2 (fun _ => 0) 4)).1 :=
  ⟨fun r r1 => by simp [loop_read, loop_write],
    (endianness_probe (loop_read 2 (fun _ => 0)) (loop_write 2)
      (loop_attach 2 (fun _ => 0) 4)).2.2.2.2.2
      (fun r r1 => by simp [loop_read, loop_write])⟩

theorem int_to_u32_shift (p : Int) :
    int_to_u32 (wrap32 (p * 2 ^ A32V_SPI_CTR_CLKPRSCL_OFFSET)) = (p % 65536).toNat <<< 16 := by
  rw [int_to_u32_wrap32, Nat.shiftLeft_eq]
  unfold int_to_u32
  have h : p * 2 ^ A32V_SPI_CTR_CLKPRSCL_OFFSET = p * 65536 := by norm_num
  rw [h]
  omega

theorem testBit_init_ctr_any (p : Int) (w j : Nat) (hw : w < 32) :
    (init_ctr p w).testBit j =
      ((decide (16 ≤ j) && ((p % 65536).toNat).testBit (j - 16)) ||
        (decide (11 ≤ j) && w.testBit (j - 11)) || decide (j = 5) || decide (j = 1)) := by
  have hq : (p % 65536).toNat < 65536 := by omega
  unfold init_ctr
  rw [int_to_u32_shift, show A32V_SPI_CTR_MANUAL_SSELECT = 2 ^ 5 by decide,
    show A32V_SPI_CTR_ENABLE = 2 ^ 1 by decide]
  simp only [testBit_u32, Nat.testBit_or, Nat.testBit_shiftLeft, Nat.testBit_two_pow,
    Nat.zero_testBit, Bool.false_or]
  by_cases h32 : j < 32
  · simp [h32, eq_comm]
  · have hn' : ((p % 65536).toNat).testBit (j - 16) = false := by
      apply Nat.testBit_lt_two_pow
      calc (p % 65536).toNat < 2 ^ 16 := by norm_num; exact hq
        _ ≤ 2 ^ (j - 16) := Nat.pow_le_pow_right (by norm_num) (by omega)
    have hw' : w.testBit (j - 11) = false := by
      apply Nat.testBit_lt_two_pow
      calc w < 2 ^ 5 := by omega
        _ ≤ 2 ^ (j - 11) := Nat.pow_le_pow_right (by norm_num) (by omega)
    simp [h32, hn', hw']
    omega

theorem init_ctr_field (p : Int) (w : Nat) (hw : w < 32) :
    init_ctr p w >>> 16 = (p % 65536).toNat := by
  have hq : (p % 65536).toNat < 65536 := by omega
  apply Nat.eq_of_testBit_eq
  intro i
  rw [Nat.testBit_shiftRight, testBit_init_ctr_any p w _ hw]
  have hwz : w.testBit (16 + i - 11) = false :=
    Nat.testBit_lt_two_pow (lt_of_lt_of_le (show w < 2 ^ 5 by omega)
      (Nat.pow_le_pow_right (by norm_num) (by omega)))
  have h5 : ¬ 16 + i = 5 := by omega
  have h1 : ¬ 16 + i = 1 := by omega
  simp [hwz, h5, h1]

theorem init_ctr_low (p : Int) (w : Nat) (hw : w < 32) :
    init_ctr p w % 65536 = (w <<< 11) ||| 0x22 := by
  apply Nat.eq_of_testBit_eq
  intro i
  rw [show (65536 : Nat) = 2 ^ 16 by norm_num, Nat.testBit_mod_two_pow,
    testBit_init_ctr_any p w _ hw, show (0x22 : Nat) = 2 ^ 5 ||| 2 ^ 1 by decide]
  simp only [Nat.testBit_or, Nat.testBit_shiftLeft, Nat.testBit_two_pow]
  by_cases h16 : i < 16
  · have h : ¬ 16 ≤ i := by omega
    simp [h16, h, eq_comm, Bool.or_assoc]
  · have hwz : w.testBit (i - 11) = false :=
      Nat.testBit_lt_two_pow (lt_of_lt_of_le (show w < 2 ^ 5 by omega)
        (Nat.pow_le_pow_right (by norm_num) (by omega)))
    have h5 : ¬ 5 = i := by omega
    have h1 : ¬ 1 = i := by omega
    simp [h16, hwz, h5, h1]

/-- The prescale field of the control value written by `a32v_spi_init_hw`, for
every `int` prescale `p` and every packing width below 32: the value written
last has clock-prescale field (bits 16-31) `p mod 2^16` and bits 0-15 equal to
`(w << 11) | 0x22`, whatever `p` is; hence the field equals the configured
prescale iff `0 ≤ p < 65536`. -/
theorem init_hw_prescale_field (s : axil32v_spi σ) (p : Int) (w : Nat) (hw : w < 32)
    (hps : s.sclk_prescale = p) (hws : s.bytes_per_word = w) :
    ∃ cr ssr, (a32v_spi_init_hw s).trace =
        Access.wr A32V_SPI_CTR_OFFSET cr :: Access.wr A32V_SPI_SSR_OFFSET ssr ::
        Access.wr A32V_SPI_RESETR_OFFSET A32V_SPI_RESET_VECTOR :: s.trace ∧
      cr < 4294967296 ∧
      ((cr >>> 16 : Nat) : Int) = p % 65536 ∧
      cr % 65536 = (w <<< 11) ||| 0x22 ∧
      (((cr >>> 16 : Nat) : Int) = p ↔ (0 ≤ p ∧ p < 65536)) := by
  refine ⟨init_ctr p w, 0xffff, ?_, u32_lt _, ?_, init_ctr_low p w hw, ?_⟩
  · rw [init_hw_trace, hps, hws]
  · rw [init_ctr_field p w hw]
    omega
  · rw [init_ctr_field p w hw]
    omega

/-- C19, evaluated at the failing input.  The device-tree value
`sclk-prescale = 0xFFFFFFFC` reaches the configuration check as
`sclk_prescale = -4`; the check lets it pass, and the probe writes the control
value `0xFFFC0022`: its prescale field 65532 is `-4 mod 2^16`, but it is not
the configured prescale although `-4 < 65536`.  For every prescale that is not
negative, and every packing width below 32, the claim holds as it is stated:
the control value written last by `a32v_spi_init_hw` has the prescale field
`p mod 2^16` and bits 0-15 equal to `(w << 11) | 0x22` whatever `p` is, the
field equals `p` iff `p < 65536`, and the check accepts 65536, which yields the
field 0. -/
theorem prescale_field_of_negative_prescale :
    (wrap32 0xFFFFFFFC = -4 ∧ probe_check (-4) 1 = none ∧ (-4 : Int) < 65536 ∧
      ((a32v_spi_probe 10 (loop_platform 3 (-4) 1)).accesses.map
        (fun tr => last_wr A32V_SPI_CTR_OFFSET tr.reverse)) = some (some 0xFFFC0022) ∧
      ((0xFFFC0022 >>> 16 : Nat) : Int) = 65532 ∧ (65532 : Int) = -4 % 65536 ∧
      (65532 : Int) ≠ -4) ∧
    (∀ (τ : Type) (s : axil32v_spi τ) (p : Int) (w : Nat), 0 ≤ p → w < 32 →
      s.sclk_prescale = p → s.bytes_per_word = w →
      ∃ cr ssr, (a32v_spi_init_hw s).trace =
          Access.wr A32V_SPI_CTR_OFFSET cr :: Access.wr A32V_SPI_SSR_OFFSET ssr ::
          Access.wr A32V_SPI_RESETR_OFFSET A32V_SPI_RESET_VECTOR :: s.trace ∧
        ((cr >>> 16 : Nat) : Int) = p % 65536 ∧
        cr % 65536 = (w <<< 11) ||| 0x22 ∧
        (((cr >>> 16 : Nat) : Int) = p ↔ p < 65536)) ∧
    probe_check 65536 1 = none ∧ init_ctr 65536 0 >>> 16 = 0 := by
  refine ⟨by decide, fun τ s p w hp hw hps hws => ?_, by decide, by decide⟩
  obtain ⟨cr, ssr, h1, _, h3, h4, h5⟩ := init_hw_prescale_field s p w hw hps hws
  exact ⟨cr, ssr, h1, h3, h4, h5.trans ⟨fun h => h.2, fun h => ⟨hp, h⟩⟩⟩
/-! ## Invariants of the pump -/

theorem tx_loop_inv (P : axil32v_spi σ → Prop) (htx : ∀ x, P x → P (a32v_spi_tx x)) :
    ∀ (F : Nat) (k : Int) (x x1 : axil32v_spi σ),
      P x → tx_loop F k x = Exec.ret x1 → P x1 := by
  intro F
  induction F with
  | zero => intro k x x1 _ h; simp [tx_loop] at h
  | succ F ih =>
    intro k x x1 hP h
    rw [tx_loop] at h
    split at h
    · exact ih _ _ _ (htx x hP) h
    · injection h with h
      rw [← h]
      exact hP

theorem drain_loop_inv (P : axil32v_spi σ → Prop) (hrx : ∀ x, P x → P (a32v_spi_rx x))
    (hsr : ∀ x, P x → P (reg_read x A32V_SPI_SR_OFFSET).2)
    (hinit : ∀ x, P x → P (a32v_spi_init_hw x)) (n : Int) :
    ∀ (F : Nat) (k stalled : Int) (sr : Nat) (x x1 : axil32v_spi σ) (o : Option Int),
      P x → drain_loop n F k stalled sr x = Exec.ret (o, x1) → P x1 := by
  intro F
  induction F with
  | zero => intro k stalled sr x x1 o _ h; simp [drain_loop] at h
  | succ F ih =>
    intro k stalled sr x x1 o hP h
    rw [drain_loop] at h
    simp only at h
    split at h
    · injection h with h
      injection h with _ h2
      rw [← h2]
      exact hP
    · split at h
      · injection h with h
        injection h with _ h2
        rw [← h2]
        exact hinit x hP
      · split at h
        · exact ih _ _ _ _ _ _ (hrx x hP) h
        · split at h
          · exact ih _ _ _ _ _ _ (hrx _ (hsr x hP)) h
          · exact ih _ _ _ _ _ _ (hsr x hP) h

theorem batch_loop_inv (P : axil32v_spi σ → Prop) (htx : ∀ x, P x → P (a32v_spi_tx x))
    (hrx : ∀ x, P x → P (a32v_spi_rx x))
    (hsr : ∀ x, P x → P (reg_read x A32V_SPI_SR_OFFSET).2)
    (hinit : ∀ x, P x → P (a32v_spi_init_hw x)) (len budget : Nat) :
    ∀ (fuel : Nat) (m : Int) (x x1 : axil32v_spi σ) (r : Int),
      P x → batch_loop len budget fuel m x = Exec.ret (r, x1) → P x1 := by
  intro fuel
  induction fuel with
  | zero => intro m x x1 r _ h; simp [batch_loop] at h
  | succ fuel ih =>
    intro m x x1 r hP h
    rw [batch_loop] at h
    split at h
    · injection h with h
      injection h with _ h2
      rw [← h2]
      exact hP
    · simp only at h
      split at h
      · exact absurd h (by simp)
      · exact absurd h (by simp)
      · rename_i y hy
        have hPy := tx_loop_inv P htx _ _ _ _ hP hy
        split at h
        · exact absurd h (by simp)
        · exact absurd h (by simp)
        · rename_i e y2 hd
          injection h with h
          injection h with _ h2
          rw [← h2]
          exact drain_loop_inv P hrx hsr hinit _ _ _ _ _ _ _ _ (hsr y hPy) hd
        · rename_i y2 hd
          exact ih _ _ _ _ (drain_loop_inv P hrx hsr hinit _ _ _ _ _ _ _ _ (hsr y hPy) hd) h

/-- Every property of the driver state that holds when the pump starts and is
kept by `a32v_spi_tx`, `a32v_spi_rx`, a status read and `a32v_spi_init_hw` holds
when the pump returns. -/
theorem pump_inv (P : axil32v_spi σ → Prop) (htx : ∀ x, P x → P (a32v_spi_tx x))
    (hrx : ∀ x, P x → P (a32v_spi_rx x))
    (hsr : ∀ x, P x → P (reg_read x A32V_SPI_SR_OFFSET).2)
    (hinit : ∀ x, P x → P (a32v_spi_init_hw x))
    (fuel : Nat) (s s1 : axil32v_spi σ) (t : spi_transfer) (r : Int)
    (h0 : P (txrx_entry s t)) (h : a32v_spi_txrx_bufs fuel s t = Exec.ret (r, s1)) : P s1 := by
  rw [txrx_bufs_eq] at h
  split at h
  · exact absurd h (by simp)
  · exact batch_loop_inv P htx hrx hsr hinit _ _ _ _ _ _ _ h0 h

theorem tx_null (x : axil32v_spi σ) (h : x.tx_ptr = none) :
    a32v_spi_tx x = reg_write x 0 A32V_SPI_TXD_OFFSET := by
  unfold a32v_spi_tx
  rw [h]

theorem rx_null (x : axil32v_spi σ) (h : x.rx_ptr = none) :
    a32v_spi_rx x = (reg_read x A32V_SPI_RXD_OFFSET).2 := by
  unfold a32v_spi_rx
  have h1 : (reg_read x A32V_SPI_RXD_OFFSET).2.rx_ptr = none := h
  simp only [h1]

theorem tx_keeps_rx (x : axil32v_spi σ) :
    (a32v_spi_tx x).rx_ptr = x.rx_ptr ∧ (a32v_spi_tx x).rxmem = x.rxmem ∧
    (a32v_spi_tx x).txmem = x.txmem := by
  unfold a32v_spi_tx
  cases x.tx_ptr <;> exact ⟨rfl, rfl, rfl⟩

theorem rx_keeps_tx (x : axil32v_spi σ) :
    (a32v_spi_rx x).tx_ptr = x.tx_ptr ∧ (a32v_spi_rx x).txmem = x.txmem := by
  unfold a32v_spi_rx
  simp only [reg_read]
  cases x.rx_ptr <;> exact ⟨rfl, rfl⟩

/-- The writes to the transmit-data register in a trace all carry the value 0. -/
theorem zero_fill_inv (base : List Access) (fuel : Nat) (s s1 : axil32v_spi σ)
    (t : spi_transfer) (r : Int) (hb : s.trace = base) (htx : t.tx_buf = none)
    (h : a32v_spi_txrx_bufs fuel s t = Exec.ret (r, s1)) :
    s1.tx_ptr = none ∧ ∃ tr, s1.trace = tr ++ base ∧
      ∀ v, Access.wr A32V_SPI_TXD_OFFSET v ∈ tr → v = 0 := by
  refine pump_inv (fun x => x.tx_ptr = none ∧ ∃ tr, x.trace = tr ++ base ∧
      ∀ v, Access.wr A32V_SPI_TXD_OFFSET v ∈ tr → v = 0) ?_ ?_ ?_ ?_ fuel s s1 t r ?_ h
  · rintro x ⟨h1, tr, h2, h3⟩
    rw [tx_null x h1]
    refine ⟨h1, Access.wr A32V_SPI_TXD_OFFSET 0 :: tr, ?_, ?_⟩
    · simp only [reg_write, h2]
      rfl
    · intro v hv
      rcases List.mem_cons.mp hv with e | e
      · injection e with _ e2
      · exact h3 v e
  · rintro x ⟨h1, tr, h2, h3⟩
    obtain ⟨v, hv⟩ := rx_trace x
    refine ⟨(rx_keeps_tx x).1.trans h1, Access.rd A32V_SPI_RXD_OFFSET v :: tr, ?_, ?_⟩
    · rw [hv, h2]
      rfl
    · intro u hu
      rcases List.mem_cons.mp hu with e | e
      · exact absurd e (by simp)
      · exact h3 u e
  · rintro x ⟨h1, tr, h2, h3⟩
    refine ⟨h1, Access.rd A32V_SPI_SR_OFFSET (reg_read x A32V_SPI_SR_OFFSET).1 :: tr, ?_, ?_⟩
    · simp only [reg_read, h2]
      rfl
    · intro u hu
      rcases List.mem_cons.mp hu with e | e
      · exact absurd e (by simp)
      · exact h3 u e
  · rintro x ⟨h1, tr, h2, h3⟩
    refine ⟨h1, Access.wr A32V_SPI_CTR_OFFSET (init_ctr x.sclk_prescale x.bytes_per_word) ::
      Access.wr A32V_SPI_SSR_OFFSET 0xffff ::
      Access.wr A32V_SPI_RESETR_OFFSET A32V_SPI_RESET_VECTOR :: tr, ?_, ?_⟩
    · rw [init_hw_trace, h2]
      rfl
    · intro u hu
      simp only [List.mem_cons] at hu
      rcases hu with e | e | e | e
      · injection e with e1 _
        exact absurd e1 (by decide)
      · injection e with e1 _
        exact absurd e1 (by decide)
      · injection e with e1 _
        exact absurd e1 (by decide)
      · exact h3 u e
  · refine ⟨?_, [], ?_, ?_⟩
    · simp [txrx_entry, htx]
    · simp [txrx_entry, hb]
    · intro v hv
      exact absurd hv (List.not_mem_nil _)

theorem discard_inv (fuel : Nat) (s s1 : axil32v_spi σ) (t : spi_transfer) (r : Int)
    (hrx : t.rx_buf = none) (h : a32v_spi_txrx_bufs fuel s t = Exec.ret (r, s1)) :
    s1.rx_ptr = none ∧ s1.rxmem = [] := by
  refine pump_inv (fun x => x.rx_ptr = none ∧ x.rxmem = []) ?_ ?_ ?_ ?_ fuel s s1 t r ?_ h
  · rintro x ⟨h1, h2⟩
    exact ⟨(tx_keeps_rx x).1.trans h1, (tx_keeps_rx x).2.1.trans h2⟩
  · rintro x ⟨h1, h2⟩
    rw [rx_null x h1]
    exact ⟨h1, h2⟩
  · rintro x ⟨h1, h2⟩
    exact ⟨h1, h2⟩
  · rintro x ⟨h1, h2⟩
    exact ⟨h1, h2⟩
  · simp [txrx_entry, hrx]

/-- C13. Zero fill and discard: on a controller with non-negative FIFO depth,
for a request whose length fits an `int`, whenever `a32v_spi_txrx_bufs`
returns: with no transmit buffer, every value it wrote to the transmit-data
register is 0 and the transmit cursor is still NULL (with a NULL cursor
`a32v_spi_tx` is the bare write of 0, no load and no advance); with no receive
buffer, the receive cursor is still NULL and the receive memory untouched (with
a NULL cursor `a32v_spi_rx` is the bare register read, no store and no
advance), and on success the receive-data register was read once per
transmitted word, `len / bytes_per_word` times. -/
theorem zero_fill_and_discard (fuel : Nat) (s s1 : axil32v_spi σ) (t : spi_transfer) (r : Int)
    (hbs : 0 ≤ s.buffer_size) (hlen : t.len < 2147483648)
    (h : a32v_spi_txrx_bufs fuel s t = Exec.ret (r, s1)) :
    (t.tx_buf = none →
      s1.tx_ptr = none ∧ ∃ tr, s1.trace = tr ++ s.trace ∧
        ∀ v, Access.wr A32V_SPI_TXD_OFFSET v ∈ tr → v = 0) ∧
    (∀ x : axil32v_spi σ, x.tx_ptr = none →
      a32v_spi_tx x = reg_write x 0 A32V_SPI_TXD_OFFSET) ∧
    (t.rx_buf = none →
      s1.rx_ptr = none ∧ s1.rxmem = [] ∧
      (r = (t.len : Int) → ∃ tr, s1.trace = tr ++ s.trace ∧
        count_rd A32V_SPI_RXD_OFFSET tr = count_wr A32V_SPI_TXD_OFFSET tr ∧
        count_rd A32V_SPI_RXD_OFFSET tr = t.len / s.bytes_per_word)) ∧
    (∀ x : axil32v_spi σ, x.rx_ptr = none →
      a32v_spi_rx x = (reg_read x A32V_SPI_RXD_OFFSET).2) := by
  refine ⟨fun htx => zero_fill_inv s.trace fuel s s1 t r rfl htx h, tx_null, fun hrx => ?_,
    rx_null⟩
  obtain ⟨h1, h2⟩ := discard_inv fuel s s1 t r hrx h
  refine ⟨h1, h2, fun hr => ?_⟩
  obtain ⟨tr, k1, k2⟩ := pump_counts fuel s s1 t r hbs hlen h
  refine ⟨tr, k1, ?_⟩
  rcases k2 with ⟨_, c1, c2⟩ | ⟨hr', hneg, _⟩
  · exact ⟨c2.trans c1.symm, c2⟩
  · rw [hr] at hneg
    omega

theorem zero_fill_and_discard_witness :
    (0 ≤ loop_ready8.buffer_size ∧ xfer_null.len < 2147483648 ∧
      a32v_spi_txrx_bufs 10 loop_ready8 xfer_null =
        Exec.ret (3, (a32v_spi_txrx_bufs 10 loop_ready8 xfer_null).state loop_ready8)) ∧
    ((a32v_spi_txrx_bufs 10 loop_ready8 xfer_null).state loop_ready8).tx_ptr = none ∧
    ∃ tr, ((a32v_spi_txrx_bufs 10 loop_ready8 xfer_null).state loop_ready8).trace =
        tr ++ loop_ready8.trace ∧
      ∀ v, Access.wr A32V_SPI_TXD_OFFSET v ∈ tr → v = 0 :=
  ⟨⟨by decide, by decide, rfl⟩,
    (zero_fill_and_discard 10 loop_ready8
      ((a32v_spi_txrx_bufs 10 loop_ready8 xfer_null).state loop_ready8) xfer_null 3
      (by decide) (by decide) rfl).1 rfl⟩
/-! ## The shape of a drain loop's accesses -/

theorem last_status_snoc (sr v : Nat) (polls : List Access)
    (h : ∀ a ∈ polls, is_poll_empty a) :
    last_status sr (polls ++ [Access.rd A32V_SPI_SR_OFFSET v]) = last_status v polls := by
  cases polls with
  | nil => rfl
  | cons a polls =>
    obtain ⟨u, hu, _⟩ := h a (List.mem_cons_self _ _)
    subst hu
    rfl

theorem wrap32_sub_succ (x : Int) (L : Nat) (h : wrap32 (wrap32 (x - 1) - (L : Int)) = 0) :
    wrap32 (x - ((L + 1 : Nat) : Int)) = 0 := by
  unfold wrap32 at h ⊢
  omega

/-- The accesses of a drain loop that hands control back.  Either it ran to
its end: it made only status and receive-data reads, one receive-data read per
awaited word, and the last of these directly follows a status read that
reported RX not empty.  Or it took the stall exit: no word had been retired,
every iteration before had polled a status reporting RX empty, the countdown
had come down to 0, and the status value in hand reported TX not empty and RX
empty. -/
theorem drain_loop_shape (n : Int) :
    ∀ (F k : Nat) (stalled : Int) (sr : Nat) (s s1 : axil32v_spi σ) (o : Option Int),
      k < 2147483648 → (k : Int) ≤ n →
      drain_loop n F (k : Int) stalled sr s = Exec.ret (o, s1) →
      same_cfg s s1 ∧ ∃ tr, s1.trace = tr ++ s.trace ∧
        ((o = none ∧ (∀ a ∈ tr, is_drain_access a) ∧
            count_rd A32V_SPI_RXD_OFFSET tr = k ∧ (k = 0 → tr = []) ∧
            (1 ≤ k → ∃ v v1 tr1, tr = Access.rd A32V_SPI_RXD_OFFSET v ::
              Access.rd A32V_SPI_SR_OFFSET v1 :: tr1 ∧ v1 &&& A32V_SPI_SR_RX_EMPTY_MASK = 0)) ∨
         (o = some (- EIO) ∧ (k : Int) = n ∧
            ∃ polls, tr = init_writes s.sclk_prescale s.bytes_per_word ++ polls ∧
              (∀ a ∈ polls, is_poll_empty a) ∧
              wrap32 (stalled - (polls.length : Int)) = 0 ∧
              last_status sr polls &&& A32V_SPI_SR_TX_EMPTY_MASK = 0 ∧
              last_status sr polls &&& A32V_SPI_SR_RX_EMPTY_MASK ≠ 0)) := by
  intro F
  induction F with
  | zero =>
    intro k stalled sr s s1 o _ _ h
    simp [drain_loop] at h
  | succ F ih =>
    intro k stalled sr s s1 o hk hkn h
    rw [drain_loop] at h
    by_cases hk0 : (k : Int) = 0
    · rw [if_pos hk0] at h
      injection h with h
      injection h with h1 h2
      subst h1 h2
      have : k = 0 := by omega
      subst this
      exact ⟨same_cfg_refl s, [], rfl, Or.inl ⟨rfl, fun a ha => absurd ha (List.not_mem_nil a),
        rfl, fun _ => rfl, fun h1 => absurd h1 (by decide)⟩⟩
    · rw [if_neg hk0] at h
      have hw : wrap32 ((k : Int) - 1) = ((k - 1 : Nat) : Int) := by
        rw [wrap32_of_range (by omega) (by omega)]
        omega
      simp only [hw] at h
      split at h
      · -- stall exit
        rename_i hstall
        injection h with h
        injection h with h1 h2
        subst h1 h2
        refine ⟨same_cfg_init_hw s, init_writes s.sclk_prescale s.bytes_per_word, ?_,
          Or.inr ⟨rfl, hstall.1, [], rfl, fun a ha => absurd ha (List.not_mem_nil a), ?_,
            hstall.2.2.1, hstall.2.2.2⟩⟩
        · rw [init_hw_trace]
          rfl
        · rw [hstall.2.1]
          rfl
      · split at h
        · -- transmit FIFO empty: retire without polling
          rename_i hfast
          obtain ⟨hc, tr, h1, h3⟩ := ih (k - 1) _ sr (a32v_spi_rx s) s1 o (by omega) (by omega) h
          obtain ⟨v, hv⟩ := rx_trace s
          have hcfg := same_cfg_rx s
          refine ⟨same_cfg_trans hcfg hc, tr ++ [Access.rd A32V_SPI_RXD_OFFSET v], ?_, ?_⟩
          · rw [h1, hv]; simp
          · rcases h3 with ⟨ho, hall, hcnt, _, hlast⟩ | ⟨_, hkn', _⟩
            · left
              refine ⟨ho, ?_, ?_, fun h0 => absurd h0 (by omega), fun _ => ?_⟩
              · intro a ha
                rcases List.mem_append.mp ha with h' | h'
                · exact hall a h'
                · exact Or.inr ⟨v, List.mem_singleton.mp h'⟩
              · rw [count_rd_append, hcnt]
                clear hlast
                simp [count_rd, Access.is_rd]
                omega
              · have hk1 : 1 ≤ k - 1 := by
                  have := hfast.2
                  omega
                obtain ⟨u, u1, tr1, e1, e2⟩ := hlast hk1
                exact ⟨u, u1, tr1 ++ [Access.rd A32V_SPI_RXD_OFFSET v], by rw [e1]; simp, e2⟩
            · exact absurd hkn' (by omega)
        · split at h
          · -- poll, a word is available
            rename_i hfast hrx
            obtain ⟨hc, tr, h1, h3⟩ :=
              ih (k - 1) _ _ (a32v_spi_rx (reg_read s A32V_SPI_SR_OFFSET).2) s1 o (by omega)
                (by omega) h
            obtain ⟨v, hv⟩ := rx_trace (reg_read s A32V_SPI_SR_OFFSET).2
            have hcfg := same_cfg_trans (same_cfg_reg_read s A32V_SPI_SR_OFFSET)
              (same_cfg_rx (reg_read s A32V_SPI_SR_OFFSET).2)
            refine ⟨same_cfg_trans hcfg hc,
              tr ++ [Access.rd A32V_SPI_RXD_OFFSET v,
                Access.rd A32V_SPI_SR_OFFSET (reg_read s A32V_SPI_SR_OFFSET).1], ?_, ?_⟩
            · rw [h1, hv]; simp [reg_read]
            · rcases h3 with ⟨ho, hall, hcnt, hnil, hlast⟩ | ⟨_, hkn', _⟩
              · left
                refine ⟨ho, ?_, ?_, fun h0 => absurd h0 (by omega), fun _ => ?_⟩
                · intro a ha
                  rcases List.mem_append.mp ha with h' | h'
                  · exact hall a h'
                  · simp only [List.mem_cons, List.mem_singleton, List.not_mem_nil,
                      or_false] at h'
                    rcases h' with h' | h'
                    · exact Or.inr ⟨v, h'⟩
                    · exact Or.inl ⟨_, h'⟩
                · rw [count_rd_append, hcnt]
                  clear hlast hnil
                  simp [count_rd, Access.is_rd]
                  omega
                · by_cases hk1 : 1 ≤ k - 1
                  · obtain ⟨u, u1, tr1, e1, e2⟩ := hlast hk1
                    exact ⟨u, u1, tr1 ++ [Access.rd A32V_SPI_RXD_OFFSET v,
                      Access.rd A32V_SPI_SR_OFFSET (reg_read s A32V_SPI_SR_OFFSET).1],
                      by rw [e1]; simp, e2⟩
                  · have e := hnil (by omega)
                    exact ⟨v, (reg_read s A32V_SPI_SR_OFFSET).1, [], by rw [e]; rfl, hrx⟩
              · exact absurd hkn' (by omega)
          · -- poll, nothing available
            rename_i hfast hrx
            obtain ⟨hc, tr, h1, h3⟩ :=
              ih k _ _ (reg_read s A32V_SPI_SR_OFFSET).2 s1 o hk hkn h
            have hcfg := same_cfg_reg_read s A32V_SPI_SR_OFFSET
            refine ⟨same_cfg_trans hcfg hc,
              tr ++ [Access.rd A32V_SPI_SR_OFFSET (reg_read s A32V_SPI_SR_OFFSET).1], ?_, ?_⟩
            · rw [h1]; simp [reg_read]
            · rcases h3 with ⟨ho, hall, hcnt, hnil, hlast⟩ | ⟨ho, hkn', polls, e1, e2, e3, e4, e5⟩
              · left
                refine ⟨ho, ?_, ?_, fun h0 => absurd h0 (by omega), fun hk1 => ?_⟩
                · intro a ha
                  rcases List.mem_append.mp ha with h' | h'
                  · exact hall a h'
                  · exact Or.inl ⟨_, List.mem_singleton.mp h'⟩
                · rw [count_rd_append, hcnt]
                  simp [count_rd, Access.is_rd]
                · obtain ⟨u, u1, tr1, e1, e2⟩ := hlast hk1
                  exact ⟨u, u1, tr1 ++ [Access.rd A32V_SPI_SR_OFFSET
                    (reg_read s A32V_SPI_SR_OFFSET).1], by rw [e1]; simp, e2⟩
              · right
                refine ⟨ho, hkn', polls ++ [Access.rd A32V_SPI_SR_OFFSET
                  (reg_read s A32V_SPI_SR_OFFSET).1], ?_, ?_, ?_, ?_, ?_⟩
                · rw [e1, hcfg.2.2.1, hcfg.2.2.2.1]
                  simp [init_writes]
                · intro a ha
                  rcases List.mem_append.mp ha with h' | h'
                  · exact e2 a h'
                  · exact ⟨_, List.mem_singleton.mp h', hrx⟩
                · rw [if_pos hkn'] at e3
                  rw [List.length_append, List.length_singleton]
                  exact wrap32_sub_succ _ _ e3
                · rw [last_status_snoc _ _ _ e2]
                  exact e4
                · rw [last_status_snoc _ _ _ e2]
                  exact e5
/-! ## The tie-break of the drain loop -/

/-- C16. Drain tie-break, for one iteration of the drain loop of
`a32v_spi_txrx_bufs` entered with `k ≠ 0` words awaited, the status value `sr`
in hand and the countdown `stalled`.  When `sr` reports TX empty and more than
one word is awaited, the iteration makes exactly one access, a read of the
receive-data register, and the loop goes on with `k - 1` words awaited and the
same `sr` (no status read).  In every other iteration that does not take the
stall exit, the iteration first reads the status register once; when the fresh
value reports RX not empty it then reads the receive-data register once and the
loop goes on with `k - 1` words awaited, otherwise it makes no further access
and the loop goes on with `k` words awaited.  Consequently a drain loop that
ran to its end from `k1 ≥ 1` awaited words made as its last two accesses a
status read reporting RX not empty and then the read of the receive-data
register that retired the last word. -/
theorem drain_tie_break (n : Int) (F : Nat) (k stalled : Int) (sr : Nat) (s : axil32v_spi σ)
    (hk : k ≠ 0) (hlo : -2147483648 < k) (hhi : k < 2147483648) :
    (sr &&& A32V_SPI_SR_TX_EMPTY_MASK ≠ 0 → 1 < k →
      (∃ v, (a32v_spi_rx s).trace = Access.rd A32V_SPI_RXD_OFFSET v :: s.trace) ∧
      drain_loop n (F + 1) k stalled sr s =
        drain_loop n F (k - 1) (if k = n then wrap32 (stalled - 1) else stalled) sr
          (a32v_spi_rx s)) ∧
    (¬ (sr &&& A32V_SPI_SR_TX_EMPTY_MASK ≠ 0 ∧ 1 < k) →
      ¬ (k = n ∧ stalled = 0 ∧ sr &&& A32V_SPI_SR_TX_EMPTY_MASK = 0 ∧
          sr &&& A32V_SPI_SR_RX_EMPTY_MASK ≠ 0) →
      (reg_read s A32V_SPI_SR_OFFSET).2.trace =
        Access.rd A32V_SPI_SR_OFFSET (reg_read s A32V_SPI_SR_OFFSET).1 :: s.trace ∧
      ((reg_read s A32V_SPI_SR_OFFSET).1 &&& A32V_SPI_SR_RX_EMPTY_MASK = 0 →
        (∃ v, (a32v_spi_rx (reg_read s A32V_SPI_SR_OFFSET).2).trace =
          Access.rd A32V_SPI_RXD_OFFSET v ::
          Access.rd A32V_SPI_SR_OFFSET (reg_read s A32V_SPI_SR_OFFSET).1 :: s.trace) ∧
        drain_loop n (F + 1) k stalled sr s =
          drain_loop n F (k - 1) (if k = n then wrap32 (stalled - 1) else stalled)
            (reg_read s A32V_SPI_SR_OFFSET).1 (a32v_spi_rx (reg_read s A32V_SPI_SR_OFFSET).2)) ∧
      ((reg_read s A32V_SPI_SR_OFFSET).1 &&& A32V_SPI_SR_RX_EMPTY_MASK ≠ 0 →
        drain_loop n (F + 1) k stalled sr s =
          drain_loop n F k (if k = n then wrap32 (stalled - 1) else stalled)
            (reg_read s A32V_SPI_SR_OFFSET).1 (reg_read s A32V_SPI_SR_OFFSET).2)) ∧
    (∀ (F1 k1 : Nat) (st : Int) (sr1 : Nat) (x x1 : axil32v_spi σ),
      1 ≤ k1 → k1 < 2147483648 → (k1 : Int) ≤ n →
      drain_loop n F1 (k1 : Int) st sr1 x = Exec.ret (none, x1) →
      ∃ v v1 tr1, x1.trace = Access.rd A32V_SPI_RXD_OFFSET v ::
        Access.rd A32V_SPI_SR_OFFSET v1 :: tr1 ++ x.trace ∧
        v1 &&& A32V_SPI_SR_RX_EMPTY_MASK = 0) := by
  have hw : wrap32 (k - 1) = k - 1 := wrap32_of_range (by omega) (by omega)
  refine ⟨fun htx hk1 => ⟨rx_trace s, ?_⟩, fun hfast hstall => ⟨rfl, fun hrx => ⟨?_, ?_⟩,
    fun hrx => ?_⟩, ?_⟩
  · have hns : ¬ (k = n ∧ stalled = 0 ∧ sr &&& A32V_SPI_SR_TX_EMPTY_MASK = 0 ∧
        sr &&& A32V_SPI_SR_RX_EMPTY_MASK ≠ 0) := fun h => htx h.2.2.1
    rw [drain_loop, if_neg hk]
    simp only
    rw [if_neg hns, if_pos ⟨htx, hk1⟩, hw]
  · obtain ⟨v, hv⟩ := rx_trace (reg_read s A32V_SPI_SR_OFFSET).2
    exact ⟨v, hv⟩
  · have hfast1 : ¬ (sr &&& A32V_SPI_SR_TX_EMPTY_MASK ≠ 0 ∧ k > 1) := hfast
    rw [drain_loop, if_neg hk]
    simp only
    rw [if_neg hstall, if_neg hfast1, if_pos hrx, hw]
  · have hfast1 : ¬ (sr &&& A32V_SPI_SR_TX_EMPTY_MASK ≠ 0 ∧ k > 1) := hfast
    rw [drain_loop, if_neg hk]
    simp only
    rw [if_neg hstall, if_neg hfast1, if_neg hrx]
  · intro F1 k1 st sr1 x x1 h1 h2 h3 h
    obtain ⟨_, tr, e1, e2⟩ := drain_loop_shape n F1 k1 st sr1 x x1 none h2 h3 h
    rcases e2 with ⟨_, _, _, _, hlast⟩ | ⟨ho, _⟩
    · obtain ⟨v, v1, tr1, e3, e4⟩ := hlast h1
      refine ⟨v, v1, tr1, ?_, e4⟩
      rw [e1, e3]
    · exact absurd ho (by simp)

theorem drain_tie_break_witness :
    ((2 : Int) ≠ 0 ∧ (-2147483648 : Int) < 2 ∧ (2 : Int) < 2147483648 ∧
      A32V_SPI_SR_TX_EMPTY_MASK &&& A32V_SPI_SR_TX_EMPTY_MASK ≠ 0 ∧ (1 : Int) < 2) ∧
    (∃ v, (a32v_spi_rx loop_ready8).trace =
      Access.rd A32V_SPI_RXD_OFFSET v :: loop_ready8.trace) ∧
    drain_loop 2 (5 + 1) 2 0 A32V_SPI_SR_TX_EMPTY_MASK loop_ready8 =
      drain_loop 2 5 (2 - 1) (if (2 : Int) = 2 then wrap32 (0 - 1) else 0)
        A32V_SPI_SR_TX_EMPTY_MASK (a32v_spi_rx loop_ready8) :=
  ⟨by decide,
    (drain_tie_break 2 5 2 0 A32V_SPI_SR_TX_EMPTY_MASK loop_ready8 (by decide) (by decide)
      (by decide)).1 (by decide) (by decide)⟩
/-! ## Batches of the pump and the FIFO occupancy bound -/

theorem batch_loop_shape (len budget : Nat) :
    ∀ (fuel m : Nat) (s s1 : axil32v_spi σ) (r : Int),
      m < 2147483648 → 0 ≤ s.buffer_size →
      batch_loop len budget fuel (m : Int) s = Exec.ret (r, s1) →
      same_cfg s s1 ∧ ∃ tr ok, s1.trace = tr ++ s.trace ∧
        pump_shape s.buffer_size.toNat s.sclk_prescale s.bytes_per_word m tr ok ∧
        (ok = true → r = wrap32 (u32 len)) ∧ (ok = false → r = - EIO) := by
  intro fuel
  induction fuel with
  | zero =>
    intro m s s1 r _ _ h
    simp [batch_loop] at h
  | succ fuel ih =>
    intro m s s1 r hm hbs h
    rw [batch_loop] at h
    by_cases hm0 : (m : Int) = 0
    · rw [if_pos hm0] at h
      injection h with h
      injection h with h1 h2
      subst h1 h2
      have : m = 0 := by omega
      subst this
      exact ⟨same_cfg_refl s, [], true, rfl, pump_shape.done, fun _ => rfl,
        fun h => absurd h (by decide)⟩
    · rw [if_neg hm0] at h
      have hmpos : 0 < m := by omega
      have hj : min m s.buffer_size.toNat < 2147483648 := by omega
      have hjm : min m s.buffer_size.toNat ≤ m := by omega
      simp only [min_words_cast m _ hbs, tx_loop_eq _ hj] at h
      by_cases hB : min m s.buffer_size.toNat < budget
      · simp only [if_pos hB] at h
        have hcfg1 := same_cfg_tx_iter (min m s.buffer_size.toNat) s
        obtain ⟨trx, htx1, htx2, htx3⟩ := tx_iter_trace (min m s.buffer_size.toNat) s
        have hcfg2 := same_cfg_reg_read (a32v_spi_tx^[min m s.buffer_size.toNat] s)
          A32V_SPI_SR_OFFSET
        have hcfg12 := same_cfg_trans hcfg1 hcfg2
        split at h
        · exact absurd h (by simp)
        · exact absurd h (by simp)
        · rename_i e s2 hd
          injection h with h
          injection h with h1 h2
          subst h1 h2
          obtain ⟨hc, tr, h1, h3⟩ := drain_loop_shape _ _ _ _ _ _ _ _ hj (le_refl _) hd
          rcases h3 with ⟨ho, _⟩ | ⟨ho, _, polls, e1, e2, e3, e4, e5⟩
          · exact absurd ho (by simp)
          · injection ho with ho
            rw [hcfg12.2.2.2.1, hcfg12.2.2.1] at e1
            rw [hcfg12.2.2.2.1] at e3
            refine ⟨same_cfg_trans hcfg12 hc, _, false, ?_,
              pump_shape.stall m trx polls _ hmpos htx3 htx2 e2 e3 e4 e5,
              fun h => absurd h (by decide), fun _ => ho⟩
            rw [h1, e1]
            simp [reg_read, htx1]
        · rename_i s2 hd
          obtain ⟨hc, tr, h1, h3⟩ := drain_loop_shape _ _ _ _ _ _ _ _ hj (le_refl _) hd
          have hw : wrap32 ((m : Int) - ((min m s.buffer_size.toNat : Nat) : Int)) =
              ((m - min m s.buffer_size.toNat : Nat) : Int) := by
            rw [wrap32_of_range (by omega) (by omega)]
            omega
          rw [hw] at h
          have hc2 := same_cfg_trans hcfg12 hc
          obtain ⟨hc3, tr2, ok, k1, k2, k3, k4⟩ :=
            ih _ s2 s1 r (by omega) (by rw [hc2.2.2.2.2.1]; exact hbs) h
          rcases h3 with ⟨_, hall, hcnt, _, _⟩ | ⟨ho, _⟩
          · refine ⟨same_cfg_trans hc2 hc3, _, ok, ?_,
              pump_shape.batch m trx tr tr2
                (reg_read (a32v_spi_tx^[min m s.buffer_size.toNat] s) A32V_SPI_SR_OFFSET).1 ok
                hmpos htx3 htx2 hall hcnt ?_, k3, k4⟩
            · rw [k1, h1]
              simp [reg_read, htx1]
            · rw [hc2.2.2.2.2.1, hc2.2.2.1, hc2.2.2.2.1] at k2
              exact k2
          · exact absurd ho (by simp)
      · simp only [if_neg hB] at h
        exact absurd h (by simp)

theorem suffix_append_cases (suf Y X : List Access) (h : List.IsSuffix suf (Y ++ X)) :
    List.IsSuffix suf X ∨ ∃ y, List.IsSuffix y Y ∧ suf = y ++ X := by
  induction Y with
  | nil => exact Or.inl h
  | cons a Y ih =>
    rcases List.suffix_cons_iff.mp h with h1 | h1
    · exact Or.inr ⟨a :: Y, List.suffix_refl _, h1⟩
    · rcases ih h1 with h2 | ⟨y, h2, h3⟩
      · exact Or.inl h2
      · exact Or.inr ⟨y, h2.trans (List.suffix_cons a Y), h3⟩

theorem count_le_of_suffix (suf l : List Access) (h : List.IsSuffix suf l) :
    count_wr A32V_SPI_TXD_OFFSET suf ≤ count_wr A32V_SPI_TXD_OFFSET l ∧
    count_rd A32V_SPI_RXD_OFFSET suf ≤ count_rd A32V_SPI_RXD_OFFSET l :=
  ⟨h.sublist.countP_le _, h.sublist.countP_le _⟩

theorem count_of_drain (l : List Access) (h : ∀ a ∈ l, is_drain_access a) :
    count_wr A32V_SPI_TXD_OFFSET l = 0 := by
  unfold count_wr
  rw [List.countP_eq_zero]
  intro a ha
  rcases h a ha with ⟨v, rfl⟩ | ⟨v, rfl⟩ <;> simp [Access.is_wr]

theorem count_of_polls (l : List Access) (h : ∀ a ∈ l, is_poll_empty a) :
    count_wr A32V_SPI_TXD_OFFSET l = 0 ∧ count_rd A32V_SPI_RXD_OFFSET l = 0 := by
  unfold count_wr count_rd
  rw [List.countP_eq_zero, List.countP_eq_zero]
  constructor <;> intro a ha <;> obtain ⟨v, rfl, _⟩ := h a ha <;> simp [Access.is_wr, Access.is_rd]

theorem count_of_init_writes (p : Int) (w : Nat) :
    count_wr A32V_SPI_TXD_OFFSET (init_writes p w) = 0 ∧
    count_rd A32V_SPI_RXD_OFFSET (init_writes p w) = 0 := by
  simp [count_wr, count_rd, init_writes, Access.is_wr, Access.is_rd]

theorem count_of_fill (fill : List Access) (v0 : Nat) (hf : ∀ a ∈ fill, is_fill_access a) :
    count_wr A32V_SPI_TXD_OFFSET (Access.rd A32V_SPI_SR_OFFSET v0 :: fill) = fill.length ∧
    count_rd A32V_SPI_RXD_OFFSET (Access.rd A32V_SPI_SR_OFFSET v0 :: fill) = 0 := by
  obtain ⟨fw, fr⟩ := count_of_all_wr A32V_SPI_TXD_OFFSET fill hf
  have fr0 := fr A32V_SPI_RXD_OFFSET
  unfold count_wr count_rd at *
  constructor
  · rw [List.countP_cons_of_neg, fw]
    simp [Access.is_wr]
  · rw [List.countP_cons_of_neg, fr0]
    simp [Access.is_rd]

/-- In a trace made of batches the FIFO occupancy bound holds at every point. -/
theorem pump_shape_balanced (B : Nat) (p : Int) (w : Nat) :
    ∀ (m : Nat) (tr : List Access) (ok : Bool), pump_shape B p w m tr ok → balanced B tr := by
  intro m tr ok h
  induction h with
  | done =>
    intro suf hs
    rw [List.suffix_nil.mp hs]
    exact ⟨Nat.le_refl _, Nat.zero_le _⟩
  | batch m fill drain rest v0 ok _ hf hfl hd hdc _ ih =>
    obtain ⟨hw1, hr1⟩ := count_of_fill fill v0 hf
    rw [hfl] at hw1
    have dw := count_of_drain drain hd
    intro suf hs
    unfold occupancy_ok
    rcases suffix_append_cases _ _ _ hs with h1 | ⟨y, h1, rfl⟩
    · obtain ⟨c1, c2⟩ := count_le_of_suffix _ _ h1
      omega
    · rw [count_wr_append, count_rd_append, hw1, hr1]
      rcases suffix_append_cases _ _ _ h1 with h2 | ⟨z, h2, rfl⟩
      · obtain ⟨c1, c2⟩ := count_le_of_suffix _ _ h2
        omega
      · obtain ⟨c1, c2⟩ := ih z h2
        rw [count_wr_append, count_rd_append, dw, hdc]
        omega
  | stall m fill polls v0 _ hf hfl hp _ _ _ =>
    obtain ⟨fw, fr⟩ := count_of_fill fill v0 hf
    obtain ⟨pw, pr⟩ := count_of_polls polls hp
    obtain ⟨iw, ir⟩ := count_of_init_writes p w
    have hw1 : count_wr A32V_SPI_TXD_OFFSET
        (init_writes p w ++ polls ++ Access.rd A32V_SPI_SR_OFFSET v0 :: fill) = min m B := by
      rw [count_wr_append, count_wr_append, iw, pw, fw, hfl]
      omega
    have hr1 : count_rd A32V_SPI_RXD_OFFSET
        (init_writes p w ++ polls ++ Access.rd A32V_SPI_SR_OFFSET v0 :: fill) = 0 := by
      rw [count_rd_append, count_rd_append, ir, pr, fr]
    intro suf hs
    obtain ⟨c1, c2⟩ := count_le_of_suffix _ _ hs
    unfold occupancy_ok
    omega

/-- The accesses of a pump call that returns are a sequence of batches. -/
theorem pump_batches (fuel : Nat) (s s1 : axil32v_spi σ) (t : spi_transfer) (r : Int)
    (hbs : 0 ≤ s.buffer_size) (hlen : t.len < 2147483648)
    (h : a32v_spi_txrx_bufs fuel s t = Exec.ret (r, s1)) :
    ∃ tr ok, s1.trace = tr ++ s.trace ∧
      pump_shape s.buffer_size.toNat s.sclk_prescale s.bytes_per_word
        (t.len / s.bytes_per_word) tr ok ∧
      (ok = true → r = (t.len : Int)) ∧ (ok = false → r = - EIO) := by
  rw [txrx_bufs_eq] at h
  split at h
  · exact absurd h (by simp)
  · have hu : u32 t.len = t.len := u32_of_lt (by omega)
    have hdiv : t.len / s.bytes_per_word < 2147483648 :=
      lt_of_le_of_lt (Nat.div_le_self _ _) hlen
    have hq0 : (0 : Int) ≤ ((t.len / s.bytes_per_word : Nat) : Int) := Int.natCast_nonneg _
    have hq1 : ((t.len / s.bytes_per_word : Nat) : Int) < 2147483648 := by exact_mod_cast hdiv
    rw [hu, wrap32_of_range (le_trans (by decide) hq0) hq1] at h
    obtain ⟨_, tr, ok, h1, h2, h3, h4⟩ :=
      batch_loop_shape _ _ _ _ (txrx_entry s t) _ _ hdiv hbs h
    refine ⟨tr, ok, h1, h2, fun hok => ?_, h4⟩
    rw [h3 hok, hu, wrap32_of_range (by omega) (by omega)]

/-- C15. FIFO occupancy bound: on a controller of FIFO depth
`buffer_size ≥ 1`, for a request whose length fits an `int`, the register
accesses of a call of `a32v_spi_txrx_bufs` that returns are a sequence of
batches: with `m` words remaining, a batch first writes exactly
`n = min m buffer_size` words to the transmit-data register and nothing else,
then reads the status register, and then makes status and receive-data reads
only, of which exactly `n` are receive-data reads, before the next batch starts
with `m - n` words remaining (or the batch ends the call by the stall exit,
having made no receive-data read).  Therefore at every point of the call the
number of transmit-data writes so far minus the number of receive-data reads so
far is between 0 and `buffer_size`. -/
theorem fifo_occupancy_bound (fuel : Nat) (s s1 : axil32v_spi σ) (t : spi_transfer) (r : Int)
    (hbs : 1 ≤ s.buffer_size) (hlen : t.len < 2147483648)
    (h : a32v_spi_txrx_bufs fuel s t = Exec.ret (r, s1)) :
    ∃ tr ok, s1.trace = tr ++ s.trace ∧
      pump_shape s.buffer_size.toNat s.sclk_prescale s.bytes_per_word
        (t.len / s.bytes_per_word) tr ok ∧
      (∀ suf, List.IsSuffix suf tr →
        count_rd A32V_SPI_RXD_OFFSET suf ≤ count_wr A32V_SPI_TXD_OFFSET suf ∧
        (count_wr A32V_SPI_TXD_OFFSET suf : Int) ≤
          count_rd A32V_SPI_RXD_OFFSET suf + s.buffer_size) := by
  obtain ⟨tr, ok, h1, h2, _, _⟩ := pump_batches fuel s s1 t r (by omega) hlen h
  refine ⟨tr, ok, h1, h2, fun suf hs => ?_⟩
  obtain ⟨c1, c2⟩ := pump_shape_balanced _ _ _ _ _ _ h2 suf hs
  exact ⟨c1, by omega⟩

theorem fifo_occupancy_bound_witness :
    (1 ≤ loop_ready8.buffer_size ∧ xfer8.len < 2147483648 ∧
      a32v_spi_txrx_bufs 10 loop_ready8 xfer8 =
        Exec.ret (4, (a32v_spi_txrx_bufs 10 loop_ready8 xfer8).state loop_ready8)) ∧
    ∃ tr ok, ((a32v_spi_txrx_bufs 10 loop_ready8 xfer8).state loop_ready8).trace =
        tr ++ loop_ready8.trace ∧
      pump_shape loop_ready8.buffer_size.toNat loop_ready8.sclk_prescale
        loop_ready8.bytes_per_word (xfer8.len / loop_ready8.bytes_per_word) tr ok ∧
      (∀ suf, List.IsSuffix suf tr →
        count_rd A32V_SPI_RXD_OFFSET suf ≤ count_wr A32V_SPI_TXD_OFFSET suf ∧
        (count_wr A32V_SPI_TXD_OFFSET suf : Int) ≤
          count_rd A32V_SPI_RXD_OFFSET suf + loop_ready8.buffer_size) :=
  ⟨⟨by decide, by decide, rfl⟩,
    fifo_occupancy_bound 10 loop_ready8
      ((a32v_spi_txrx_bufs 10 loop_ready8 xfer8).state loop_ready8) xfer8 4
      (by decide) (by decide) rfl⟩
/-! ## The stall countdown -/

/-- Once no word of the batch has been retired and the device keeps reporting
TX not empty and RX empty, the drain loop takes the stall exit after as many
further polls as the countdown, read as a `u32`, says: the decrement wraps, so a
countdown that has passed 0 comes back to it. -/
theorem drain_loop_countdown (n : Int) (hn : n ≠ 0) (rf : Nat → σ → Nat × σ) (Q : σ → Prop)
    (hQ : ∀ r, Q r → (rf A32V_SPI_SR_OFFSET r).1 &&& A32V_SPI_SR_RX_EMPTY_MASK ≠ 0 ∧
      (rf A32V_SPI_SR_OFFSET r).1 &&& A32V_SPI_SR_TX_EMPTY_MASK = 0 ∧
      Q (rf A32V_SPI_SR_OFFSET r).2) :
    ∀ (d F : Nat) (stalled : Int) (sr : Nat) (s : axil32v_spi σ),
      -2147483648 ≤ stalled → stalled < 2147483648 → int_to_u32 stalled = d → d < F →
      s.read_fn = rf → Q s.regs →
      sr &&& A32V_SPI_SR_RX_EMPTY_MASK ≠ 0 → sr &&& A32V_SPI_SR_TX_EMPTY_MASK = 0 →
      ∃ s1 polls, drain_loop n F n stalled sr s = Exec.ret (some (- EIO), s1) ∧
        s1.trace = init_writes s.sclk_prescale s.bytes_per_word ++ polls ++ s.trace ∧
        polls.length = d ∧ ∀ a ∈ polls, is_poll_empty a := by
  intro d
  induction d with
  | zero =>
    intro F stalled sr s hlo hhi hd hF _ _ h1 h4
    obtain ⟨F, rfl⟩ : ∃ F1, F = F1 + 1 := ⟨F - 1, by omega⟩
    have hs0 : stalled = 0 := by
      unfold int_to_u32 at hd
      omega
    subst hs0
    refine ⟨a32v_spi_init_hw s, [], ?_, ?_, rfl, fun a ha => absurd ha (List.not_mem_nil a)⟩
    · rw [drain_loop, if_neg hn]
      simp only
      split
      · rfl
      · rename_i hno
        exact absurd ⟨trivial, trivial, h4, h1⟩ hno
    · rw [init_hw_trace]
      rfl
  | succ d ih =>
    intro F stalled sr s hlo hhi hd hF hr hq h1 h4
    obtain ⟨F, rfl⟩ : ∃ F1, F = F1 + 1 := ⟨F - 1, by omega⟩
    have hs0 : stalled ≠ 0 := by
      intro h
      subst h
      unfold int_to_u32 at hd
      omega
    have hne : ¬ (True ∧ stalled = 0 ∧
        sr &&& A32V_SPI_SR_TX_EMPTY_MASK = 0 ∧ sr &&& A32V_SPI_SR_RX_EMPTY_MASK ≠ 0) :=
      fun h => hs0 h.2.1
    have hfast : ¬ (sr &&& A32V_SPI_SR_TX_EMPTY_MASK ≠ 0 ∧ n > 1) := fun h => h.1 h4
    obtain ⟨q1, q4, qn⟩ := hQ s.regs hq
    have hv : (reg_read s A32V_SPI_SR_OFFSET).1 = u32 (rf A32V_SPI_SR_OFFSET s.regs).1 := by
      simp only [reg_read, hr]
    have hv1 : (reg_read s A32V_SPI_SR_OFFSET).1 &&& A32V_SPI_SR_RX_EMPTY_MASK ≠ 0 := by
      rw [hv, and_u32_mask _ _ (by decide)]
      exact q1
    have hv4 : (reg_read s A32V_SPI_SR_OFFSET).1 &&& A32V_SPI_SR_TX_EMPTY_MASK = 0 := by
      rw [hv, and_u32_mask _ _ (by decide)]
      exact q4
    have hwlo : -2147483648 ≤ wrap32 (stalled - 1) := by
      unfold wrap32
      omega
    have hwhi : wrap32 (stalled - 1) < 2147483648 := by
      unfold wrap32
      omega
    have hwd : int_to_u32 (wrap32 (stalled - 1)) = d := by
      unfold int_to_u32 wrap32 at *
      omega
    obtain ⟨s1, polls, k1, k2, k3, k4⟩ :=
      ih F (wrap32 (stalled - 1)) _ (reg_read s A32V_SPI_SR_OFFSET).2 hwlo hwhi hwd (by omega)
        (by simp only [reg_read, hr]) (by simp only [reg_read, hr]; exact qn) hv1 hv4
    refine ⟨s1, polls ++ [Access.rd A32V_SPI_SR_OFFSET (reg_read s A32V_SPI_SR_OFFSET).1],
      ?_, ?_, ?_, ?_⟩
    · rw [drain_loop, if_neg hn]
      simp only
      rw [if_neg hne, if_neg hfast, if_neg hv1, if_pos trivial]
      exact k1
    · rw [k2]
      simp [reg_read]
    · simp [k3]
    · intro a ha
      rcases List.mem_append.mp ha with h | h
      · exact k4 a h
      · exact ⟨_, List.mem_singleton.mp h, hv1⟩

/-- Against a device that keeps reporting TX empty and RX empty, a drain loop
with a word awaited and a status value in hand that reports TX empty is still
running after any number of steps. -/
theorem drain_loop_mute (n : Int) (rf : Nat → σ → Nat × σ)
    (hflag : ∀ r, (rf A32V_SPI_SR_OFFSET r).1 &&& A32V_SPI_SR_TX_EMPTY_MASK ≠ 0 ∧
      (rf A32V_SPI_SR_OFFSET r).1 &&& A32V_SPI_SR_RX_EMPTY_MASK ≠ 0) :
    ∀ (F k : Nat) (stalled : Int) (sr : Nat) (s : axil32v_spi σ), 1 ≤ k → k < 2147483648 →
      s.read_fn = rf → sr &&& A32V_SPI_SR_TX_EMPTY_MASK ≠ 0 →
      drain_loop n F (k : Int) stalled sr s = Exec.fuel := by
  intro F
  induction F with
  | zero => intro k stalled sr s _ _ _ _; rfl
  | succ F ih =>
    intro k stalled sr s hk1 hk hr h4
    have hw : wrap32 ((k : Int) - 1) = ((k - 1 : Nat) : Int) := by
      rw [wrap32_of_range (by omega) (by omega)]
      omega
    have hv : (reg_read s A32V_SPI_SR_OFFSET).1 = u32 (rf A32V_SPI_SR_OFFSET s.regs).1 := by
      simp only [reg_read, hr]
    have hv1 : (reg_read s A32V_SPI_SR_OFFSET).1 &&& A32V_SPI_SR_RX_EMPTY_MASK ≠ 0 := by
      rw [hv, and_u32_mask _ _ (by decide)]
      exact (hflag _).2
    have hv4 : (reg_read s A32V_SPI_SR_OFFSET).1 &&& A32V_SPI_SR_TX_EMPTY_MASK ≠ 0 := by
      rw [hv, and_u32_mask _ _ (by decide)]
      exact (hflag _).1
    rw [drain_loop, if_neg (by omega)]
    simp only
    split
    · rename_i h
      exact absurd h.2.2.1 h4
    · split
      · rename_i h
        rw [hw]
        have h1 : 1 < k := by omega
        exact ih (k - 1) _ sr (a32v_spi_rx s) (by omega) (by omega)
          ((same_cfg_rx s).1.trans hr) h4
      · exact ih k _ _ _ hk1 hk (by simp only [reg_read, hr]) hv4

theorem late_regs_inv (hold : Nat) : ∀ r : Nat, hold ≤ r →
    (late_read hold A32V_SPI_SR_OFFSET r).1 &&& A32V_SPI_SR_RX_EMPTY_MASK ≠ 0 ∧
    (late_read hold A32V_SPI_SR_OFFSET r).1 &&& A32V_SPI_SR_TX_EMPTY_MASK = 0 ∧
    hold ≤ (late_read hold A32V_SPI_SR_OFFSET r).2 := by
  intro r hr
  have h : ¬ r < hold := by omega
  simp only [late_read, if_true, if_neg h]
  exact ⟨by decide, by decide, by omega⟩

/-- A drain iteration of a one-word batch at which the countdown stands at 0
but the status in hand reports TX empty: the stall test is due and finds TX
empty, so no stall is declared; the status is polled, reports RX empty, and the
countdown passes to -1. -/
theorem drain_first_miss (F sr : Nat) (s : axil32v_spi σ)
    (hsr : sr &&& A32V_SPI_SR_TX_EMPTY_MASK ≠ 0)
    (h : (reg_read s A32V_SPI_SR_OFFSET).1 &&& A32V_SPI_SR_RX_EMPTY_MASK ≠ 0) :
    drain_loop 1 (F + 1) 1 0 sr s =
      drain_loop 1 F 1 (-1) (reg_read s A32V_SPI_SR_OFFSET).1
        (reg_read s A32V_SPI_SR_OFFSET).2 := by
  have hstall : ¬ (True ∧ True ∧ sr &&& A32V_SPI_SR_TX_EMPTY_MASK = 0 ∧
      sr &&& A32V_SPI_SR_RX_EMPTY_MASK ≠ 0) := fun hc => hsr hc.2.2.1
  have hfast : ¬ (sr &&& A32V_SPI_SR_TX_EMPTY_MASK ≠ 0 ∧ (1 : Int) > 1) :=
    fun hc => absurd hc.2 (by decide)
  rw [drain_loop, if_neg (by decide)]
  simp only
  rw [if_neg hstall, if_neg hfast, if_neg h]
  rfl

/-- While the late controller holds, a one-word batch only polls: each drain
iteration finds TX empty in hand, declares no stall, reads a status that
reports TX empty and RX empty, and decrements the countdown. -/
theorem late_hold (hold : Nat) :
    ∀ (j F : Nat) (stalled : Int) (s : axil32v_spi Nat),
      s.read_fn = late_read hold → s.regs + j ≤ hold →
      (j : Int) ≤ stalled → stalled < 2147483648 →
      ∃ s1, s1.read_fn = late_read hold ∧ s1.regs = s.regs + j ∧ same_cfg s s1 ∧
        drain_loop 1 (F + j) 1 stalled
            (A32V_SPI_SR_TX_EMPTY_MASK ||| A32V_SPI_SR_RX_EMPTY_MASK) s =
          drain_loop 1 F 1 (stalled - j)
            (A32V_SPI_SR_TX_EMPTY_MASK ||| A32V_SPI_SR_RX_EMPTY_MASK) s1 := by
  intro j
  induction j with
  | zero =>
    intro F stalled s hr _ _ _
    refine ⟨s, hr, rfl, same_cfg_refl s, ?_⟩
    simp
  | succ j ih =>
    intro F stalled s hr hj hlo hhi
    have hv : (reg_read s A32V_SPI_SR_OFFSET).1 =
        A32V_SPI_SR_TX_EMPTY_MASK ||| A32V_SPI_SR_RX_EMPTY_MASK := by
      have hlt : s.regs < hold := by omega
      simp only [reg_read, hr, late_read, if_true, if_pos hlt]
      rfl
    have hw : wrap32 (stalled - 1) = stalled - 1 :=
      wrap32_of_range (by omega) (by omega)
    obtain ⟨s1, k1, k2, k3, k4⟩ := ih F (stalled - 1) (reg_read s A32V_SPI_SR_OFFSET).2
      (by simp only [reg_read, hr])
      (by
        have : (reg_read s A32V_SPI_SR_OFFSET).2.regs = s.regs + 1 := by
          simp only [reg_read, hr, late_read, if_true]
        omega)
      (by omega) (by omega)
    refine ⟨s1, k1, ?_, same_cfg_trans (same_cfg_reg_read s _) k3, ?_⟩
    · have : (reg_read s A32V_SPI_SR_OFFSET).2.regs = s.regs + 1 := by
        simp only [reg_read, hr, late_read, if_true]
      omega
    · have hstep : drain_loop 1 (F + j + 1) 1 stalled
          (A32V_SPI_SR_TX_EMPTY_MASK ||| A32V_SPI_SR_RX_EMPTY_MASK) s =
          drain_loop 1 (F + j) 1 (stalled - 1)
            (A32V_SPI_SR_TX_EMPTY_MASK ||| A32V_SPI_SR_RX_EMPTY_MASK)
            (reg_read s A32V_SPI_SR_OFFSET).2 := by
        rw [drain_loop, if_neg (by decide)]
        simp only
        rw [if_neg (fun hc => absurd hc.2.2.1 (by decide)),
          if_neg (fun hc => absurd hc.2 (by decide)),
          if_neg (by rw [hv]; decide), hv, if_pos trivial, hw]
      have hsub : stalled - 1 - (j : Int) = stalled - ((j + 1 : Nat) : Int) := by
        push_cast
        ring
      rw [show F + (j + 1) = F + j + 1 from rfl, hstep, k4, hsub]

/-- Against the late controller that holds for 41 status reads, with prescale
4, the one-word transfer is not declared stalled at drain iteration 41 and is
declared stalled `2^32` iterations later. -/
theorem late_pump_stalls (F : Nat) (hF : 4294967296 ≤ F) :
    (a32v_spi_txrx_bufs (F + 41) (late_attach 41 4) xfer1).value = some (- EIO) := by
  rw [txrx_bufs_eq, if_neg (by decide)]
  have hm : wrap32 ((u32 xfer1.len / (late_attach 41 4).bytes_per_word : Nat) : Int) =
      ((1 : Nat) : Int) := by decide
  rw [hm, batch_loop, if_neg (by decide)]
  have hmin : min (((1 : Nat) : Int)) (txrx_entry (late_attach 41 4) xfer1).buffer_size =
      ((1 : Nat) : Int) := by decide
  simp only [hmin, tx_loop_eq 1 (by decide)]
  rw [if_pos (by omega)]
  simp only
  have hsr : (reg_read (a32v_spi_tx^[1] (txrx_entry (late_attach 41 4) xfer1))
      A32V_SPI_SR_OFFSET).1 = A32V_SPI_SR_TX_EMPTY_MASK ||| A32V_SPI_SR_RX_EMPTY_MASK := by
    decide
  have hst : wrap32 (10 * (reg_read (a32v_spi_tx^[1] (txrx_entry (late_attach 41 4) xfer1))
      A32V_SPI_SR_OFFSET).2.sclk_prescale) = 40 := by decide
  obtain ⟨s40, a1, a2, _, a4⟩ := late_hold 41 40 (F + 1) 40
    (reg_read (a32v_spi_tx^[1] (txrx_entry (late_attach 41 4) xfer1)) A32V_SPI_SR_OFFSET).2
    rfl (by decide) (by decide) (by decide)
  have hregs : s40.regs = 41 := by
    rw [a2]
    decide
  have hfresh : (reg_read s40 A32V_SPI_SR_OFFSET).1 = A32V_SPI_SR_RX_EMPTY_MASK := by
    simp only [reg_read, a1, late_read, if_true, hregs]
    decide
  obtain ⟨s1, polls, k1, _⟩ := drain_loop_countdown 1 (by decide) (late_read 41)
    (fun r => 41 ≤ r) (late_regs_inv 41) 4294967295 F (-1) A32V_SPI_SR_RX_EMPTY_MASK
    (reg_read s40 A32V_SPI_SR_OFFSET).2
    (by decide) (by decide) (by decide) (by omega) (by simp only [reg_read, a1])
    (by
      show 41 ≤ (reg_read s40 A32V_SPI_SR_OFFSET).2.regs
      simp only [reg_read, a1, late_read, if_true, hregs]
      decide)
    (by decide) (by decide)
  have hcast : (((1 : Nat) : Int)) = 1 := rfl
  have h40 : ((40 : Nat) : Int) = 40 := rfl
  have harr : F + 41 = F + 1 + 40 := rfl
  rw [hsr, hst, hcast, harr, a4, h40, show (40 : Int) - 40 = 0 from rfl,
    drain_first_miss F _ _ (by decide) (by rw [hfresh]; decide), hfresh, k1]
  rfl

/-- A trace of batches that ends by the stall exit: its most recent part is
the stalled batch. -/
theorem pump_shape_stall (B : Nat) (p : Int) (w : Nat) :
    ∀ (m : Nat) (tr : List Access) (ok : Bool), pump_shape B p w m tr ok → ok = false →
      ∃ polls v0 fill earlier,
        tr = init_writes p w ++ polls ++ Access.rd A32V_SPI_SR_OFFSET v0 :: fill ++ earlier ∧
        (∀ a ∈ polls, is_poll_empty a) ∧ (∀ a ∈ fill, is_fill_access a) ∧
        wrap32 (wrap32 (10 * p) - (polls.length : Int)) = 0 ∧
        last_status v0 polls &&& A32V_SPI_SR_TX_EMPTY_MASK = 0 ∧
        last_status v0 polls &&& A32V_SPI_SR_RX_EMPTY_MASK ≠ 0 := by
  intro m tr ok h
  induction h with
  | done => intro h; exact absurd h (by decide)
  | batch m fill drain rest v0 ok _ _ _ _ _ _ ih =>
    intro hok
    obtain ⟨polls, u0, fl, earlier, e1, e2, e3, e5, e6, e7⟩ := ih hok
    refine ⟨polls, u0, fl, earlier ++ drain ++ Access.rd A32V_SPI_SR_OFFSET v0 :: fill, ?_,
      e2, e3, e5, e6, e7⟩
    rw [e1]
    simp
  | stall m fill polls v0 hm hf hfl hp hc h4 h1 =>
    intro _
    exact ⟨polls, v0, fill, [], by simp, hp, hf, hc, h4, h1⟩

/-- Against a device that keeps reporting TX empty and RX empty, a pump call
with at least one word to move is still running after any number of steps. -/
theorem pump_mute (s : axil32v_spi σ) (t : spi_transfer)
    (hflag : ∀ r, (s.read_fn A32V_SPI_SR_OFFSET r).1 &&& A32V_SPI_SR_TX_EMPTY_MASK ≠ 0 ∧
      (s.read_fn A32V_SPI_SR_OFFSET r).1 &&& A32V_SPI_SR_RX_EMPTY_MASK ≠ 0)
    (hwords : 1 ≤ t.len / s.bytes_per_word) (hlen : t.len < 2147483648)
    (hbs : 1 ≤ s.buffer_size) :
    ∀ fuel, a32v_spi_txrx_bufs fuel s t = Exec.fuel := by
  intro fuel
  have hbpw : s.bytes_per_word ≠ 0 := by
    intro h
    rw [h, Nat.div_zero] at hwords
    omega
  have hu : u32 t.len = t.len := u32_of_lt (by omega)
  have hdiv : t.len / s.bytes_per_word < 2147483648 :=
    lt_of_le_of_lt (Nat.div_le_self _ _) hlen
  have hq0 : (0 : Int) ≤ ((t.len / s.bytes_per_word : Nat) : Int) := Int.natCast_nonneg _
  have hq1 : ((t.len / s.bytes_per_word : Nat) : Int) < 2147483648 := by exact_mod_cast hdiv
  rw [txrx_bufs_eq, if_neg hbpw, hu, wrap32_of_range (le_trans (by decide) hq0) hq1]
  cases fuel with
  | zero => rfl
  | succ fuel =>
    have hbs0 : 0 ≤ (txrx_entry s t).buffer_size := by
      show 0 ≤ s.buffer_size
      omega
    have hm0 : ((t.len / s.bytes_per_word : Nat) : Int) ≠ 0 := by omega
    rw [batch_loop, if_neg hm0]
    have hj : min (t.len / s.bytes_per_word) (txrx_entry s t).buffer_size.toNat < 2147483648 := by
      omega
    have hj1 : 1 ≤ min (t.len / s.bytes_per_word) (txrx_entry s t).buffer_size.toNat := by
      have : 1 ≤ (txrx_entry s t).buffer_size := hbs
      omega
    simp only [min_words_cast _ _ hbs0, tx_loop_eq _ hj]
    by_cases hB : min (t.len / s.bytes_per_word) (txrx_entry s t).buffer_size.toNat < fuel + 1
    · simp only [if_pos hB]
      have hrf : (a32v_spi_tx^[min (t.len / s.bytes_per_word)
          (txrx_entry s t).buffer_size.toNat] (txrx_entry s t)).read_fn = s.read_fn :=
        (same_cfg_tx_iter _ (txrx_entry s t)).1
      have hv4 : (reg_read (a32v_spi_tx^[min (t.len / s.bytes_per_word)
          (txrx_entry s t).buffer_size.toNat] (txrx_entry s t)) A32V_SPI_SR_OFFSET).1 &&&
          A32V_SPI_SR_TX_EMPTY_MASK ≠ 0 := by
        simp only [reg_read, hrf]
        rw [and_u32_mask _ _ (by decide)]
        exact (hflag _).1
      rw [drain_loop_mute _ s.read_fn hflag _ _ _ _ _ hj1 hj
        (by simp only [reg_read, hrf]) hv4]
    · simp only [if_neg hB]

/-- C17, the claim as stated fails.  The late controller reports RX empty at
every status read; for its first 41 status reads it reports TX empty as well,
afterwards TX not empty.  With prescale 4, which the configuration check
accepts, and one word to move, the stall test is due at drain iteration
`10 * 4 + 1 = 41`; there the status in hand (the 41st read) reports TX empty
and RX empty with the one word awaited, so no stall is declared and the pump
is still running after 50 steps.  The countdown is an `int` that is
decremented at every iteration; after `2^32` further decrements it is 0 again,
the status in hand then reports TX not empty and RX empty, and the pump
returns `-EIO`: a later iteration of the same batch does declare the stall and
the drain loop exits. -/
theorem stall_one_shot_counterexample :
    probe_check 4 1 = none ∧
    (∀ r, (late_read 41 A32V_SPI_SR_OFFSET r).1 &&& A32V_SPI_SR_RX_EMPTY_MASK ≠ 0) ∧
    10 * (late_attach 41 4).sclk_prescale + 1 = 41 ∧
    (late_read 41 A32V_SPI_SR_OFFSET 40).1 =
      A32V_SPI_SR_TX_EMPTY_MASK ||| A32V_SPI_SR_RX_EMPTY_MASK ∧
    (a32v_spi_txrx_bufs 50 (late_attach 41 4) xfer1).value = none ∧
    (∀ F, 4294967296 ≤ F →
      (a32v_spi_txrx_bufs (F + 41) (late_attach 41 4) xfer1).value = some (- EIO)) := by
  refine ⟨by decide, fun r => ?_, by decide, by decide, by decide, late_pump_stalls⟩
  by_cases h : r < 41
  · simp only [late_read, if_true, if_pos h]
    decide
  · simp only [late_read, if_true, if_neg h]
    decide

/-- C17, amended.  Stall declaration, on a controller of FIFO depth
`buffer_size ≥ 1` and for a request whose length fits an `int`.

Where a stall can be declared.  Whenever `a32v_spi_txrx_bufs` returns the
stall error, the call ended in a batch whose accesses are: its fill writes, one
status read, then status reads only, each of which reported RX empty (so no
word of the batch had been retired and every earlier drain iteration of the
batch made exactly one poll), then the three writes of `a32v_spi_init_hw`.  The
number of those polls is congruent to `10 * sclk_prescale` modulo `2^32` (the
stall exit is taken at drain iteration number polls + 1, when the wrapping
`int` countdown stands at 0), and the most recently read status value reports
TX not empty and RX empty.  A drain loop in which a word of the batch has been
retired (fewer words awaited than the batch has) never takes the stall exit.

The countdown comes round.  In a batch of which no word has been retired, with
the countdown at any value `stalled` and a status in hand that reports TX not
empty and RX empty, against a device that from then on reports TX not empty
and RX empty, the drain loop takes the stall exit after exactly `stalled`
read as a `u32` further polls.  A one-word batch whose stall test comes due
(countdown 0) with TX empty in hand declares no stall, polls, and goes on with
the countdown at -1, which is `2^32 - 1` as a `u32`: the test is due again
`2^32` iterations after the missed one.

Against a device that reports TX empty and RX empty at every status read no
stall is ever declared: a call with at least one word to move never
returns. -/
theorem stall_one_shot (fuel : Nat) (s s1 : axil32v_spi σ) (t : spi_transfer)
    (hbs : 1 ≤ s.buffer_size) (hlen : t.len < 2147483648) :
    (a32v_spi_txrx_bufs fuel s t = Exec.ret (- EIO, s1) →
      ∃ polls v0 fill earlier,
        s1.trace = init_writes s.sclk_prescale s.bytes_per_word ++ polls ++
          Access.rd A32V_SPI_SR_OFFSET v0 :: fill ++ earlier ++ s.trace ∧
        (∀ a ∈ polls, is_poll_empty a) ∧ (∀ a ∈ fill, is_fill_access a) ∧
        ((polls.length : Int) - 10 * s.sclk_prescale) % 4294967296 = 0 ∧
        last_status v0 polls &&& A32V_SPI_SR_TX_EMPTY_MASK = 0 ∧
        last_status v0 polls &&& A32V_SPI_SR_RX_EMPTY_MASK ≠ 0) ∧
    (∀ (n : Int) (F k : Nat) (stalled : Int) (sr : Nat) (x x1 : axil32v_spi σ) (e : Int),
      k < 2147483648 → (k : Int) < n →
      drain_loop n F (k : Int) stalled sr x ≠ Exec.ret (some e, x1)) ∧
    (∀ (n : Int) (Q : σ → Prop) (F : Nat) (stalled : Int) (sr : Nat) (x : axil32v_spi σ),
      n ≠ 0 → -2147483648 ≤ stalled → stalled < 2147483648 → int_to_u32 stalled < F →
      (∀ r, Q r → (x.read_fn A32V_SPI_SR_OFFSET r).1 &&& A32V_SPI_SR_RX_EMPTY_MASK ≠ 0 ∧
        (x.read_fn A32V_SPI_SR_OFFSET r).1 &&& A32V_SPI_SR_TX_EMPTY_MASK = 0 ∧
        Q (x.read_fn A32V_SPI_SR_OFFSET r).2) →
      Q x.regs →
      sr &&& A32V_SPI_SR_RX_EMPTY_MASK ≠ 0 → sr &&& A32V_SPI_SR_TX_EMPTY_MASK = 0 →
      ∃ x1 polls, drain_loop n F n stalled sr x = Exec.ret (some (- EIO), x1) ∧
        x1.trace = init_writes x.sclk_prescale x.bytes_per_word ++ polls ++ x.trace ∧
        polls.length = int_to_u32 stalled ∧ ∀ a ∈ polls, is_poll_empty a) ∧
    ((∀ (F sr : Nat) (x : axil32v_spi σ), sr &&& A32V_SPI_SR_TX_EMPTY_MASK ≠ 0 →
        (reg_read x A32V_SPI_SR_OFFSET).1 &&& A32V_SPI_SR_RX_EMPTY_MASK ≠ 0 →
        drain_loop 1 (F + 1) 1 0 sr x =
          drain_loop 1 F 1 (-1) (reg_read x A32V_SPI_SR_OFFSET).1
            (reg_read x A32V_SPI_SR_OFFSET).2) ∧
      int_to_u32 (-1) = 4294967295) ∧
    ((∀ r, (s.read_fn A32V_SPI_SR_OFFSET r).1 &&& A32V_SPI_SR_TX_EMPTY_MASK ≠ 0 ∧
        (s.read_fn A32V_SPI_SR_OFFSET r).1 &&& A32V_SPI_SR_RX_EMPTY_MASK ≠ 0) →
      1 ≤ t.len / s.bytes_per_word →
      ∀ F, a32v_spi_txrx_bufs F s t = Exec.fuel) := by
  refine ⟨fun h => ?_, ?_, ?_, ⟨fun F sr x h1 h2 => drain_first_miss F sr x h1 h2, by decide⟩,
    fun hflag hwords => pump_mute s t hflag hwords hlen hbs⟩
  · obtain ⟨tr, ok, h1, h2, h3, _⟩ := pump_batches fuel s s1 t (- EIO) (by omega) hlen h
    have hok : ok = false := by
      cases ok with
      | false => rfl
      | true =>
        have h5 : (-5 : Int) = (t.len : Int) := h3 rfl
        omega
    obtain ⟨polls, v0, fill, earlier, e1, e2, e3, e5, e6, e7⟩ :=
      pump_shape_stall _ _ _ _ _ _ h2 hok
    refine ⟨polls, v0, fill, earlier, ?_, e2, e3, ?_, e6, e7⟩
    · rw [h1, e1]
    · unfold wrap32 at e5
      omega
  · intro n F k stalled sr x x1 e hk hkn h
    obtain ⟨_, tr, _, h2⟩ := drain_loop_shape n F k stalled sr x x1 (some e) hk (by omega) h
    rcases h2 with ⟨ho, _⟩ | ⟨_, hkn', _⟩
    · exact absurd ho (by simp)
    · omega
  · intro n Q F stalled sr x hn hlo hhi hF hQ hq h1 h4
    obtain ⟨x1, polls, k1, k2, k3, k4⟩ := drain_loop_countdown n hn x.read_fn Q hQ
      (int_to_u32 stalled) F stalled sr x hlo hhi rfl hF rfl hq h1 h4
    exact ⟨x1, polls, k1, k2, k3, k4⟩

theorem stall_one_shot_witness :
    (1 ≤ (unit_attach wedged_read 4).buffer_size ∧ xfer8.len < 2147483648 ∧
      a32v_spi_txrx_bufs 42 (unit_attach wedged_read 4) xfer8 =
        Exec.ret (- EIO, (a32v_spi_txrx_bufs 42 (unit_attach wedged_read 4) xfer8).state
          (unit_attach wedged_read 4))) ∧
    ∃ polls v0 fill earlier,
      ((a32v_spi_txrx_bufs 42 (unit_attach wedged_read 4) xfer8).state
          (unit_attach wedged_read 4)).trace =
        init_writes (unit_attach wedged_read 4).sclk_prescale
          (unit_attach wedged_read 4).bytes_per_word ++ polls ++
          Access.rd A32V_SPI_SR_OFFSET v0 :: fill ++ earlier ++
          (unit_attach wedged_read 4).trace ∧
      (∀ a ∈ polls, is_poll_empty a) ∧ (∀ a ∈ fill, is_fill_access a) ∧
      ((polls.length : Int) - 10 * (unit_attach wedged_read 4).sclk_prescale) % 4294967296 = 0 ∧
      last_status v0 polls &&& A32V_SPI_SR_TX_EMPTY_MASK = 0 ∧
      last_status v0 polls &&& A32V_SPI_SR_RX_EMPTY_MASK ≠ 0 :=
  ⟨⟨by decide, by decide, rfl⟩,
    (stall_one_shot 42 (unit_attach wedged_read 4)
      ((a32v_spi_txrx_bufs 42 (unit_attach wedged_read 4) xfer8).state
        (unit_attach wedged_read 4)) xfer8 (by decide) (by decide)).1 rfl⟩
/-! ## The partial trailing word -/

theorem load_le_take (q : Nat) (X M : List Nat) (h : X.take q = M.take q) (n : Nat) :
    ∀ p, p + n ≤ q → load_le n X p = load_le n M p := by
  induction n with
  | zero => intro p _; rfl
  | succ n ih =>
    intro p hp
    have hg : X.getD p 0 = M.getD p 0 := by
      rw [List.getD_eq_getElem?_getD, List.getD_eq_getElem?_getD,
        ← List.getElem?_take_of_lt (show p < q by omega), h,
        List.getElem?_take_of_lt (show p < q by omega)]
    rw [load_le, load_le, hg, ih (p + 1) (by omega)]

theorem store_le_length (n : Nat) :
    ∀ (data : Nat) (mem : List Nat) (p : Nat), (store_le n data mem p).length = mem.length := by
  induction n with
  | zero => intro data mem p; rfl
  | succ n ih =>
    intro data mem p
    rw [store_le, ih, List.length_set]

theorem store_le_above (n : Nat) :
    ∀ (data : Nat) (mem : List Nat) (p i : Nat), p + n ≤ i →
      (store_le n data mem p).getD i 0 = mem.getD i 0 := by
  induction n with
  | zero => intro data mem p i _; rfl
  | succ n ih =>
    intro data mem p i hi
    rw [store_le, ih _ _ _ _ (by omega)]
    simp only [List.getD_eq_getElem?_getD]
    rw [List.getElem?_set_ne (by omega)]

theorem reg_read_with_txmem (M : List Nat) (x : axil32v_spi σ) (off : Nat) :
    reg_read (with_txmem M x) off = ((reg_read x off).1, with_txmem M (reg_read x off).2) := rfl

theorem rx_with_txmem (M : List Nat) (x : axil32v_spi σ) :
    a32v_spi_rx (with_txmem M x) = with_txmem M (a32v_spi_rx x) := by
  unfold a32v_spi_rx
  simp only [reg_read, with_txmem]
  cases x.rx_ptr <;> rfl

theorem init_hw_with_txmem (M : List Nat) (x : axil32v_spi σ) :
    a32v_spi_init_hw (with_txmem M x) = with_txmem M (a32v_spi_init_hw x) := rfl

theorem drain_loop_with_txmem (M : List Nat) (n : Int) :
    ∀ (F : Nat) (k stalled : Int) (sr : Nat) (x : axil32v_spi σ),
      drain_loop n F k stalled sr (with_txmem M x) =
        (drain_loop n F k stalled sr x).map (fun a => (a.1, with_txmem M a.2)) := by
  intro F
  induction F with
  | zero => intro k stalled sr x; rfl
  | succ F ih =>
    intro k stalled sr x
    rw [drain_loop, drain_loop]
    simp only
    split
    · rfl
    · split
      · rfl
      · split
        · rw [rx_with_txmem, ih]
        · rw [reg_read_with_txmem]
          simp only
          split
          · rw [rx_with_txmem, ih]
          · rw [ih]

theorem tx_with_txmem (q : Nat) (M : List Nat) (x : axil32v_spi σ)
    (hmem : x.txmem.take q = M.take q)
    (hroom : ∀ p, x.tx_ptr = some p → p + x.bytes_per_word ≤ q) :
    a32v_spi_tx (with_txmem M x) = with_txmem M (a32v_spi_tx x) := by
  unfold a32v_spi_tx
  cases hp : x.tx_ptr with
  | none =>
    have h1 : (with_txmem M x).tx_ptr = none := hp
    simp only [h1]
    rfl
  | some p =>
    have h1 : (with_txmem M x).tx_ptr = some p := hp
    have hr := hroom p hp
    have hw : (with_txmem M x).bytes_per_word = x.bytes_per_word := rfl
    have hm : (with_txmem M x).txmem = M := rfl
    simp only [h1, hw, hm]
    by_cases w1 : x.bytes_per_word = 1
    · simp only [w1, if_true]
      rw [load_le_take q x.txmem M hmem 1 p (by omega)]
      rfl
    · by_cases w2 : x.bytes_per_word = 2
      · simp only [w2, if_true, if_neg (show ¬ (2 = 1) by decide)]
        rw [load_le_take q x.txmem M hmem 2 p (by omega)]
        rfl
      · by_cases w4 : x.bytes_per_word = 4
        · simp only [w4, if_true, if_neg (show ¬ (4 = 1) by decide),
            if_neg (show ¬ (4 = 2) by decide)]
          rw [load_le_take q x.txmem M hmem 4 p (by omega)]
          rfl
        · simp only [if_neg w1, if_neg w2, if_neg w4]
          rfl

theorem tx_ptr_tx (x : axil32v_spi σ) :
    (a32v_spi_tx x).tx_ptr = x.tx_ptr.map (fun p => p + x.bytes_per_word) := by
  cases hp : x.tx_ptr with
  | none =>
    rw [tx_null x hp]
    exact hp
  | some p =>
    unfold a32v_spi_tx
    simp only [hp]
    rfl

theorem tx_iter_with_txmem (q : Nat) (M : List Nat) (k : Nat) :
    ∀ (x : axil32v_spi σ), x.txmem.take q = M.take q →
      (∀ p, x.tx_ptr = some p → p + k * x.bytes_per_word ≤ q) →
      a32v_spi_tx^[k] (with_txmem M x) = with_txmem M (a32v_spi_tx^[k] x) ∧
      (a32v_spi_tx^[k] x).txmem = x.txmem ∧
      (a32v_spi_tx^[k] x).tx_ptr = x.tx_ptr.map (fun p => p + k * x.bytes_per_word) := by
  induction k with
  | zero =>
    intro x _ _
    refine ⟨rfl, rfl, ?_⟩
    show x.tx_ptr = x.tx_ptr.map (fun p => p + 0 * x.bytes_per_word)
    cases x.tx_ptr <;> simp
  | succ k ih =>
    intro x hmem hroom
    have hw : (a32v_spi_tx x).bytes_per_word = x.bytes_per_word := (same_cfg_tx x).2.2.1
    have hx : (a32v_spi_tx x).txmem = x.txmem := (tx_keeps_rx x).2.2
    have hmul : (k + 1) * x.bytes_per_word = k * x.bytes_per_word + x.bytes_per_word :=
      Nat.succ_mul _ _
    have h1 := tx_with_txmem q M x hmem (fun p hp => by
      have := hroom p hp
      omega)
    obtain ⟨i1, i2, i3⟩ := ih (a32v_spi_tx x) (by rw [hx]; exact hmem) (fun p hp => by
      rw [tx_ptr_tx] at hp
      rw [hw]
      cases hq : x.tx_ptr with
      | none => rw [hq] at hp; exact absurd hp (by simp)
      | some p0 =>
        rw [hq] at hp
        injection hp with hp
        have hp1 : p0 + x.bytes_per_word = p := hp
        have hr := hroom p0 hq
        rw [hmul] at hr
        omega)
    refine ⟨?_, ?_, ?_⟩
    · rw [Function.iterate_succ_apply, Function.iterate_succ_apply, h1, i1]
    · rw [Function.iterate_succ_apply, i2, hx]
    · rw [Function.iterate_succ_apply, i3, tx_ptr_tx, hw]
      cases x.tx_ptr with
      | none => rfl
      | some p0 =>
        show some (p0 + x.bytes_per_word + k * x.bytes_per_word) =
          some (p0 + (k + 1) * x.bytes_per_word)
        rw [hmul]
        congr 1
        omega

theorem drain_keeps_tx (n : Int) (F : Nat) (k stalled : Int) (sr : Nat) (x x1 : axil32v_spi σ)
    (o : Option Int) (h : drain_loop n F k stalled sr x = Exec.ret (o, x1)) :
    x1.tx_ptr = x.tx_ptr ∧ x1.txmem = x.txmem ∧ same_cfg x x1 :=
  drain_loop_inv (fun z => z.tx_ptr = x.tx_ptr ∧ z.txmem = x.txmem ∧ same_cfg x z)
    (fun z hz => ⟨(rx_keeps_tx z).1.trans hz.1, (rx_keeps_tx z).2.trans hz.2.1,
      same_cfg_trans hz.2.2 (same_cfg_rx z)⟩)
    (fun z hz => ⟨hz.1, hz.2.1, same_cfg_trans hz.2.2 (same_cfg_reg_read z _)⟩)
    (fun z hz => ⟨hz.1, hz.2.1, same_cfg_trans hz.2.2 (same_cfg_init_hw z)⟩)
    n F k stalled sr x x1 o ⟨rfl, rfl, same_cfg_refl x⟩ h

/-- A pump whose transmit cursor has room for the `m` words still to send
below byte `q` behaves the same on two transmit buffers that agree below byte
`q`. -/
theorem batch_loop_with_txmem (q : Nat) (M : List Nat) (len budget : Nat) :
    ∀ (fuel m : Nat) (x : axil32v_spi σ), m < 2147483648 → 0 ≤ x.buffer_size →
      x.txmem.take q = M.take q →
      (∀ p, x.tx_ptr = some p → p + m * x.bytes_per_word ≤ q) →
      batch_loop len budget fuel (m : Int) (with_txmem M x) =
        (batch_loop len budget fuel (m : Int) x).map (fun a => (a.1, with_txmem M a.2)) := by
  intro fuel
  induction fuel with
  | zero => intro m x _ _ _ _; rfl
  | succ fuel ih =>
    intro m x hm hbs hmem hroom
    rw [batch_loop, batch_loop]
    by_cases hm0 : (m : Int) = 0
    · rw [if_pos hm0, if_pos hm0]
      rfl
    · rw [if_neg hm0, if_neg hm0]
      have hbsM : (with_txmem M x).buffer_size = x.buffer_size := rfl
      have hj : min m x.buffer_size.toNat < 2147483648 := by omega
      have hjm : min m x.buffer_size.toNat ≤ m := by omega
      have hsplit : m * x.bytes_per_word =
          min m x.buffer_size.toNat * x.bytes_per_word +
            (m - min m x.buffer_size.toNat) * x.bytes_per_word := by
        rw [← Nat.add_mul]
        congr 1
        omega
      obtain ⟨i1, i2, i3⟩ := tx_iter_with_txmem q M (min m x.buffer_size.toNat) x hmem
        (fun p hp => by
          have := hroom p hp
          omega)
      simp only [hbsM, min_words_cast m _ hbs, tx_loop_eq _ hj]
      by_cases hB : min m x.buffer_size.toNat < budget
      · simp only [if_pos hB]
        rw [i1, reg_read_with_txmem]
        simp only
        rw [drain_loop_with_txmem]
        have hps : (with_txmem M (reg_read (a32v_spi_tx^[min m x.buffer_size.toNat] x)
            A32V_SPI_SR_OFFSET).2).sclk_prescale =
            (reg_read (a32v_spi_tx^[min m x.buffer_size.toNat] x)
              A32V_SPI_SR_OFFSET).2.sclk_prescale := rfl
        rw [hps]
        cases hd : drain_loop (((min m x.buffer_size.toNat : Nat)) : Int) budget
            (((min m x.buffer_size.toNat : Nat)) : Int)
            (wrap32 (10 * (reg_read (a32v_spi_tx^[min m x.buffer_size.toNat] x)
              A32V_SPI_SR_OFFSET).2.sclk_prescale))
            (reg_read (a32v_spi_tx^[min m x.buffer_size.toNat] x) A32V_SPI_SR_OFFSET).1
            (reg_read (a32v_spi_tx^[min m x.buffer_size.toNat] x) A32V_SPI_SR_OFFSET).2 with
        | fuel => rfl
        | trap => rfl
        | ret a =>
          obtain ⟨o, s2⟩ := a
          cases o with
          | some e => rfl
          | none =>
            obtain ⟨d1, d2, d3⟩ := drain_keeps_tx _ _ _ _ _ _ _ _ hd
            have hc := same_cfg_trans (same_cfg_tx_iter (min m x.buffer_size.toNat) x) d3
            have hw : wrap32 ((m : Int) - ((min m x.buffer_size.toNat : Nat) : Int)) =
                ((m - min m x.buffer_size.toNat : Nat) : Int) := by
              rw [wrap32_of_range (by omega) (by omega)]
              omega
            simp only [Exec.map, hw]
            exact ih (m - min m x.buffer_size.toNat) s2 (by omega)
              (by rw [hc.2.2.2.2.1]; exact hbs)
              (by
                rw [d2]
                show List.take q (a32v_spi_tx^[min m x.buffer_size.toNat] x).txmem = _
                rw [i2]
                exact hmem)
              (fun p hp => by
                rw [d1] at hp
                have hp1 : (a32v_spi_tx^[min m x.buffer_size.toNat] x).tx_ptr = some p := hp
                rw [i3] at hp1
                rw [hc.2.2.1]
                cases hq : x.tx_ptr with
                | none => rw [hq] at hp1; exact absurd hp1 (by simp)
                | some p0 =>
                  rw [hq] at hp1
                  injection hp1 with hp1
                  have hp2 : p0 + min m x.buffer_size.toNat * x.bytes_per_word = p := hp1
                  have hr := hroom p0 hq
                  rw [hsplit] at hr
                  omega)
      · simp only [if_neg hB]
        rfl

theorem rx_effect (x : axil32v_spi σ) :
    (a32v_spi_rx x).rx_ptr = x.rx_ptr.map (fun p => p + x.bytes_per_word) ∧
    (a32v_spi_rx x).rxmem.length = x.rxmem.length ∧
    ∀ i, (∀ p, x.rx_ptr = some p → p + x.bytes_per_word ≤ i) →
      (a32v_spi_rx x).rxmem.getD i 0 = x.rxmem.getD i 0 := by
  cases hp : x.rx_ptr with
  | none =>
    rw [rx_null x hp]
    exact ⟨hp, rfl, fun _ _ => rfl⟩
  | some p =>
    have h1 : (reg_read x A32V_SPI_RXD_OFFSET).2.rx_ptr = some p := hp
    have hw : (reg_read x A32V_SPI_RXD_OFFSET).2.bytes_per_word = x.bytes_per_word := rfl
    have hm : (reg_read x A32V_SPI_RXD_OFFSET).2.rxmem = x.rxmem := rfl
    unfold a32v_spi_rx
    simp only [h1, hw, hm]
    refine ⟨rfl, ?_, fun i hi => ?_⟩
    · show (if x.bytes_per_word = 1 then _ else _ : List Nat).length = _
      split
      · exact store_le_length _ _ _ _
      · split
        · exact store_le_length _ _ _ _
        · split
          · exact store_le_length _ _ _ _
          · rfl
    · have hpi := hi p rfl
      show (if x.bytes_per_word = 1 then _ else _ : List Nat).getD i 0 = _
      split
      · exact store_le_above _ _ _ _ _ (by omega)
      · split
        · exact store_le_above _ _ _ _ _ (by omega)
        · split
          · exact store_le_above _ _ _ _ _ (by omega)
          · rfl

theorem cursors_follow_tx (base : List Access) (w : Nat) (Y : List Nat) (tx0 rx0 : Option Nat)
    (x : axil32v_spi σ) (h : cursors_follow base w Y tx0 rx0 x) :
    cursors_follow base w Y tx0 rx0 (a32v_spi_tx x) := by
  obtain ⟨hw, tr, h1, h2, h3, h4, h5⟩ := h
  obtain ⟨v, hv⟩ := tx_trace x
  obtain ⟨k1, k2, _⟩ := tx_keeps_rx x
  have cw : count_wr A32V_SPI_TXD_OFFSET (Access.wr A32V_SPI_TXD_OFFSET v :: tr) =
      count_wr A32V_SPI_TXD_OFFSET tr + 1 := by
    simp [count_wr, Access.is_wr]
  have cr : count_rd A32V_SPI_RXD_OFFSET (Access.wr A32V_SPI_TXD_OFFSET v :: tr) =
      count_rd A32V_SPI_RXD_OFFSET tr := by
    simp [count_rd, Access.is_rd]
  refine ⟨(same_cfg_tx x).2.2.1.trans hw, Access.wr A32V_SPI_TXD_OFFSET v :: tr, ?_, ?_, ?_, ?_, ?_⟩
  · rw [hv, h1]
    rfl
  · rw [tx_ptr_tx, h2, hw, cw, Nat.add_mul, Nat.one_mul]
    cases tx0 with
    | none => rfl
    | some p => exact congrArg some (Nat.add_assoc _ _ _)
  · rw [k1, cr]
    exact h3
  · rw [k2]
    exact h4
  · rw [cr, k2]
    exact h5

theorem cursors_follow_rx (base : List Access) (w : Nat) (Y : List Nat) (tx0 rx0 : Option Nat)
    (x : axil32v_spi σ) (h : cursors_follow base w Y tx0 rx0 x) :
    cursors_follow base w Y tx0 rx0 (a32v_spi_rx x) := by
  obtain ⟨hw, tr, h1, h2, h3, h4, h5⟩ := h
  obtain ⟨v, hv⟩ := rx_trace x
  obtain ⟨k1, _⟩ := rx_keeps_tx x
  obtain ⟨e1, e2, e3⟩ := rx_effect x
  have cw : count_wr A32V_SPI_TXD_OFFSET (Access.rd A32V_SPI_RXD_OFFSET v :: tr) =
      count_wr A32V_SPI_TXD_OFFSET tr := by
    simp [count_wr, Access.is_wr]
  have cr : count_rd A32V_SPI_RXD_OFFSET (Access.rd A32V_SPI_RXD_OFFSET v :: tr) =
      count_rd A32V_SPI_RXD_OFFSET tr + 1 := by
    simp [count_rd, Access.is_rd]
  refine ⟨(same_cfg_rx x).2.2.1.trans hw, Access.rd A32V_SPI_RXD_OFFSET v :: tr, ?_, ?_, ?_, ?_, ?_⟩
  · rw [hv, h1]
    rfl
  · rw [k1, cw]
    exact h2
  · rw [e1, h3, hw, cr, Nat.add_mul, Nat.one_mul]
    cases rx0 with
    | none => rfl
    | some p => exact congrArg some (Nat.add_assoc _ _ _)
  · rw [e2]
    exact h4
  · intro i hi
    rw [cr, Nat.add_mul, Nat.one_mul] at hi
    rw [e3 i (fun p hp => by
      rw [h3] at hp
      rw [hw]
      cases rx0 with
      | none => exact absurd hp (by simp)
      | some p0 =>
        injection hp with hp
        have hp1 : p0 + count_rd A32V_SPI_RXD_OFFSET tr * w = p := hp
        have := hi p0 rfl
        omega)]
    exact h5 i (fun p hp => by
      have := hi p hp
      omega)

theorem cursors_follow_quiet (base : List Access) (w : Nat) (Y : List Nat)
    (tx0 rx0 : Option Nat) (x y : axil32v_spi σ) (quiet : List Access)
    (h : cursors_follow base w Y tx0 rx0 x)
    (hq : count_wr A32V_SPI_TXD_OFFSET quiet = 0 ∧ count_rd A32V_SPI_RXD_OFFSET quiet = 0)
    (ht : y.trace = quiet ++ x.trace) (hw : y.bytes_per_word = x.bytes_per_word)
    (htx : y.tx_ptr = x.tx_ptr) (hrx : y.rx_ptr = x.rx_ptr) (hm : y.rxmem = x.rxmem) :
    cursors_follow base w Y tx0 rx0 y := by
  obtain ⟨h0, tr, h1, h2, h3, h4, h5⟩ := h
  refine ⟨hw.trans h0, quiet ++ tr, ?_, ?_, ?_, ?_, ?_⟩
  · rw [ht, h1, List.append_assoc]
  · rw [htx, count_wr_append, hq.1, Nat.zero_add]
    exact h2
  · rw [hrx, count_rd_append, hq.2, Nat.zero_add]
    exact h3
  · rw [hm]
    exact h4
  · rw [hm, count_rd_append, hq.2, Nat.zero_add]
    exact h5

theorem pump_cursors (fuel : Nat) (s s1 : axil32v_spi σ) (t : spi_transfer) (r : Int)
    (h : a32v_spi_txrx_bufs fuel s t = Exec.ret (r, s1)) :
    cursors_follow s.trace s.bytes_per_word (t.rx_buf.getD [])
      (t.tx_buf.map (fun _ => 0)) (t.rx_buf.map (fun _ => 0)) s1 := by
  refine pump_inv
    (cursors_follow s.trace s.bytes_per_word (t.rx_buf.getD [])
      (t.tx_buf.map (fun _ => 0)) (t.rx_buf.map (fun _ => 0)))
    (cursors_follow_tx _ _ _ _ _) (cursors_follow_rx _ _ _ _ _)
    (fun x hx => cursors_follow_quiet _ _ _ _ _ x _
      [Access.rd A32V_SPI_SR_OFFSET (reg_read x A32V_SPI_SR_OFFSET).1] hx
      ⟨rfl, rfl⟩ rfl rfl rfl rfl rfl)
    (fun x hx => cursors_follow_quiet _ _ _ _ _ x _
      (init_writes x.sclk_prescale x.bytes_per_word) hx
      (count_of_init_writes _ _) (init_hw_trace x) rfl rfl rfl rfl)
    fuel s s1 t r ?_ h
  refine ⟨rfl, [], rfl, ?_, ?_, rfl, fun _ _ => rfl⟩
  · show Option.map (fun _ => 0) t.tx_buf = _
    cases t.tx_buf <;> simp [count_wr]
  · show Option.map (fun _ => 0) t.rx_buf = _
    cases t.rx_buf <;> simp [count_rd]

/-- The pump reads the transmit buffer only below byte
`len / bytes_per_word * bytes_per_word`: on two transmit buffers that agree
below that byte it runs the same. -/
theorem pump_with_tx_buf (F : Nat) (s : axil32v_spi σ) (t : spi_transfer) (X M : List Nat)
    (hbs : 0 ≤ s.buffer_size) (hlen : t.len < 2147483648) (hX : t.tx_buf = some X)
    (hXM : X.take (t.len / s.bytes_per_word * s.bytes_per_word) =
      M.take (t.len / s.bytes_per_word * s.bytes_per_word)) :
    a32v_spi_txrx_bufs F s (with_tx_buf M t) =
      (a32v_spi_txrx_bufs F s t).map (fun a => (a.1, with_txmem M a.2)) := by
  rw [txrx_bufs_eq, txrx_bufs_eq]
  by_cases hw : s.bytes_per_word = 0
  · rw [if_pos hw, if_pos hw]
    rfl
  · rw [if_neg hw, if_neg hw]
    have hu : u32 t.len = t.len := u32_of_lt (by omega)
    have hdiv : t.len / s.bytes_per_word < 2147483648 :=
      lt_of_le_of_lt (Nat.div_le_self _ _) hlen
    have hq0 : (0 : Int) ≤ ((t.len / s.bytes_per_word : Nat) : Int) := Int.natCast_nonneg _
    have hq1 : ((t.len / s.bytes_per_word : Nat) : Int) < 2147483648 := by exact_mod_cast hdiv
    have he : txrx_entry s (with_tx_buf M t) = with_txmem M (txrx_entry s t) := by
      simp only [txrx_entry, with_tx_buf, with_txmem, hX]
      rfl
    have hl : (with_tx_buf M t).len = t.len := rfl
    rw [hl, he, hu, wrap32_of_range (le_trans (by decide) hq0) hq1]
    refine batch_loop_with_txmem (t.len / s.bytes_per_word * s.bytes_per_word) M _ _ _ _
      (txrx_entry s t) hdiv hbs ?_ ?_
    · show List.take _ (t.tx_buf.getD []) = _
      rw [hX]
      exact hXM
    · intro p hp
      have hp1 : t.tx_buf.map (fun _ => 0) = some p := hp
      rw [hX] at hp1
      injection hp1 with hp1
      have hp2 : 0 = p := hp1
      subst hp2
      show 0 + t.len / s.bytes_per_word * s.bytes_per_word ≤ _
      omega

/-- C18. Partial trailing word: on a controller with non-negative FIFO depth,
for a request whose length `len` fits an `int` (a multiple of the packing
width `w = bytes_per_word` or not), whenever `a32v_spi_txrx_bufs` returns
without the stall error, it returns `len` although it has moved only
`len / w` words (that many writes to the transmit-data register and reads of
the receive-data register); the transmit and receive cursors, where the
request has the buffer, stand `len / w * w` bytes beyond its start; the
receive buffer has kept its length and every byte from offset `len / w * w`
on, among them the last `len mod w` bytes; and the bytes of the transmit
buffer from offset `len / w * w` on are never read: with any other bytes there
the pump makes the same accesses and ends in the same state with the same
value. -/
theorem partial_trailing_word (fuel : Nat) (s s1 : axil32v_spi σ) (t : spi_transfer)
    (r : Int) (hbs : 0 ≤ s.buffer_size) (hlen : t.len < 2147483648)
    (h : a32v_spi_txrx_bufs fuel s t = Exec.ret (r, s1)) (hok : r ≠ - EIO) :
    r = (t.len : Int) ∧
    t.len / s.bytes_per_word * s.bytes_per_word + t.len % s.bytes_per_word = t.len ∧
    (∃ tr, s1.trace = tr ++ s.trace ∧
      count_wr A32V_SPI_TXD_OFFSET tr = t.len / s.bytes_per_word ∧
      count_rd A32V_SPI_RXD_OFFSET tr = t.len / s.bytes_per_word) ∧
    s1.tx_ptr = t.tx_buf.map (fun _ => t.len / s.bytes_per_word * s.bytes_per_word) ∧
    s1.rx_ptr = t.rx_buf.map (fun _ => t.len / s.bytes_per_word * s.bytes_per_word) ∧
    s1.rxmem.length = (t.rx_buf.getD []).length ∧
    (∀ i, t.len / s.bytes_per_word * s.bytes_per_word ≤ i →
      s1.rxmem.getD i 0 = (t.rx_buf.getD []).getD i 0) ∧
    (∀ (X M : List Nat) (F : Nat), t.tx_buf = some X →
      X.take (t.len / s.bytes_per_word * s.bytes_per_word) =
        M.take (t.len / s.bytes_per_word * s.bytes_per_word) →
      a32v_spi_txrx_bufs F s (with_tx_buf M t) =
        (a32v_spi_txrx_bufs F s t).map (fun a => (a.1, with_txmem M a.2))) := by
  obtain ⟨tr, k1, k2⟩ := pump_counts fuel s s1 t r hbs hlen h
  obtain ⟨_, tr1, c1, c2, c3, c4, c5⟩ := pump_cursors fuel s s1 t r h
  have htr : tr1 = tr := List.append_cancel_right (c1.symm.trans k1)
  subst htr
  rcases k2 with ⟨hr, w1, w2⟩ | ⟨hr, _⟩
  · rw [w1] at c2
    rw [w2] at c3 c5
    refine ⟨hr, ?_, ⟨tr1, k1, w1, w2⟩, ?_, ?_, c4, fun i hi => c5 i (fun p hp => ?_),
      fun X M F hX hXM => pump_with_tx_buf F s t X M hbs hlen hX hXM⟩
    · rw [Nat.mul_comm]
      exact Nat.div_add_mod _ _
    · rw [c2]
      cases t.tx_buf <;> simp
    · rw [c3]
      cases t.rx_buf <;> simp
    · cases hb : t.rx_buf with
      | none => rw [hb] at hp; exact absurd hp (by simp)
      | some Y =>
        rw [hb] at hp
        injection hp with hp
        have hp1 : 0 = p := hp
        omega
  · exact absurd hr hok

theorem partial_trailing_word_witness :
    (0 ≤ loop_ready12.buffer_size ∧ xfer_odd.len < 2147483648 ∧
      a32v_spi_txrx_bufs 10 loop_ready12 xfer_odd =
        Exec.ret (5, (a32v_spi_txrx_bufs 10 loop_ready12 xfer_odd).state loop_ready12) ∧
      (5 : Int) ≠ - EIO ∧ xfer_odd.len % loop_ready12.bytes_per_word ≠ 0) ∧
    (5 : Int) = (xfer_odd.len : Int) ∧
    ((a32v_spi_txrx_bufs 10 loop_ready12 xfer_odd).state loop_ready12).tx_ptr =
      xfer_odd.tx_buf.map
        (fun _ => xfer_odd.len / loop_ready12.bytes_per_word * loop_ready12.bytes_per_word) ∧
    ((a32v_spi_txrx_bufs 10 loop_ready12 xfer_odd).state loop_ready12).rx_ptr =
      xfer_odd.rx_buf.map
        (fun _ => xfer_odd.len / loop_ready12.bytes_per_word * loop_ready12.bytes_per_word) ∧
    (∀ i, xfer_odd.len / loop_ready12.bytes_per_word * loop_ready12.bytes_per_word ≤ i →
      ((a32v_spi_txrx_bufs 10 loop_ready12 xfer_odd).state loop_ready12).rxmem.getD i 0 =
        (xfer_odd.rx_buf.getD []).getD i 0) :=
  ⟨⟨by decide, by decide, rfl, by decide, by decide⟩,
    (partial_trailing_word 10 loop_ready12
      ((a32v_spi_txrx_bufs 10 loop_ready12 xfer_odd).state loop_ready12) xfer_odd 5
      (by decide) (by decide) rfl (by decide)).1,
    (partial_trailing_word 10 loop_ready12
      ((a32v_spi_txrx_bufs 10 loop_ready12 xfer_odd).state loop_ready12) xfer_odd 5
      (by decide) (by decide) rfl (by decide)).2.2.2.1,
    (partial_trailing_word 10 loop_ready12
      ((a32v_spi_txrx_bufs 10 loop_ready12 xfer_odd).state loop_ready12) xfer_odd 5
      (by decide) (by decide) rfl (by decide)).2.2.2.2.1,
    (partial_trailing_word 10 loop_ready12
      ((a32v_spi_txrx_bufs 10 loop_ready12 xfer_odd).state loop_ready12) xfer_odd 5
      (by decide) (by decide) rfl (by decide)).2.2.2.2.2.2.1⟩

end A32V
